import Mathlib

/-!
Verification development for the render-pass layout and reconstruction-filter
subsystem of the Cycles film module (`intern/cycles/render/film.cpp`).

The definitions below are a shallow embedding of that file.  Pass metadata
(`Pass::get_info`, `Pass::is_written`, the pass-type enumeration order) lives in
`pass.cpp` / `pass.h`, which are not part of the sample; those parts are
modelled from the specification and are marked `Modelled from the spec:` in
their doc comments.
-/

/-- The pass-type enumeration.  The constructors are exactly the types named by
the switch in `Film::device_update` plus `NONE`.  (`pass.h` is not in the
sample; the set of types is taken from `film.cpp` itself, which handles each of
them explicitly.) -/
inductive PassType where
  | NONE
  | COMBINED
  | DEPTH
  | NORMAL
  | POSITION
  | ROUGHNESS
  | UV
  | MOTION
  | MOTION_WEIGHT
  | OBJECT_ID
  | MATERIAL_ID
  | MIST
  | EMISSION
  | BACKGROUND
  | AO
  | SHADOW
  | DIFFUSE_COLOR
  | GLOSSY_COLOR
  | TRANSMISSION_COLOR
  | DIFFUSE_INDIRECT
  | GLOSSY_INDIRECT
  | TRANSMISSION_INDIRECT
  | VOLUME_INDIRECT
  | DIFFUSE_DIRECT
  | GLOSSY_DIRECT
  | TRANSMISSION_DIRECT
  | VOLUME_DIRECT
  | CRYPTOMATTE
  | DENOISING_NORMAL
  | DENOISING_ALBEDO
  | SHADOW_CATCHER
  | SHADOW_CATCHER_SAMPLE_COUNT
  | SHADOW_CATCHER_MATTE
  | ADAPTIVE_AUX_BUFFER
  | SAMPLE_COUNT
  | AOV_COLOR
  | AOV_VALUE
  | BAKE_PRIMITIVE
  | BAKE_DIFFERENTIAL
  | RENDER_TIME
  deriving DecidableEq, Fintype

/-- Modelled from the spec: the integer value of each enumerator (`pass.h` is
not in the sample).  The numbering follows the order in which the spec's data
model lists the pass kinds; in particular `Cryptomatte` precedes `AOVColor` and
`AOVValue`.  Used by `compare_pass_order` as the `a->type < b->type` tie
breaker. -/
def typeId : PassType → Nat
  | PassType.COMBINED => 0
  | PassType.DEPTH => 1
  | PassType.NORMAL => 2
  | PassType.POSITION => 3
  | PassType.ROUGHNESS => 4
  | PassType.UV => 5
  | PassType.MOTION => 6
  | PassType.MOTION_WEIGHT => 7
  | PassType.OBJECT_ID => 8
  | PassType.MATERIAL_ID => 9
  | PassType.MIST => 10
  | PassType.EMISSION => 11
  | PassType.BACKGROUND => 12
  | PassType.AO => 13
  | PassType.SHADOW => 14
  | PassType.DIFFUSE_COLOR => 15
  | PassType.GLOSSY_COLOR => 16
  | PassType.TRANSMISSION_COLOR => 17
  | PassType.DIFFUSE_INDIRECT => 18
  | PassType.GLOSSY_INDIRECT => 19
  | PassType.TRANSMISSION_INDIRECT => 20
  | PassType.VOLUME_INDIRECT => 21
  | PassType.DIFFUSE_DIRECT => 22
  | PassType.GLOSSY_DIRECT => 23
  | PassType.TRANSMISSION_DIRECT => 24
  | PassType.VOLUME_DIRECT => 25
  | PassType.CRYPTOMATTE => 26
  | PassType.DENOISING_NORMAL => 27
  | PassType.DENOISING_ALBEDO => 28
  | PassType.SHADOW_CATCHER => 29
  | PassType.SHADOW_CATCHER_SAMPLE_COUNT => 30
  | PassType.SHADOW_CATCHER_MATTE => 31
  | PassType.ADAPTIVE_AUX_BUFFER => 32
  | PassType.SAMPLE_COUNT => 33
  | PassType.AOV_COLOR => 34
  | PassType.AOV_VALUE => 35
  | PassType.BAKE_PRIMITIVE => 36
  | PassType.BAKE_DIFFERENTIAL => 37
  | PassType.RENDER_TIME => 38
  | PassType.NONE => 39

/-- The category of a pass type, deciding which feature bitmask the pass
contributes to in `Film::device_update` (`type <= PASS_CATEGORY_LIGHT_END`,
`type <= PASS_CATEGORY_DATA_END`, bake range).  Modelled from the spec: the
category boundaries live in the missing `pass.h`; the split below follows the
spec's light-category / data-category / bake-category description. -/
inductive PassCategory where
  | LIGHT
  | DATA
  | BAKE
  deriving DecidableEq

/-- Modelled from the spec: category classification of each pass type (the
`PASS_CATEGORY_*_END` comparisons of the missing `pass.h`). -/
def pass_category : PassType → PassCategory
  | PassType.COMBINED => PassCategory.LIGHT
  | PassType.EMISSION => PassCategory.LIGHT
  | PassType.BACKGROUND => PassCategory.LIGHT
  | PassType.AO => PassCategory.LIGHT
  | PassType.SHADOW => PassCategory.LIGHT
  | PassType.DIFFUSE_COLOR => PassCategory.LIGHT
  | PassType.GLOSSY_COLOR => PassCategory.LIGHT
  | PassType.TRANSMISSION_COLOR => PassCategory.LIGHT
  | PassType.DIFFUSE_DIRECT => PassCategory.LIGHT
  | PassType.DIFFUSE_INDIRECT => PassCategory.LIGHT
  | PassType.GLOSSY_DIRECT => PassCategory.LIGHT
  | PassType.GLOSSY_INDIRECT => PassCategory.LIGHT
  | PassType.TRANSMISSION_DIRECT => PassCategory.LIGHT
  | PassType.TRANSMISSION_INDIRECT => PassCategory.LIGHT
  | PassType.VOLUME_DIRECT => PassCategory.LIGHT
  | PassType.VOLUME_INDIRECT => PassCategory.LIGHT
  | PassType.BAKE_PRIMITIVE => PassCategory.BAKE
  | PassType.BAKE_DIFFERENTIAL => PassCategory.BAKE
  | _ => PassCategory.DATA

/-- Pass mode: noisy accumulation buffer or denoised counterpart. -/
inductive PassMode where
  | NOISY
  | DENOISED
  deriving DecidableEq, Fintype

/-- A render pass, as declared on the scene (`Pass` node).  `is_auto` is the
`is_auto_` flag set by `Film::add_auto_pass`.  `written` models the
`Pass::is_written()` query of the missing `pass.cpp` (whether the pass is
actually requested for output); it is carried as a plain attribute. -/
structure Pass where
  type : PassType
  mode : PassMode
  name : String
  is_auto : Bool
  written : Bool
  deriving DecidableEq

/-- Modelled from the spec: the per-type pass metadata provided by
`Pass::get_info` of the missing `pass.cpp` — the component count
(`num_components`, derived from the type), the denoising capability
(`support_denoise`) and the derived dependency relations (`divide_type`,
`direct_type`, `indirect_type`, with `PassType.NONE` meaning no dependency).
The spec describes these as derived from the pass type, so they are functions
on `PassType`; the development is parametric in them. -/
structure PassRegistry where
  num_components : PassType → Nat
  support_denoise : PassType → Bool
  divide_type : PassType → PassType
  direct_type : PassType → PassType
  indirect_type : PassType → PassType

/-- The kernel-facing film record (`KernelFilm`), restricted to the fields
`Film::device_update` writes in its pass-layout walk.  All type-specific
offset fields are collected into the single map `pass_ofs` (one field per pass
type in the C struct). -/
structure KernelFilm where
  pass_ofs : PassType → Int
  pass_stride : Nat
  pass_flag : Nat
  light_pass_flag : Nat

/-- `PASS_UNUSED` sentinel. -/
def PASS_UNUSED : Int := -1

/-- Point update of an offset-field map. -/
def setOfs (f : PassType → Int) (t : PassType) (v : Int) : PassType → Int :=
  fun u => if u = t then v else f u

/-- The offset fields that `Film::device_update` resets to `PASS_UNUSED`
before the walk (lines 178-201). -/
def resetTypes : List PassType :=
  [PassType.BACKGROUND, PassType.EMISSION, PassType.AO,
   PassType.DIFFUSE_DIRECT, PassType.DIFFUSE_INDIRECT,
   PassType.GLOSSY_DIRECT, PassType.GLOSSY_INDIRECT,
   PassType.TRANSMISSION_DIRECT, PassType.TRANSMISSION_INDIRECT,
   PassType.VOLUME_DIRECT, PassType.VOLUME_INDIRECT,
   PassType.SHADOW,
   PassType.DENOISING_NORMAL, PassType.DENOISING_ALBEDO,
   PassType.SAMPLE_COUNT, PassType.ADAPTIVE_AUX_BUFFER,
   PassType.SHADOW_CATCHER, PassType.SHADOW_CATCHER_SAMPLE_COUNT,
   PassType.SHADOW_CATCHER_MATTE]

/-- The initialisation `Film::device_update` performs before walking the pass
list: `pass_flag = 0`, `light_pass_flag = 0`, `pass_stride = 0`, and the
fields of `resetTypes` marked `PASS_UNUSED`.  Fields outside `resetTypes`
keep whatever value the incoming record held. -/
def film_device_init (k : KernelFilm) : KernelFilm :=
  { pass_ofs := fun t => if t ∈ resetTypes then PASS_UNUSED else k.pass_ofs t
    pass_stride := 0
    pass_flag := 0
    light_pass_flag := 0 }

/-- The bit a pass type contributes to its category bitmask:
`1 << (pass->type % 32)`. -/
def passFlagBit (t : PassType) : Nat := 2 ^ (typeId t % 32)

/-- The category-bitmask update of `Film::device_update` (lines 229-238):
light-category types set `light_pass_flag`, data-category types set
`pass_flag`, bake types set neither. -/
def film_pass_flags (k : KernelFilm) (t : PassType) : KernelFilm :=
  match pass_category t with
  | PassCategory.LIGHT => { k with light_pass_flag := k.light_pass_flag ||| passFlagBit t }
  | PassCategory.DATA => { k with pass_flag := k.pass_flag ||| passFlagBit t }
  | PassCategory.BAKE => k

/-- A primary offset recording: a pass of type `ptype` was assigned the offset
`offset` (the stride counter at that moment) for `ncomp` components.  The
`recs` field of `UpdState` is a ghost observation trace of the plain
`kfilm->pass_X = kfilm->pass_stride` switch cases; the Cryptomatte / AOV /
RenderTime cases are not primary recordings. -/
structure PrimaryRec where
  ptype : PassType
  offset : Nat
  ncomp : Nat
  deriving DecidableEq

/-- Loop state of the pass-layout walk of `Film::device_update`: the kernel
film record plus the local `have_cryptomatte` / `have_aov_color` /
`have_aov_value` flags.  `recs`, `crypto_offsets`, `aov_color_offsets` and
`aov_value_offsets` are ghost observation traces (they record the offsets the
walk assigns; they do not influence the computation). -/
structure UpdState where
  kfilm : KernelFilm
  have_cryptomatte : Bool
  have_aov_color : Bool
  have_aov_value : Bool
  recs : List PrimaryRec
  crypto_offsets : List Nat
  aov_color_offsets : List Nat
  aov_value_offsets : List Nat

/-- One iteration of the pass-layout walk of `Film::device_update`
(lines 207-380), for pass `p`.  `motion_pass` is
`scene->need_motion() == Scene::MOTION_PASS`. -/
def film_pass_step (R : PassRegistry) (motion_pass : Bool) (s : UpdState) (p : Pass) :
    UpdState :=
  if p.type = PassType.NONE ∨ p.written = false then
    s
  else if p.mode = PassMode.DENOISED then
    { s with kfilm :=
        { s.kfilm with pass_stride := s.kfilm.pass_stride + R.num_components p.type } }
  else if (p.type = PassType.MOTION ∨ p.type = PassType.MOTION_WEIGHT) ∧
      motion_pass = false then
    { s with kfilm :=
        { s.kfilm with pass_stride := s.kfilm.pass_stride + R.num_components p.type } }
  else
    let k := film_pass_flags s.kfilm p.type
    let s2 : UpdState :=
      match p.type with
      | PassType.RENDER_TIME =>
          { s with kfilm := k }
      | PassType.CRYPTOMATTE =>
          let v : Int :=
            if s.have_cryptomatte then
              min (k.pass_ofs PassType.CRYPTOMATTE) (k.pass_stride : Int)
            else (k.pass_stride : Int)
          { s with
            kfilm := { k with pass_ofs := setOfs k.pass_ofs PassType.CRYPTOMATTE v },
            have_cryptomatte := true,
            crypto_offsets := s.crypto_offsets ++ [k.pass_stride] }
      | PassType.AOV_COLOR =>
          if s.have_aov_color then
            { s with
              kfilm := k,
              aov_color_offsets := s.aov_color_offsets ++ [k.pass_stride] }
          else
            { s with
              kfilm := { k with
                pass_ofs := setOfs k.pass_ofs PassType.AOV_COLOR (k.pass_stride : Int) },
              have_aov_color := true,
              aov_color_offsets := s.aov_color_offsets ++ [k.pass_stride] }
      | PassType.AOV_VALUE =>
          if s.have_aov_value then
            { s with
              kfilm := k,
              aov_value_offsets := s.aov_value_offsets ++ [k.pass_stride] }
          else
            { s with
              kfilm := { k with
                pass_ofs := setOfs k.pass_ofs PassType.AOV_VALUE (k.pass_stride : Int) },
              have_aov_value := true,
              aov_value_offsets := s.aov_value_offsets ++ [k.pass_stride] }
      | PassType.NONE =>
          -- unreachable: filtered by the `PASS_NONE` guard above
          -- (the source's `default: assert(false)` class).
          { s with kfilm := k }
      | _ =>
          { s with
            kfilm := { k with
              pass_ofs := setOfs k.pass_ofs p.type (k.pass_stride : Int) },
            recs := s.recs ++ [⟨p.type, k.pass_stride, R.num_components p.type⟩] }
    { s2 with kfilm :=
        { s2.kfilm with pass_stride := s2.kfilm.pass_stride + R.num_components p.type } }

/-- The pass-layout walk of `Film::device_update`: initialise the kernel film
record, then fold the step over `scene->passes`. -/
def film_device_update_passes (R : PassRegistry) (motion_pass : Bool)
    (passes : List Pass) (k : KernelFilm) : UpdState :=
  passes.foldl (film_pass_step R motion_pass)
    ⟨film_device_init k, false, false, false, [], [], [], []⟩

/-- The recursion of `Film::get_aov_offset` (film.cpp lines 404-428): walk the
declared passes in order, keeping separate running offsets for AOV colour and
AOV value passes; the first pass whose name matches and is an AOV pass decides
the result.  The C function returns `-1` with `is_color` untouched when no
such pass exists; that sentinel is modelled as `none`, and a hit as
`some (offset, is_color)`. -/
def get_aov_offset_go (R : PassRegistry) (name : String) :
    List Pass → Nat → Nat → Option (Nat × Bool)
  | [], _, _ => none
  | p :: rest, offset_color, offset_value =>
    if p.name = name ∧ p.type = PassType.AOV_VALUE then
      some (offset_value, false)
    else if p.name = name ∧ p.type = PassType.AOV_COLOR then
      some (offset_color, true)
    else
      get_aov_offset_go R name rest
        (if p.type = PassType.AOV_COLOR then offset_color + R.num_components p.type
         else offset_color)
        (if p.type = PassType.AOV_VALUE then offset_value + R.num_components p.type
         else offset_value)

/-- `Film::get_aov_offset(scene, name, is_color)`. -/
def get_aov_offset (R : PassRegistry) (passes : List Pass) (name : String) :
    Option (Nat × Bool) :=
  get_aov_offset_go R name passes 0 0

/-- Modelled from the spec: `Pass::find(passes, type, mode)` of the missing
`pass.cpp` — the first pass of the given type and mode, if any. -/
def pass_find (passes : List Pass) (t : PassType) (m : PassMode) : Option Pass :=
  passes.find? (fun p => p.type = t ∧ p.mode = m)

/-- Modelled from the spec: `Pass::contains(passes, type)` of the missing
`pass.cpp` — whether a pass of the given type is declared. -/
def pass_contains (passes : List Pass) (t : PassType) : Bool :=
  passes.any (fun p => p.type = t)

/-- `Film::get_actual_display_pass(scene, pass)` (film.cpp lines 442-457):
substitute the shadow-catcher matte pass for Combined when the scene has a
shadow catcher.  `has_shadow_catcher` is `scene->has_shadow_catcher()`. -/
def get_actual_display_pass_of (has_shadow_catcher : Bool) (passes : List Pass)
    (pass : Option Pass) : Option Pass :=
  match pass with
  | none => none
  | some p =>
    if p.type = PassType.COMBINED ∧ has_shadow_catcher then
      match pass_find passes PassType.SHADOW_CATCHER_MATTE p.mode with
      | some shadow_catcher_matte_pass => some shadow_catcher_matte_pass
      | none => some p
    else some p

/-- The pass-selection part of `Film::get_actual_display_pass(scene,
pass_type, pass_mode)` (film.cpp lines 432-437): look the pass up and fall
back from Denoised to Noisy when no denoised pass is found. -/
def display_pass_find (passes : List Pass) (pass_type : PassType)
    (pass_mode : PassMode) : Option Pass :=
  let pass := pass_find passes pass_type pass_mode
  if pass = none ∧ pass_mode = PassMode.DENOISED then
    pass_find passes pass_type PassMode.NOISY
  else pass

/-- `Film::get_actual_display_pass(scene, pass_type, pass_mode)` (film.cpp
lines 430-440): select the pass, then post-process via
`get_actual_display_pass_of`. -/
def get_actual_display_pass (has_shadow_catcher : Bool) (passes : List Pass)
    (pass_type : PassType) (pass_mode : PassMode) : Option Pass :=
  get_actual_display_pass_of has_shadow_catcher passes
    (display_pass_find passes pass_type pass_mode)

/- ---------------------------------------------------------------------------
Filter table (film.cpp lines 37-96 and 382-386).

The filter responses for Gaussian and Blackman-Harris evaluate `expf` and
`cosf`; these transcendental single-precision computations are kept abstract
as parameters (`fgauss`, `fbh`), while the numbers that matter structurally
(the width scaling, the table size, the sampling range) are embedded exactly.
--------------------------------------------------------------------------- -/

/-- Modelled from the spec: the filter-table resolution (1024, from the
missing kernel header defining `FILTER_TABLE_SIZE`). -/
def FILTER_TABLE_SIZE : Nat := 1024

/-- The filter-kind enumeration (`FilterType`). -/
inductive FilterType where
  | FILTER_BOX
  | FILTER_GAUSSIAN
  | FILTER_BLACKMAN_HARRIS
  deriving DecidableEq

/-- `filter_func_box`: constant 1 over the support. -/
def filter_func_box (_v _width : ℚ) : ℚ := 1

/-- Partial sums of a list (the running CDF accumulation). -/
def cumsum : List ℚ → ℚ → List ℚ
  | [], _ => []
  | x :: rest, acc => (acc + x) :: cumsum rest (acc + x)

/-- Modelled from the spec: `util_cdf_inverted` of the missing
`util_math_cdf.h` — evaluate the response on an `n`-point grid over
`[lo, hi]`, accumulate the CDF, normalize by the total mass, then for each of
`n` evenly spaced probabilities take the first grid point whose normalized CDF
reaches it, and mirror the table when `make_symmetric` is set.  Produces
exactly `n` values. -/
def util_cdf_inverted (n : Nat) (lo hi : ℚ) (f : ℚ → ℚ) (make_symmetric : Bool) :
    List ℚ :=
  let grid : List ℚ :=
    (List.range n).map (fun (i : Nat) => lo + (hi - lo) * (i : ℚ) / ((n : ℚ) - 1))
  let cdf : List ℚ := cumsum (grid.map f) 0
  let total : ℚ := (cdf.getLast?).getD 0
  let norm : List ℚ := cdf.map (fun c => c / total)
  let inverted : List ℚ :=
    (List.range n).map (fun (i : Nat) =>
      match (norm.zip grid).find? (fun cg => (i : ℚ) / ((n : ℚ) - 1) ≤ cg.1) with
      | some cg => cg.2
      | none => hi)
  if make_symmetric then
    (List.range n).map (fun (i : Nat) =>
      if 2 * i + 1 < n then -(inverted.getD (n - 1 - i) 0) else inverted.getD i 0)
  else inverted

/-- `filter_table(type, width)` (film.cpp lines 56-96): select the response
function and effective width for the filter kind, then build the inverted-CDF
importance-sampling table over `[0, width/2]`.  There is no error path: every
kind of the (closed) enum selects a response, the width is not validated, and
a full `FILTER_TABLE_SIZE` table is always returned. -/
def filter_table (fgauss fbh : ℚ → ℚ → ℚ) (type : FilterType) (width : ℚ) :
    List ℚ :=
  let fw : (ℚ → ℚ → ℚ) × ℚ :=
    match type with
    | FilterType.FILTER_BOX => (filter_func_box, width)
    | FilterType.FILTER_GAUSSIAN => (fgauss, width * 3)
    | FilterType.FILTER_BLACKMAN_HARRIS => (fbh, width * 2)
  util_cdf_inverted FILTER_TABLE_SIZE 0 (fw.2 * (1 / 2)) (fun v => fw.1 v fw.2) true

/-- Modelled from the spec: the scene lookup-table registry (`tables.cpp` is
not in the sample).  Slots are opaque integer handles; `remove_table` on an
absent handle is a safe no-op. -/
structure LookupTables where
  slots : List (Option (List ℚ))

/-- Modelled from the spec: `remove_table` — clear the slot the handle names
(no-op when the handle is invalid or already removed). -/
def remove_table (tabs : LookupTables) (handle : Option Nat) : LookupTables :=
  match handle with
  | none => tabs
  | some i => ⟨tabs.slots.set i none⟩

/-- Modelled from the spec: `add_table` — append the table to a fresh slot and
return its handle. -/
def add_table (tabs : LookupTables) (table : List ℚ) : LookupTables × Nat :=
  (⟨tabs.slots ++ [some table]⟩, tabs.slots.length)

/-- The filter-table update step of `Film::device_update` (lines 382-386):
build the table, release the previously installed one, install the new one and
record its handle.  Unconditional: runs for every filter kind and width. -/
def film_filter_update (fgauss fbh : ℚ → ℚ → ℚ) (type : FilterType) (width : ℚ)
    (tabs : LookupTables) (filter_table_offset : Option Nat) :
    LookupTables × Nat :=
  let table := filter_table fgauss fbh type width
  let tabs := remove_table tabs filter_table_offset
  add_table tabs table

/- ---------------------------------------------------------------------------
Pass expansion and resolution (film.cpp lines 459-681).
--------------------------------------------------------------------------- -/

/-- `Film::add_auto_pass` (film.cpp lines 588-603): construct a fresh pass
with `is_auto_ = true` and append it to the scene's pass list.  There is no
duplicate check here; duplicates are merged later by `Film::finalize_passes`. -/
def add_auto_pass (passes : List Pass) (t : PassType) (m : PassMode)
    (name : String) : List Pass :=
  passes ++ [{ type := t, mode := m, name := name, is_auto := true, written := true }]

/-- `Film::remove_auto_passes` (film.cpp lines 605-620): drop every pass whose
`is_auto_` flag is set. -/
def remove_auto_passes (passes : List Pass) : List Pass :=
  passes.filter (fun p => p.is_auto = false)

/-- The mode normalisation at the top of the `finalize_passes` loop
(film.cpp line 642): a pass keeps its mode only when denoising is enabled and
the type supports it; otherwise the mode is forced to Noisy. -/
def pass_normalize (R : PassRegistry) (use_denoise : Bool) (p : Pass) : Pass :=
  { p with mode :=
      if use_denoise && R.support_denoise p.type then p.mode else PassMode.NOISY }

/-- The duplicate test of `finalize_passes` (film.cpp lines 648-656): an
incoming pass `p` merges into a kept pass `q` iff they have the same type, the
same mode, and not both names are non-empty and different. -/
def pass_mergeable (q p : Pass) : Bool :=
  q.type = p.type ∧ q.mode = p.mode ∧
    ¬(p.name ≠ "" ∧ q.name ≠ "" ∧ p.name ≠ q.name)

/-- The merge mutation of `finalize_passes` (film.cpp lines 658-662): the kept
pass takes the incoming name when it had none, and its `is_auto_` becomes the
conjunction of both flags. -/
def pass_merge (q p : Pass) : Pass :=
  { q with
    name := if p.name ≠ "" ∧ q.name = "" then p.name else q.name,
    is_auto := q.is_auto && p.is_auto }

/-- Merge `p` into the first kept pass it duplicates, as the inner loop of
`finalize_passes` does; `none` when no kept pass matches. -/
def try_merge (p : Pass) : List Pass → Option (List Pass)
  | [] => none
  | q :: rest =>
    if pass_mergeable q p then some (pass_merge q p :: rest)
    else match try_merge p rest with
      | some rest2 => some (q :: rest2)
      | none => none

/-- One iteration of the outer `finalize_passes` loop: normalise the incoming
pass's mode, then either merge it into a kept duplicate or keep it. -/
def dedup_step (R : PassRegistry) (use_denoise : Bool) (new_passes : List Pass)
    (p : Pass) : List Pass :=
  let p2 := pass_normalize R use_denoise p
  match try_merge p2 new_passes with
  | some merged => merged
  | none => new_passes ++ [p2]

/-- The duplicate-removal phase of `Film::finalize_passes`
(film.cpp lines 637-673). -/
def film_dedup (R : PassRegistry) (use_denoise : Bool) (passes : List Pass) :
    List Pass :=
  passes.foldl (dedup_step R use_denoise) []

/-- `compare_pass_order` (film.cpp lines 622-632): order by descending
component count, breaking ties by ascending type identifier. -/
def compare_pass_order (R : PassRegistry) (a b : Pass) : Bool :=
  if R.num_components a.type = R.num_components b.type then
    typeId a.type < typeId b.type
  else
    R.num_components a.type > R.num_components b.type

/-- Stable insertion into an ordered list: the new element is placed before
the first element it strictly precedes, hence after every earlier element it
ties with. -/
def ord_insert (lt : α → α → Bool) (x : α) : List α → List α
  | [] => [x]
  | y :: rest => if lt x y then x :: y :: rest else y :: ord_insert lt x rest

/-- Stable sort (insertion sort, processing elements left to right), the
shallow embedding of `std::stable_sort`: a stable sort is determined up to
function extensionality by its comparator, so insertion sort is an exact model
of the call in `finalize_passes`. -/
def stable_sort (lt : α → α → Bool) (l : List α) : List α :=
  l.foldl (fun acc x => ord_insert lt x acc) []

/-- `Film::finalize_passes` (film.cpp lines 634-681): merge duplicates, then
stable-sort by `compare_pass_order`. -/
def film_finalize (R : PassRegistry) (use_denoise : Bool) (passes : List Pass) :
    List Pass :=
  stable_sort (compare_pass_order R) (film_dedup R use_denoise passes)

/-- The renderer-wide feature flags consumed by `Film::update_passes`
(scene state, integrator and bake-manager queries, and the
`add_sample_count_pass` argument). -/
structure FilmFlags where
  display_pass : PassType
  adaptive_sampling_use : Bool
  use_denoise : Bool
  denoise_pass_normal : Bool
  denoise_pass_albedo : Bool
  has_shadow_catcher : Bool
  use_approximate_shadow_catcher : Bool
  background_transparent : Bool
  baking : Bool
  add_sample_count_pass : Bool

/-- Shorthand for the common `add_auto_pass(scene, type)` overload (mode
Noisy, no name). -/
def add_auto (passes : List Pass) (t : PassType) : List Pass :=
  add_auto_pass passes t PassMode.NOISY ("")

/-- The dependency-expansion body of the snapshot loop of
`Film::update_passes` (film.cpp lines 521-540), for one snapshot pass `p`:
append the divide/direct/indirect dependency types that are not `NONE`, and,
when denoising is enabled and the type supports it, the Denoised-mode
counterpart of `p`'s type. -/
def expand_deps_step (R : PassRegistry) (use_denoise : Bool)
    (passes : List Pass) (p : Pass) : List Pass :=
  let passes :=
    if R.divide_type p.type ≠ PassType.NONE then add_auto passes (R.divide_type p.type)
    else passes
  let passes :=
    if R.direct_type p.type ≠ PassType.NONE then add_auto passes (R.direct_type p.type)
    else passes
  let passes :=
    if R.indirect_type p.type ≠ PassType.NONE then add_auto passes (R.indirect_type p.type)
    else passes
  if R.support_denoise p.type && use_denoise then
    add_auto_pass passes p.type PassMode.DENOISED ("")
  else passes

/-- The expansion phase of `Film::update_passes` (film.cpp lines 470-551):
drop stale auto passes, re-add the display and Combined passes, the
adaptive-sampling, denoising and shadow-catcher passes, the dependency and
denoised-counterpart passes for a snapshot of the current list, the bake
passes and the explicitly requested sample-count pass. -/
def film_expand (R : PassRegistry) (fl : FilmFlags) (passes : List Pass) :
    List Pass :=
  let passes := remove_auto_passes passes
  let passes := add_auto passes fl.display_pass
  let passes :=
    if fl.display_pass ≠ PassType.COMBINED then add_auto passes PassType.COMBINED
    else passes
  let passes :=
    if fl.adaptive_sampling_use then
      add_auto (add_auto passes PassType.SAMPLE_COUNT) PassType.ADAPTIVE_AUX_BUFFER
    else passes
  let passes :=
    if fl.use_denoise then
      let passes :=
        if fl.denoise_pass_normal then add_auto passes PassType.DENOISING_NORMAL
        else passes
      if fl.denoise_pass_albedo then add_auto passes PassType.DENOISING_ALBEDO
      else passes
    else passes
  let passes :=
    if fl.has_shadow_catcher then
      let need_background :=
        fl.use_approximate_shadow_catcher && !fl.background_transparent
      let passes := add_auto passes PassType.SHADOW_CATCHER
      let passes := add_auto passes PassType.SHADOW_CATCHER_SAMPLE_COUNT
      let passes := add_auto passes PassType.SHADOW_CATCHER_MATTE
      if need_background then add_auto passes PassType.BACKGROUND else passes
    else if pass_contains passes PassType.SHADOW_CATCHER then
      let passes := add_auto passes PassType.SHADOW_CATCHER
      add_auto passes PassType.SHADOW_CATCHER_SAMPLE_COUNT
    else passes
  let passes_immutable := passes
  let passes := passes_immutable.foldl (expand_deps_step R fl.use_denoise) passes
  let passes :=
    if fl.baking then
      let passes := add_auto_pass passes PassType.BAKE_PRIMITIVE PassMode.NOISY ("BakePrimitive")
      add_auto_pass passes PassType.BAKE_DIFFERENTIAL PassMode.NOISY ("BakeDifferential")
    else passes
  if fl.add_sample_count_pass && !pass_contains passes PassType.SAMPLE_COUNT then
    add_auto passes PassType.SAMPLE_COUNT
  else passes

/-- `Film::update_passes` (film.cpp lines 459-586), restricted to the pass
list it produces: expansion followed by resolution
(`finalize_passes(scene, use_denoise)`). -/
def film_update_passes (R : PassRegistry) (fl : FilmFlags) (passes : List Pass) :
    List Pass :=
  film_finalize R fl.use_denoise (film_expand R fl passes)

/-- Whether `p` is the AOV pass the name query of `Film::get_aov_offset`
stops at: its name matches and it is an AOV (colour or value) pass. -/
def aov_matches (name : String) (p : Pass) : Bool :=
  p.name = name ∧ (p.type = PassType.AOV_COLOR ∨ p.type = PassType.AOV_VALUE)

/-- Total component count of the passes of type `kind` in `l` (the running
offset `Film::get_aov_offset` accumulates for that kind). -/
def aov_kind_sum (R : PassRegistry) (kind : PassType) (l : List Pass) : Nat :=
  ((l.filter (fun p => p.type = kind)).map (fun p => R.num_components p.type)).sum

/-- A sample pass registry for concrete witnesses: every pass holds three
components, nothing supports denoising, no dependencies. -/
def sampleRegistry : PassRegistry :=
  ⟨fun _ => 3, fun _ => false, fun _ => PassType.NONE, fun _ => PassType.NONE,
   fun _ => PassType.NONE⟩

/-- The amount a pass advances the stride counter in the layout walk of
`Film::device_update`: zero for a `PASS_NONE` or unwritten pass (skipped by
the `continue` before the stride update), and the component count otherwise
(Denoised-mode and disabled-motion passes also advance). -/
def stride_advance (R : PassRegistry) (p : Pass) : Nat :=
  if p.type = PassType.NONE ∨ p.written = false then 0 else R.num_components p.type

/-- A fresh kernel film record (all offsets unused). -/
def kfilm0 : KernelFilm := ⟨fun _ => PASS_UNUSED, 0, 0, 0⟩

/-- Invariant of the layout walk of `Film::device_update`: every offset field
is either untouched since initialisation or a committed offset inside
`[0, pass_stride)`; the primary recordings fit inside the stride and are
mutually disjoint in increasing order; and the Cryptomatte / AOV bookkeeping
flags and ghost traces agree (the single recorded Cryptomatte offset is the
first = minimum one, and the AOV fields hold the first occurrence's offset). -/
def dev_inv (init : KernelFilm) (s : UpdState) : Prop :=
  (∀ t, s.kfilm.pass_ofs t = init.pass_ofs t ∨
    (0 ≤ s.kfilm.pass_ofs t ∧ s.kfilm.pass_ofs t < (s.kfilm.pass_stride : Int))) ∧
  (∀ r ∈ s.recs, r.offset + r.ncomp ≤ s.kfilm.pass_stride) ∧
  List.Pairwise (fun a b => a.offset + a.ncomp ≤ b.offset) s.recs ∧
  (s.have_cryptomatte = true ↔ s.crypto_offsets ≠ []) ∧
  (∀ o ∈ s.crypto_offsets, o < s.kfilm.pass_stride) ∧
  (∀ h, s.crypto_offsets.head? = some h →
    s.kfilm.pass_ofs PassType.CRYPTOMATTE = (h : Int) ∧ ∀ o ∈ s.crypto_offsets, h ≤ o) ∧
  (s.have_aov_color = true ↔ s.aov_color_offsets ≠ []) ∧
  (∀ h, s.aov_color_offsets.head? = some h →
    s.kfilm.pass_ofs PassType.AOV_COLOR = (h : Int)) ∧
  (s.have_aov_value = true ↔ s.aov_value_offsets ≠ []) ∧
  (∀ h, s.aov_value_offsets.head? = some h →
    s.kfilm.pass_ofs PassType.AOV_VALUE = (h : Int))

/-- The passes of one type, in order (the sub-sequence the kernel reads as a
group for Cryptomatte / AOV slots). -/
def passesOfType (T : PassType) (l : List Pass) : List Pass :=
  l.filter (fun p => p.type = T)

/-- Whether a pass of the given type and mode is present (a "class" of the
duplicate-merge relation: two passes of the same type and mode always merge
when one of them is unnamed). -/
def clsMem (l : List Pass) (t : PassType) (m : PassMode) : Bool :=
  l.any (fun q => q.type = t ∧ q.mode = m)

/-- The fresh entries the duplicate-merging phase keeps from a stream of
unnamed auto passes being folded into `B`: one representative per class not
already present. -/
def auto_fresh : List Pass → List Pass → List Pass
  | _, [] => []
  | B, v :: rest =>
    if clsMem B v.type v.mode then auto_fresh B rest
    else v :: auto_fresh (B ++ [v]) rest

/-- Invariant of the duplicate-removal accumulator: every kept pass is
mode-normalised and no kept pass would merge into a later one. -/
def dedup_inv (R : PassRegistry) (u : Bool) (l : List Pass) : Prop :=
  (∀ q ∈ l, pass_normalize R u q = q) ∧
  List.Pairwise (fun a b => pass_mergeable a b = false) l

/-- The unnamed Noisy auto pass `add_auto_pass(scene, t)` appends. -/
def auto_noisy (t : PassType) : Pass :=
  { type := t, mode := PassMode.NOISY, name := "", is_auto := true, written := true }

/-- The unnamed Denoised auto pass the dependency loop appends. -/
def auto_denoised (t : PassType) : Pass :=
  { type := t, mode := PassMode.DENOISED, name := "", is_auto := true, written := true }

/-- The passes one snapshot element of type `t` contributes in the dependency
loop of `Film::update_passes`: divide/direct/indirect dependencies, then the
Denoised counterpart when denoising applies. -/
def dep_block (R : PassRegistry) (u : Bool) (t : PassType) : List Pass :=
  (if R.divide_type t ≠ PassType.NONE then [auto_noisy (R.divide_type t)] else []) ++
  (if R.direct_type t ≠ PassType.NONE then [auto_noisy (R.direct_type t)] else []) ++
  (if R.indirect_type t ≠ PassType.NONE then [auto_noisy (R.indirect_type t)] else []) ++
  (if R.support_denoise t && u then [auto_denoised t] else [])

/-- The feature-driven auto passes `Film::update_passes` appends after the
user passes and before the dependency loop (display, Combined, adaptive
sampling, denoising data, shadow catcher). -/
def feature_tail (fl : FilmFlags) (users : List Pass) : List Pass :=
  let pre :=
    [auto_noisy fl.display_pass] ++
    (if fl.display_pass ≠ PassType.COMBINED then [auto_noisy PassType.COMBINED]
     else []) ++
    (if fl.adaptive_sampling_use then
      [auto_noisy PassType.SAMPLE_COUNT, auto_noisy PassType.ADAPTIVE_AUX_BUFFER]
     else []) ++
    (if fl.use_denoise then
      (if fl.denoise_pass_normal then [auto_noisy PassType.DENOISING_NORMAL]
       else []) ++
      (if fl.denoise_pass_albedo then [auto_noisy PassType.DENOISING_ALBEDO]
       else [])
     else [])
  let sc :=
    if fl.has_shadow_catcher then
      [auto_noisy PassType.SHADOW_CATCHER,
       auto_noisy PassType.SHADOW_CATCHER_SAMPLE_COUNT,
       auto_noisy PassType.SHADOW_CATCHER_MATTE] ++
      (if fl.use_approximate_shadow_catcher && !fl.background_transparent then
        [auto_noisy PassType.BACKGROUND] else [])
    else if pass_contains (users ++ pre) PassType.SHADOW_CATCHER then
      [auto_noisy PassType.SHADOW_CATCHER,
       auto_noisy PassType.SHADOW_CATCHER_SAMPLE_COUNT]
    else []
  pre ++ sc

/-- Everything `Film::update_passes` appends after the kept user passes:
feature passes, the dependency blocks of the snapshot, the bake passes, and
the explicitly requested sample-count pass. -/
def expand_tail (R : PassRegistry) (fl : FilmFlags) (users : List Pass) :
    List Pass :=
  let ft := feature_tail fl users
  let dt := ((users ++ ft).map (fun p => dep_block R fl.use_denoise p.type)).flatten
  let bt :=
    if fl.baking then
      [{ type := PassType.BAKE_PRIMITIVE, mode := PassMode.NOISY,
         name := "BakePrimitive", is_auto := true, written := true },
       { type := PassType.BAKE_DIFFERENTIAL, mode := PassMode.NOISY,
         name := "BakeDifferential", is_auto := true, written := true }]
    else []
  let st :=
    if fl.add_sample_count_pass &&
        !pass_contains (users ++ ft ++ dt ++ bt) PassType.SAMPLE_COUNT then
      [auto_noisy PassType.SAMPLE_COUNT]
    else []
  ft ++ dt ++ bt ++ st

/- ---------------------------------------------------------------------------
Theorems.
--------------------------------------------------------------------------- -/

theorem util_cdf_inverted_length (n : Nat) (lo hi : ℚ) (f : ℚ → ℚ)
    (ms : Bool) : (util_cdf_inverted n lo hi f ms).length = n := by
  unfold util_cdf_inverted
  cases ms with
  | false =>
    rw [if_neg (by simp), List.length_map, List.length_range]
  | true =>
    rw [if_pos rfl, List.length_map, List.length_range]

theorem get_aov_go_miss (R : PassRegistry) (name : String) :
    ∀ (l : List Pass) (oc ov : Nat),
    (get_aov_offset_go R name l oc ov = none ↔ ∀ p ∈ l, aov_matches name p = false) := by
  intro l
  induction l with
  | nil => intro oc ov; simp [get_aov_offset_go]
  | cons p rest ih =>
    intro oc ov
    by_cases hv : p.name = name ∧ p.type = PassType.AOV_VALUE
    · simp only [get_aov_offset_go, if_pos hv]
      constructor
      · intro h; exact absurd h (by simp)
      · intro h
        have := h p (by simp)
        simp [aov_matches, hv.1, hv.2] at this
    · by_cases hc : p.name = name ∧ p.type = PassType.AOV_COLOR
      · simp only [get_aov_offset_go, if_neg hv, if_pos hc]
        constructor
        · intro h; exact absurd h (by simp)
        · intro h
          have := h p (by simp)
          simp [aov_matches, hc.1, hc.2] at this
      · simp only [get_aov_offset_go, if_neg hv, if_neg hc]
        rw [ih]
        constructor
        · intro h q hq
          rcases List.mem_cons.mp hq with rfl | hq2
          · simp only [aov_matches]
            simp only [decide_eq_false_iff_not]
            intro hand
            rcases hand.2 with h2 | h2
            · exact hc ⟨hand.1, h2⟩
            · exact hv ⟨hand.1, h2⟩
          · exact h q hq2
        · intro h q hq; exact h q (List.mem_cons_of_mem p hq)

theorem get_aov_go_hit (R : PassRegistry) (name : String) (p : Pass)
    (l2 : List Pass) (hp : aov_matches name p = true) :
    ∀ (l1 : List Pass) (oc ov : Nat), (∀ q ∈ l1, aov_matches name q = false) →
    get_aov_offset_go R name (l1 ++ p :: l2) oc ov =
      some ((if p.type = PassType.AOV_COLOR then oc + aov_kind_sum R PassType.AOV_COLOR l1
             else ov + aov_kind_sum R PassType.AOV_VALUE l1),
            decide (p.type = PassType.AOV_COLOR)) := by
  intro l1
  induction l1 with
  | nil =>
    intro oc ov _
    simp only [aov_matches, Bool.and_eq_true, decide_eq_true_eq, Bool.or_eq_true] at hp
    by_cases hcol : p.type = PassType.AOV_COLOR
    · have hnv : ¬(p.name = name ∧ p.type = PassType.AOV_VALUE) := by
        rintro ⟨-, h2⟩; rw [hcol] at h2; exact PassType.noConfusion h2
      simp [get_aov_offset_go, hnv, hp.1, hcol, aov_kind_sum]
    · have hval : p.type = PassType.AOV_VALUE := by
        rcases hp.2 with h | h
        · exact absurd h hcol
        · exact h
      simp [get_aov_offset_go, hp.1, hval, hcol, aov_kind_sum]
  | cons q l1 ih =>
    intro oc ov hmiss
    have hq : aov_matches name q = false := hmiss q (by simp)
    simp only [aov_matches, decide_eq_false_iff_not] at hq
    have hnv : ¬(q.name = name ∧ q.type = PassType.AOV_VALUE) := by
      rintro ⟨h1, h2⟩; exact hq (by simp [h1, h2])
    have hnc : ¬(q.name = name ∧ q.type = PassType.AOV_COLOR) := by
      rintro ⟨h1, h2⟩; exact hq (by simp [h1, h2])
    have hrest : ∀ r ∈ l1, aov_matches name r = false := by
      intro r hr; exact hmiss r (List.mem_cons_of_mem q hr)
    have step : get_aov_offset_go R name ((q :: l1) ++ p :: l2) oc ov =
        get_aov_offset_go R name (l1 ++ p :: l2)
          (if q.type = PassType.AOV_COLOR then oc + R.num_components q.type else oc)
          (if q.type = PassType.AOV_VALUE then ov + R.num_components q.type else ov) := by
      simp only [List.cons_append, get_aov_offset_go, if_neg hnv, if_neg hnc]
      rfl
    rw [step, ih _ _ hrest]
    by_cases hcol : p.type = PassType.AOV_COLOR
    · simp only [if_pos hcol]
      by_cases hqc : q.type = PassType.AOV_COLOR
      · simp [aov_kind_sum, List.filter_cons, hqc]
        omega
      · simp [aov_kind_sum, List.filter_cons, hqc]
    · simp only [if_neg hcol]
      by_cases hqv : q.type = PassType.AOV_VALUE
      · simp [aov_kind_sum, List.filter_cons, hqv]
        omega
      · simp [aov_kind_sum, List.filter_cons, hqv]

/-- C9: `get_aov_offset(name)` scans the declared passes in declaration
order, accumulating separate running offsets for AOV colour-type and
value-type passes; for the first AOV pass whose name matches it returns that
pass's kind's accumulated offset together with the `is_color` indicator, and
when no AOV pass with that name exists it returns the not-found sentinel
(modelled as `none` for the C `-1`) as a normal, non-fatal outcome. -/
theorem C9_get_aov_offset_spec (R : PassRegistry) (passes : List Pass)
    (name : String) :
    (get_aov_offset R passes name = none ↔
      ∀ p ∈ passes, aov_matches name p = false) ∧
    (∀ l1 p l2, passes = l1 ++ p :: l2 →
      (∀ q ∈ l1, aov_matches name q = false) → aov_matches name p = true →
      get_aov_offset R passes name =
        some ((if p.type = PassType.AOV_COLOR then aov_kind_sum R PassType.AOV_COLOR l1
               else aov_kind_sum R PassType.AOV_VALUE l1),
              decide (p.type = PassType.AOV_COLOR))) := by
  constructor
  · exact get_aov_go_miss R name passes 0 0
  · intro l1 p l2 hsplit hmiss hp
    rw [hsplit]
    unfold get_aov_offset
    rw [get_aov_go_hit R name p l2 hp l1 0 0 hmiss]
    simp

/-- Concrete check of C9: with colour AOV "x", value AOV "a" and colour AOV
"y" declared (three components each), the query for "y" returns offset 3 (one
colour AOV precedes it) with the colour indicator set. -/
theorem C9_witness :
    get_aov_offset sampleRegistry
      [⟨PassType.AOV_COLOR, PassMode.NOISY, ("x"), false, true⟩,
       ⟨PassType.AOV_VALUE, PassMode.NOISY, ("a"), false, true⟩,
       ⟨PassType.AOV_COLOR, PassMode.NOISY, ("y"), false, true⟩] ("y") =
      some (3, true) := by
  have h := (C9_get_aov_offset_spec sampleRegistry
      [⟨PassType.AOV_COLOR, PassMode.NOISY, ("x"), false, true⟩,
       ⟨PassType.AOV_VALUE, PassMode.NOISY, ("a"), false, true⟩,
       ⟨PassType.AOV_COLOR, PassMode.NOISY, ("y"), false, true⟩] ("y")).2
      [⟨PassType.AOV_COLOR, PassMode.NOISY, ("x"), false, true⟩,
       ⟨PassType.AOV_VALUE, PassMode.NOISY, ("a"), false, true⟩]
      ⟨PassType.AOV_COLOR, PassMode.NOISY, ("y"), false, true⟩ []
      (by decide) (by decide) (by decide)
  rw [h]; decide

/-- C10: when the requested mode is Denoised and no Denoised-mode pass of the
requested type exists, `get_actual_display_pass` falls back to the Noisy-mode
pass of the same type (and returns null when none exists either); and whenever
the selected pass is Combined, the scene has a shadow catcher and a
ShadowCatcherMatte pass of the selected pass's mode is present, the returned
display pass is that ShadowCatcherMatte pass instead of Combined. -/
theorem C10_display_pass_fallback_and_matte (has_shadow_catcher : Bool)
    (passes : List Pass) (t : PassType) (m : PassMode) :
    (m = PassMode.DENOISED → pass_find passes t PassMode.DENOISED = none →
      display_pass_find passes t m = pass_find passes t PassMode.NOISY ∧
      (pass_find passes t PassMode.NOISY = none →
        get_actual_display_pass has_shadow_catcher passes t m = none)) ∧
    (∀ p q, display_pass_find passes t m = some p →
      p.type = PassType.COMBINED →
      pass_find passes PassType.SHADOW_CATCHER_MATTE p.mode = some q →
      get_actual_display_pass true passes t m = some q) := by
  constructor
  · intro hm hnone
    subst hm
    have hsel : display_pass_find passes t PassMode.DENOISED =
        pass_find passes t PassMode.NOISY := by
      unfold display_pass_find
      simp [hnone]
    refine ⟨hsel, ?_⟩
    intro hnone2
    unfold get_actual_display_pass
    rw [hsel, hnone2]
    rfl
  · intro p q hsel hcomb hmatte
    unfold get_actual_display_pass
    rw [hsel]
    unfold get_actual_display_pass_of
    simp [hcomb, hmatte]

/-- Concrete check of C10: with only a noisy Combined pass and a noisy
ShadowCatcherMatte pass declared and a shadow catcher in the scene, requesting
the denoised Combined display pass falls back to the noisy Combined pass and
then substitutes the ShadowCatcherMatte pass. -/
theorem C10_witness :
    get_actual_display_pass true
      [⟨PassType.COMBINED, PassMode.NOISY, (""), false, true⟩,
       ⟨PassType.SHADOW_CATCHER_MATTE, PassMode.NOISY, (""), false, true⟩]
      PassType.COMBINED PassMode.DENOISED =
      some ⟨PassType.SHADOW_CATCHER_MATTE, PassMode.NOISY, (""), false, true⟩ := by
  exact (C10_display_pass_fallback_and_matte true
      [⟨PassType.COMBINED, PassMode.NOISY, (""), false, true⟩,
       ⟨PassType.SHADOW_CATCHER_MATTE, PassMode.NOISY, (""), false, true⟩]
      PassType.COMBINED PassMode.DENOISED).2
    ⟨PassType.COMBINED, PassMode.NOISY, (""), false, true⟩
    ⟨PassType.SHADOW_CATCHER_MATTE, PassMode.NOISY, (""), false, true⟩
    (by decide) (by decide) (by decide)

theorem filter_table_length (fgauss fbh : ℚ → ℚ → ℚ) (type : FilterType)
    (width : ℚ) : (filter_table fgauss fbh type width).length = FILTER_TABLE_SIZE := by
  unfold filter_table
  cases type <;> exact util_cdf_inverted_length _ _ _ _ _

/-- C8 (amended): building the filter table cannot fail.  An invalid filter
kind is impossible for the closed enum (the source guards it only with a debug
assertion), a non-positive width is not validated at all, and for every kind
and width — including non-positive widths — a full `FILTER_TABLE_SIZE`-entry
table is produced, which `Film::device_update` then unconditionally installs
(the old table is removed and the new handle points at the complete new
table). -/
theorem C8_filter_table_never_fails (fgauss fbh : ℚ → ℚ → ℚ) (type : FilterType)
    (width : ℚ) (tabs : LookupTables) (ofs : Option Nat) :
    (filter_table fgauss fbh type width).length = FILTER_TABLE_SIZE ∧
    ((film_filter_update fgauss fbh type width tabs ofs).1).slots[
        (film_filter_update fgauss fbh type width tabs ofs).2]? =
      some (some (filter_table fgauss fbh type width)) := by
  refine ⟨filter_table_length fgauss fbh type width, ?_⟩
  unfold film_filter_update add_table
  exact List.getElem?_concat_length _ _

/-- C8 as stated is false on the code: building the table for the Box filter
with the non-positive width `-1` does not fail with any
`InvalidFilterConfiguration` error — no such error path exists — but returns
a complete 1024-entry table, and the device-update step installs it into the
lookup-table registry (handle 0 of an initially empty registry). -/
theorem C8_counterexample :
    (filter_table (fun _ _ => 1) (fun _ _ => 1) FilterType.FILTER_BOX (-1)).length
        = FILTER_TABLE_SIZE ∧
    (film_filter_update (fun _ _ => 1) (fun _ _ => 1) FilterType.FILTER_BOX (-1)
        ⟨[]⟩ none).2 = 0 := by
  refine ⟨filter_table_length _ _ _ _, rfl⟩

theorem film_pass_flags_ofs (k : KernelFilm) (t : PassType) :
    (film_pass_flags k t).pass_ofs = k.pass_ofs := by
  unfold film_pass_flags
  cases pass_category t <;> rfl

theorem film_pass_flags_stride (k : KernelFilm) (t : PassType) :
    (film_pass_flags k t).pass_stride = k.pass_stride := by
  unfold film_pass_flags
  cases pass_category t <;> rfl

theorem dev_inv_stride_flags (init : KernelFilm) (s : UpdState) (n f1 f2 : Nat)
    (h : dev_inv init s) :
    dev_inv init ⟨⟨s.kfilm.pass_ofs, s.kfilm.pass_stride + n, f1, f2⟩,
      s.have_cryptomatte, s.have_aov_color, s.have_aov_value,
      s.recs, s.crypto_offsets, s.aov_color_offsets, s.aov_value_offsets⟩ := by
  obtain ⟨A, B, C, D, E, F, G, H, I, J⟩ := h
  unfold dev_inv
  dsimp only
  refine ⟨?_, ?_, C, D, ?_, F, G, H, I, J⟩
  · intro t
    rcases A t with h1 | ⟨h1, h2⟩
    · exact Or.inl h1
    · refine Or.inr ⟨h1, ?_⟩
      have : (s.kfilm.pass_stride : Int) ≤ ((s.kfilm.pass_stride + n : Nat) : Int) := by
        push_cast; omega
      omega
  · intro r hr
    have := B r hr
    omega
  · intro o ho
    have := E o ho
    omega

theorem dev_inv_record (init : KernelFilm) (s : UpdState) (t : PassType)
    (nc f1 f2 : Nat) (hnc : 1 ≤ nc)
    (ht1 : t ≠ PassType.CRYPTOMATTE) (ht2 : t ≠ PassType.AOV_COLOR)
    (ht3 : t ≠ PassType.AOV_VALUE) (h : dev_inv init s) :
    dev_inv init ⟨⟨setOfs s.kfilm.pass_ofs t (s.kfilm.pass_stride : Int),
        s.kfilm.pass_stride + nc, f1, f2⟩,
      s.have_cryptomatte, s.have_aov_color, s.have_aov_value,
      s.recs ++ [⟨t, s.kfilm.pass_stride, nc⟩],
      s.crypto_offsets, s.aov_color_offsets, s.aov_value_offsets⟩ := by
  obtain ⟨A, B, C, D, E, F, G, H, I, J⟩ := h
  unfold dev_inv
  dsimp only
  refine ⟨?_, ?_, ?_, D, ?_, ?_, G, ?_, I, ?_⟩
  · intro u
    by_cases hu : u = t
    · subst hu
      refine Or.inr ⟨?_, ?_⟩
      · simp [setOfs]
      · simp only [setOfs, if_pos rfl]
        push_cast; omega
    · rcases A u with h1 | ⟨h1, h2⟩
      · left; simpa [setOfs, hu] using h1
      · refine Or.inr ⟨?_, ?_⟩
        · simpa [setOfs, hu] using h1
        · have h3 : setOfs s.kfilm.pass_ofs t (s.kfilm.pass_stride : Int) u =
              s.kfilm.pass_ofs u := by simp [setOfs, hu]
          rw [h3]
          have : (s.kfilm.pass_stride : Int) ≤ ((s.kfilm.pass_stride + nc : Nat) : Int) := by
            push_cast; omega
          omega
  · intro r hr
    rcases List.mem_append.mp hr with hr1 | hr2
    · have := B r hr1; omega
    · have : r = (⟨t, s.kfilm.pass_stride, nc⟩ : PrimaryRec) := by simpa using hr2
      subst this; simp
  · refine List.pairwise_append.mpr ⟨C, by simp, ?_⟩
    intro a ha b hb
    have hb2 : b = (⟨t, s.kfilm.pass_stride, nc⟩ : PrimaryRec) := by simpa using hb
    subst hb2
    exact B a ha
  · intro o ho
    have := E o ho; omega
  · intro hh hhead
    obtain ⟨feq, fmin⟩ := F hh hhead
    have hne : PassType.CRYPTOMATTE ≠ t := fun e => ht1 e.symm
    exact ⟨by simpa [setOfs, hne] using feq, fmin⟩
  · intro hh hhead
    have hne : PassType.AOV_COLOR ≠ t := fun e => ht2 e.symm
    simpa [setOfs, hne] using H hh hhead
  · intro hh hhead
    have hne : PassType.AOV_VALUE ≠ t := fun e => ht3 e.symm
    simpa [setOfs, hne] using J hh hhead

theorem dev_inv_crypto (init : KernelFilm) (s : UpdState) (nc f1 f2 : Nat)
    (hnc : 1 ≤ nc) (h : dev_inv init s) :
    dev_inv init ⟨⟨setOfs s.kfilm.pass_ofs PassType.CRYPTOMATTE
        (if s.have_cryptomatte then
          min (s.kfilm.pass_ofs PassType.CRYPTOMATTE) (s.kfilm.pass_stride : Int)
        else (s.kfilm.pass_stride : Int)),
        s.kfilm.pass_stride + nc, f1, f2⟩,
      true, s.have_aov_color, s.have_aov_value,
      s.recs, s.crypto_offsets ++ [s.kfilm.pass_stride],
      s.aov_color_offsets, s.aov_value_offsets⟩ := by
  obtain ⟨A, B, C, D, E, F, G, H, I, J⟩ := h
  unfold dev_inv
  dsimp only
  have hvlt : 0 ≤ (if s.have_cryptomatte then
      min (s.kfilm.pass_ofs PassType.CRYPTOMATTE) (s.kfilm.pass_stride : Int)
      else (s.kfilm.pass_stride : Int)) ∧
      (if s.have_cryptomatte then
      min (s.kfilm.pass_ofs PassType.CRYPTOMATTE) (s.kfilm.pass_stride : Int)
      else (s.kfilm.pass_stride : Int)) < ((s.kfilm.pass_stride + nc : Nat) : Int) := by
    rcases hco : s.crypto_offsets with _ | ⟨o, rest⟩
    · have hcf : s.have_cryptomatte = false := by
        rcases Bool.eq_false_or_eq_true s.have_cryptomatte with hb | hb
        · exact absurd (D.mp hb) (by simp [hco])
        · exact hb
      rw [hcf]
      simp only [Bool.false_eq_true, if_false]
      constructor
      · positivity
      · push_cast; omega
    · have hct : s.have_cryptomatte = true := D.mpr (by simp [hco])
      obtain ⟨feq, fmin⟩ := F o (by rw [hco]; rfl)
      have holt : o < s.kfilm.pass_stride := E o (by rw [hco]; exact List.mem_cons_self o rest)
      rw [hct]
      simp only [if_true]
      rw [feq]
      have hmin : min ((o : Int)) ((s.kfilm.pass_stride : Int)) = (o : Int) :=
        min_eq_left (by exact_mod_cast holt.le)
      rw [hmin]
      constructor
      · positivity
      · push_cast; omega
  refine ⟨?_, ?_, C, ?_, ?_, ?_, G, ?_, I, ?_⟩
  · intro u
    by_cases hu : u = PassType.CRYPTOMATTE
    · subst hu
      refine Or.inr ?_
      simpa [setOfs] using hvlt
    · rcases A u with h1 | ⟨h1, h2⟩
      · left; simpa [setOfs, hu] using h1
      · refine Or.inr ⟨by simpa [setOfs, hu] using h1, ?_⟩
        have h3 : setOfs s.kfilm.pass_ofs PassType.CRYPTOMATTE
            (if s.have_cryptomatte then
              min (s.kfilm.pass_ofs PassType.CRYPTOMATTE) (s.kfilm.pass_stride : Int)
            else (s.kfilm.pass_stride : Int)) u = s.kfilm.pass_ofs u := by
          simp [setOfs, hu]
        rw [h3]
        have : (s.kfilm.pass_stride : Int) ≤ ((s.kfilm.pass_stride + nc : Nat) : Int) := by
          push_cast; omega
        omega
  · intro r hr
    have := B r hr; omega
  · simp
  · intro o ho
    rcases List.mem_append.mp ho with h1 | h2
    · have := E o h1; omega
    · have : o = s.kfilm.pass_stride := by simpa using h2
      omega
  · intro hh hhead
    rcases hco : s.crypto_offsets with _ | ⟨o, rest⟩
    · have hcf : s.have_cryptomatte = false := by
        rcases Bool.eq_false_or_eq_true s.have_cryptomatte with hb | hb
        · exact absurd (D.mp hb) (by simp [hco])
        · exact hb
      rw [hco] at hhead
      simp only [List.nil_append, List.head?_cons, Option.some.injEq] at hhead
      subst hhead
      constructor
      · simp [setOfs, hcf]
      · intro o2 ho2
        have : o2 = s.kfilm.pass_stride := by simpa using ho2
        omega
    · have hct : s.have_cryptomatte = true := D.mpr (by simp [hco])
      obtain ⟨feq, fmin⟩ := F o (by rw [hco]; rfl)
      have holt : o < s.kfilm.pass_stride := E o (by rw [hco]; exact List.mem_cons_self o rest)
      rw [hco] at hhead
      simp only [List.cons_append, List.head?_cons, Option.some.injEq] at hhead
      subst hhead
      constructor
      · have hsel : setOfs s.kfilm.pass_ofs PassType.CRYPTOMATTE
            (if s.have_cryptomatte then
              min (s.kfilm.pass_ofs PassType.CRYPTOMATTE) (s.kfilm.pass_stride : Int)
            else (s.kfilm.pass_stride : Int)) PassType.CRYPTOMATTE =
            (if s.have_cryptomatte then
              min (s.kfilm.pass_ofs PassType.CRYPTOMATTE) (s.kfilm.pass_stride : Int)
            else (s.kfilm.pass_stride : Int)) := by
          simp [setOfs]
        rw [hsel, hct]
        simp only [if_true]
        rw [feq]
        exact min_eq_left (by exact_mod_cast holt.le)
      · intro o2 ho2
        rcases List.mem_append.mp ho2 with h1 | h2
        · exact fmin o2 (by rw [hco]; exact h1)
        · have : o2 = s.kfilm.pass_stride := by simpa using h2
          omega
  · intro hh hhead
    have := H hh hhead
    simpa [setOfs] using this
  · intro hh hhead
    have := J hh hhead
    simpa [setOfs] using this

theorem dev_inv_aovc_have (init : KernelFilm) (s : UpdState) (nc f1 f2 : Nat)
    (hac : s.have_aov_color = true) (h : dev_inv init s) :
    dev_inv init ⟨⟨s.kfilm.pass_ofs, s.kfilm.pass_stride + nc, f1, f2⟩,
      s.have_cryptomatte, true, s.have_aov_value,
      s.recs, s.crypto_offsets, s.aov_color_offsets ++ [s.kfilm.pass_stride],
      s.aov_value_offsets⟩ := by
  obtain ⟨A, B, C, D, E, F, G, H, I, J⟩ := h
  unfold dev_inv
  dsimp only
  refine ⟨?_, ?_, C, D, ?_, F, ?_, ?_, I, J⟩
  · intro t
    rcases A t with h1 | ⟨h1, h2⟩
    · exact Or.inl h1
    · refine Or.inr ⟨h1, ?_⟩
      have : (s.kfilm.pass_stride : Int) ≤ ((s.kfilm.pass_stride + nc : Nat) : Int) := by
        push_cast; omega
      omega
  · intro r hr
    have := B r hr; omega
  · intro o ho
    have := E o ho; omega
  · simp [hac]
  · intro hh hhead
    rcases hco : s.aov_color_offsets with _ | ⟨o, rest⟩
    · exact absurd (G.mp hac) (by simp [hco])
    · rw [hco] at hhead
      simp only [List.cons_append, List.head?_cons, Option.some.injEq] at hhead
      subst hhead
      exact H o (by rw [hco]; rfl)

theorem dev_inv_aovc_new (init : KernelFilm) (s : UpdState) (nc f1 f2 : Nat)
    (hnc : 1 ≤ nc) (hac : s.have_aov_color = false) (h : dev_inv init s) :
    dev_inv init ⟨⟨setOfs s.kfilm.pass_ofs PassType.AOV_COLOR (s.kfilm.pass_stride : Int),
        s.kfilm.pass_stride + nc, f1, f2⟩,
      s.have_cryptomatte, true, s.have_aov_value,
      s.recs, s.crypto_offsets, s.aov_color_offsets ++ [s.kfilm.pass_stride],
      s.aov_value_offsets⟩ := by
  obtain ⟨A, B, C, D, E, F, G, H, I, J⟩ := h
  have hempty : s.aov_color_offsets = [] := by
    rcases hco : s.aov_color_offsets with _ | ⟨o, rest⟩
    · rfl
    · exact absurd (G.mpr (by simp [hco])) (by simp [hac])
  unfold dev_inv
  dsimp only
  refine ⟨?_, ?_, C, D, ?_, ?_, ?_, ?_, I, ?_⟩
  · intro u
    by_cases hu : u = PassType.AOV_COLOR
    · subst hu
      refine Or.inr ⟨by simp [setOfs], ?_⟩
      have hsel : setOfs s.kfilm.pass_ofs PassType.AOV_COLOR
          (s.kfilm.pass_stride : Int) PassType.AOV_COLOR = (s.kfilm.pass_stride : Int) := by
        simp [setOfs]
      rw [hsel]; push_cast; omega
    · rcases A u with h1 | ⟨h1, h2⟩
      · left; simpa [setOfs, hu] using h1
      · refine Or.inr ⟨by simpa [setOfs, hu] using h1, ?_⟩
        have h3 : setOfs s.kfilm.pass_ofs PassType.AOV_COLOR
            (s.kfilm.pass_stride : Int) u = s.kfilm.pass_ofs u := by
          simp [setOfs, hu]
        rw [h3]
        have : (s.kfilm.pass_stride : Int) ≤ ((s.kfilm.pass_stride + nc : Nat) : Int) := by
          push_cast; omega
        omega
  · intro r hr
    have := B r hr; omega
  · intro o ho
    have := E o ho; omega
  · intro hh hhead
    have := F hh hhead
    simpa [setOfs] using this
  · simp
  · intro hh hhead
    rw [hempty] at hhead
    simp only [List.nil_append, List.head?_cons, Option.some.injEq] at hhead
    subst hhead
    simp [setOfs]
  · intro hh hhead
    have := J hh hhead
    simpa [setOfs] using this

theorem dev_inv_aovv_have (init : KernelFilm) (s : UpdState) (nc f1 f2 : Nat)
    (hav : s.have_aov_value = true) (h : dev_inv init s) :
    dev_inv init ⟨⟨s.kfilm.pass_ofs, s.kfilm.pass_stride + nc, f1, f2⟩,
      s.have_cryptomatte, s.have_aov_color, true,
      s.recs, s.crypto_offsets, s.aov_color_offsets,
      s.aov_value_offsets ++ [s.kfilm.pass_stride]⟩ := by
  obtain ⟨A, B, C, D, E, F, G, H, I, J⟩ := h
  unfold dev_inv
  dsimp only
  refine ⟨?_, ?_, C, D, ?_, F, G, H, ?_, ?_⟩
  · intro t
    rcases A t with h1 | ⟨h1, h2⟩
    · exact Or.inl h1
    · refine Or.inr ⟨h1, ?_⟩
      have : (s.kfilm.pass_stride : Int) ≤ ((s.kfilm.pass_stride + nc : Nat) : Int) := by
        push_cast; omega
      omega
  · intro r hr
    have := B r hr; omega
  · intro o ho
    have := E o ho; omega
  · simp [hav]
  · intro hh hhead
    rcases hco : s.aov_value_offsets with _ | ⟨o, rest⟩
    · exact absurd (I.mp hav) (by simp [hco])
    · rw [hco] at hhead
      simp only [List.cons_append, List.head?_cons, Option.some.injEq] at hhead
      subst hhead
      exact J o (by rw [hco]; rfl)

theorem dev_inv_aovv_new (init : KernelFilm) (s : UpdState) (nc f1 f2 : Nat)
    (hnc : 1 ≤ nc) (hav : s.have_aov_value = false) (h : dev_inv init s) :
    dev_inv init ⟨⟨setOfs s.kfilm.pass_ofs PassType.AOV_VALUE (s.kfilm.pass_stride : Int),
        s.kfilm.pass_stride + nc, f1, f2⟩,
      s.have_cryptomatte, s.have_aov_color, true,
      s.recs, s.crypto_offsets, s.aov_color_offsets,
      s.aov_value_offsets ++ [s.kfilm.pass_stride]⟩ := by
  obtain ⟨A, B, C, D, E, F, G, H, I, J⟩ := h
  have hempty : s.aov_value_offsets = [] := by
    rcases hco : s.aov_value_offsets with _ | ⟨o, rest⟩
    · rfl
    · exact absurd (I.mpr (by simp [hco])) (by simp [hav])
  unfold dev_inv
  dsimp only
  refine ⟨?_, ?_, C, D, ?_, ?_, G, ?_, ?_, ?_⟩
  · intro u
    by_cases hu : u = PassType.AOV_VALUE
    · subst hu
      refine Or.inr ⟨by simp [setOfs], ?_⟩
      have hsel : setOfs s.kfilm.pass_ofs PassType.AOV_VALUE
          (s.kfilm.pass_stride : Int) PassType.AOV_VALUE = (s.kfilm.pass_stride : Int) := by
        simp [setOfs]
      rw [hsel]; push_cast; omega
    · rcases A u with h1 | ⟨h1, h2⟩
      · left; simpa [setOfs, hu] using h1
      · refine Or.inr ⟨by simpa [setOfs, hu] using h1, ?_⟩
        have h3 : setOfs s.kfilm.pass_ofs PassType.AOV_VALUE
            (s.kfilm.pass_stride : Int) u = s.kfilm.pass_ofs u := by
          simp [setOfs, hu]
        rw [h3]
        have : (s.kfilm.pass_stride : Int) ≤ ((s.kfilm.pass_stride + nc : Nat) : Int) := by
          push_cast; omega
        omega
  · intro r hr
    have := B r hr; omega
  · intro o ho
    have := E o ho; omega
  · intro hh hhead
    have := F hh hhead
    simpa [setOfs] using this
  · intro hh hhead
    have := H hh hhead
    simpa [setOfs] using this
  · simp
  · intro hh hhead
    rw [hempty] at hhead
    simp only [List.nil_append, List.head?_cons, Option.some.injEq] at hhead
    subst hhead
    simp [setOfs]

theorem film_pass_step_skip (R : PassRegistry) (motion : Bool) (s : UpdState)
    (p : Pass) (h : p.type = PassType.NONE ∨ p.written = false) :
    film_pass_step R motion s p = s := by
  unfold film_pass_step
  rw [if_pos h]

theorem film_pass_step_stride_only (R : PassRegistry) (motion : Bool)
    (s : UpdState) (p : Pass)
    (h1 : ¬(p.type = PassType.NONE ∨ p.written = false))
    (h2 : p.mode = PassMode.DENOISED ∨
      ((p.type = PassType.MOTION ∨ p.type = PassType.MOTION_WEIGHT) ∧ motion = false)) :
    film_pass_step R motion s p =
      { s with kfilm :=
          { s.kfilm with pass_stride := s.kfilm.pass_stride + R.num_components p.type } } := by
  unfold film_pass_step
  rw [if_neg h1]
  by_cases hd : p.mode = PassMode.DENOISED
  · rw [if_pos hd]
  · rcases h2 with h2 | h2
    · exact absurd h2 hd
    · rw [if_neg hd, if_pos h2]

theorem film_pass_step_inv (R : PassRegistry) (motion : Bool) (init : KernelFilm)
    (hnc : ∀ t, 1 ≤ R.num_components t) (s : UpdState) (p : Pass)
    (h : dev_inv init s) : dev_inv init (film_pass_step R motion s p) := by
  obtain ⟨pt, pm, pname, pauto, pw⟩ := p
  unfold film_pass_step
  dsimp only
  by_cases h1 : pt = PassType.NONE ∨ pw = false
  · rw [if_pos h1]; exact h
  rw [if_neg h1]
  by_cases h2 : pm = PassMode.DENOISED
  · rw [if_pos h2]
    exact dev_inv_stride_flags init s _ _ _ h
  rw [if_neg h2]
  by_cases h3 : (pt = PassType.MOTION ∨ pt = PassType.MOTION_WEIGHT) ∧ motion = false
  · rw [if_pos h3]
    exact dev_inv_stride_flags init s _ _ _ h
  rw [if_neg h3]
  cases pt with
  | NONE => exact absurd (Or.inl rfl) h1
  | RENDER_TIME =>
    simp only [film_pass_flags_ofs, film_pass_flags_stride]
    exact dev_inv_stride_flags init s _ _ _ h
  | CRYPTOMATTE =>
    simp only [film_pass_flags_ofs, film_pass_flags_stride]
    exact dev_inv_crypto init s _ _ _ (hnc _) h
  | AOV_COLOR =>
    cases hac : s.have_aov_color with
    | false =>
      simp only [film_pass_flags_ofs, film_pass_flags_stride]
      exact dev_inv_aovc_new init s _ _ _ (hnc _) hac h
    | true =>
      simp only [film_pass_flags_ofs, film_pass_flags_stride]
      exact dev_inv_aovc_have init s _ _ _ hac h
  | AOV_VALUE =>
    cases hav : s.have_aov_value with
    | false =>
      simp only [film_pass_flags_ofs, film_pass_flags_stride]
      exact dev_inv_aovv_new init s _ _ _ (hnc _) hav h
    | true =>
      simp only [film_pass_flags_ofs, film_pass_flags_stride]
      exact dev_inv_aovv_have init s _ _ _ hav h
  | COMBINED =>
    simp only [film_pass_flags_ofs, film_pass_flags_stride]
    exact dev_inv_record init s _ _ _ _ (hnc _) (by decide) (by decide) (by decide) h
  | DEPTH =>
    simp only [film_pass_flags_ofs, film_pass_flags_stride]
    exact dev_inv_record init s _ _ _ _ (hnc _) (by decide) (by decide) (by decide) h
  | NORMAL =>
    simp only [film_pass_flags_ofs, film_pass_flags_stride]
    exact dev_inv_record init s _ _ _ _ (hnc _) (by decide) (by decide) (by decide) h
  | POSITION =>
    simp only [film_pass_flags_ofs, film_pass_flags_stride]
    exact dev_inv_record init s _ _ _ _ (hnc _) (by decide) (by decide) (by decide) h
  | ROUGHNESS =>
    simp only [film_pass_flags_ofs, film_pass_flags_stride]
    exact dev_inv_record init s _ _ _ _ (hnc _) (by decide) (by decide) (by decide) h
  | UV =>
    simp only [film_pass_flags_ofs, film_pass_flags_stride]
    exact dev_inv_record init s _ _ _ _ (hnc _) (by decide) (by decide) (by decide) h
  | MOTION =>
    simp only [film_pass_flags_ofs, film_pass_flags_stride]
    exact dev_inv_record init s _ _ _ _ (hnc _) (by decide) (by decide) (by decide) h
  | MOTION_WEIGHT =>
    simp only [film_pass_flags_ofs, film_pass_flags_stride]
    exact dev_inv_record init s _ _ _ _ (hnc _) (by decide) (by decide) (by decide) h
  | OBJECT_ID =>
    simp only [film_pass_flags_ofs, film_pass_flags_stride]
    exact dev_inv_record init s _ _ _ _ (hnc _) (by decide) (by decide) (by decide) h
  | MATERIAL_ID =>
    simp only [film_pass_flags_ofs, film_pass_flags_stride]
    exact dev_inv_record init s _ _ _ _ (hnc _) (by decide) (by decide) (by decide) h
  | MIST =>
    simp only [film_pass_flags_ofs, film_pass_flags_stride]
    exact dev_inv_record init s _ _ _ _ (hnc _) (by decide) (by decide) (by decide) h
  | EMISSION =>
    simp only [film_pass_flags_ofs, film_pass_flags_stride]
    exact dev_inv_record init s _ _ _ _ (hnc _) (by decide) (by decide) (by decide) h
  | BACKGROUND =>
    simp only [film_pass_flags_ofs, film_pass_flags_stride]
    exact dev_inv_record init s _ _ _ _ (hnc _) (by decide) (by decide) (by decide) h
  | AO =>
    simp only [film_pass_flags_ofs, film_pass_flags_stride]
    exact dev_inv_record init s _ _ _ _ (hnc _) (by decide) (by decide) (by decide) h
  | SHADOW =>
    simp only [film_pass_flags_ofs, film_pass_flags_stride]
    exact dev_inv_record init s _ _ _ _ (hnc _) (by decide) (by decide) (by decide) h
  | DIFFUSE_COLOR =>
    simp only [film_pass_flags_ofs, film_pass_flags_stride]
    exact dev_inv_record init s _ _ _ _ (hnc _) (by decide) (by decide) (by decide) h
  | GLOSSY_COLOR =>
    simp only [film_pass_flags_ofs, film_pass_flags_stride]
    exact dev_inv_record init s _ _ _ _ (hnc _) (by decide) (by decide) (by decide) h
  | TRANSMISSION_COLOR =>
    simp only [film_pass_flags_ofs, film_pass_flags_stride]
    exact dev_inv_record init s _ _ _ _ (hnc _) (by decide) (by decide) (by decide) h
  | DIFFUSE_INDIRECT =>
    simp only [film_pass_flags_ofs, film_pass_flags_stride]
    exact dev_inv_record init s _ _ _ _ (hnc _) (by decide) (by decide) (by decide) h
  | GLOSSY_INDIRECT =>
    simp only [film_pass_flags_ofs, film_pass_flags_stride]
    exact dev_inv_record init s _ _ _ _ (hnc _) (by decide) (by decide) (by decide) h
  | TRANSMISSION_INDIRECT =>
    simp only [film_pass_flags_ofs, film_pass_flags_stride]
    exact dev_inv_record init s _ _ _ _ (hnc _) (by decide) (by decide) (by decide) h
  | VOLUME_INDIRECT =>
    simp only [film_pass_flags_ofs, film_pass_flags_stride]
    exact dev_inv_record init s _ _ _ _ (hnc _) (by decide) (by decide) (by decide) h
  | DIFFUSE_DIRECT =>
    simp only [film_pass_flags_ofs, film_pass_flags_stride]
    exact dev_inv_record init s _ _ _ _ (hnc _) (by decide) (by decide) (by decide) h
  | GLOSSY_DIRECT =>
    simp only [film_pass_flags_ofs, film_pass_flags_stride]
    exact dev_inv_record init s _ _ _ _ (hnc _) (by decide) (by decide) (by decide) h
  | TRANSMISSION_DIRECT =>
    simp only [film_pass_flags_ofs, film_pass_flags_stride]
    exact dev_inv_record init s _ _ _ _ (hnc _) (by decide) (by decide) (by decide) h
  | VOLUME_DIRECT =>
    simp only [film_pass_flags_ofs, film_pass_flags_stride]
    exact dev_inv_record init s _ _ _ _ (hnc _) (by decide) (by decide) (by decide) h
  | DENOISING_NORMAL =>
    simp only [film_pass_flags_ofs, film_pass_flags_stride]
    exact dev_inv_record init s _ _ _ _ (hnc _) (by decide) (by decide) (by decide) h
  | DENOISING_ALBEDO =>
    simp only [film_pass_flags_ofs, film_pass_flags_stride]
    exact dev_inv_record init s _ _ _ _ (hnc _) (by decide) (by decide) (by decide) h
  | SHADOW_CATCHER =>
    simp only [film_pass_flags_ofs, film_pass_flags_stride]
    exact dev_inv_record init s _ _ _ _ (hnc _) (by decide) (by decide) (by decide) h
  | SHADOW_CATCHER_SAMPLE_COUNT =>
    simp only [film_pass_flags_ofs, film_pass_flags_stride]
    exact dev_inv_record init s _ _ _ _ (hnc _) (by decide) (by decide) (by decide) h
  | SHADOW_CATCHER_MATTE =>
    simp only [film_pass_flags_ofs, film_pass_flags_stride]
    exact dev_inv_record init s _ _ _ _ (hnc _) (by decide) (by decide) (by decide) h
  | ADAPTIVE_AUX_BUFFER =>
    simp only [film_pass_flags_ofs, film_pass_flags_stride]
    exact dev_inv_record init s _ _ _ _ (hnc _) (by decide) (by decide) (by decide) h
  | SAMPLE_COUNT =>
    simp only [film_pass_flags_ofs, film_pass_flags_stride]
    exact dev_inv_record init s _ _ _ _ (hnc _) (by decide) (by decide) (by decide) h
  | BAKE_PRIMITIVE =>
    simp only [film_pass_flags_ofs, film_pass_flags_stride]
    exact dev_inv_record init s _ _ _ _ (hnc _) (by decide) (by decide) (by decide) h
  | BAKE_DIFFERENTIAL =>
    simp only [film_pass_flags_ofs, film_pass_flags_stride]
    exact dev_inv_record init s _ _ _ _ (hnc _) (by decide) (by decide) (by decide) h

theorem film_pass_step_stride (R : PassRegistry) (motion : Bool) (s : UpdState)
    (p : Pass) : (film_pass_step R motion s p).kfilm.pass_stride =
      s.kfilm.pass_stride + stride_advance R p := by
  obtain ⟨pt, pm, pname, pauto, pw⟩ := p
  unfold film_pass_step stride_advance
  dsimp only
  by_cases h1 : pt = PassType.NONE ∨ pw = false
  · rw [if_pos h1, if_pos h1]
    simp
  rw [if_neg h1, if_neg h1]
  by_cases h2 : pm = PassMode.DENOISED
  · rw [if_pos h2]
  rw [if_neg h2]
  by_cases h3 : (pt = PassType.MOTION ∨ pt = PassType.MOTION_WEIGHT) ∧ motion = false
  · rw [if_pos h3]
  rw [if_neg h3]
  cases pt with
  | NONE => exact absurd (Or.inl rfl) h1
  | AOV_COLOR => cases hac : s.have_aov_color <;> simp [hac, film_pass_flags_stride]
  | AOV_VALUE => cases hav : s.have_aov_value <;> simp [hav, film_pass_flags_stride]
  | COMBINED => simp [film_pass_flags_stride]
  | DEPTH => simp [film_pass_flags_stride]
  | NORMAL => simp [film_pass_flags_stride]
  | POSITION => simp [film_pass_flags_stride]
  | ROUGHNESS => simp [film_pass_flags_stride]
  | UV => simp [film_pass_flags_stride]
  | MOTION => simp [film_pass_flags_stride]
  | MOTION_WEIGHT => simp [film_pass_flags_stride]
  | OBJECT_ID => simp [film_pass_flags_stride]
  | MATERIAL_ID => simp [film_pass_flags_stride]
  | MIST => simp [film_pass_flags_stride]
  | EMISSION => simp [film_pass_flags_stride]
  | BACKGROUND => simp [film_pass_flags_stride]
  | AO => simp [film_pass_flags_stride]
  | SHADOW => simp [film_pass_flags_stride]
  | DIFFUSE_COLOR => simp [film_pass_flags_stride]
  | GLOSSY_COLOR => simp [film_pass_flags_stride]
  | TRANSMISSION_COLOR => simp [film_pass_flags_stride]
  | DIFFUSE_INDIRECT => simp [film_pass_flags_stride]
  | GLOSSY_INDIRECT => simp [film_pass_flags_stride]
  | TRANSMISSION_INDIRECT => simp [film_pass_flags_stride]
  | VOLUME_INDIRECT => simp [film_pass_flags_stride]
  | DIFFUSE_DIRECT => simp [film_pass_flags_stride]
  | GLOSSY_DIRECT => simp [film_pass_flags_stride]
  | TRANSMISSION_DIRECT => simp [film_pass_flags_stride]
  | VOLUME_DIRECT => simp [film_pass_flags_stride]
  | CRYPTOMATTE => simp [film_pass_flags_stride]
  | DENOISING_NORMAL => simp [film_pass_flags_stride]
  | DENOISING_ALBEDO => simp [film_pass_flags_stride]
  | SHADOW_CATCHER => simp [film_pass_flags_stride]
  | SHADOW_CATCHER_SAMPLE_COUNT => simp [film_pass_flags_stride]
  | SHADOW_CATCHER_MATTE => simp [film_pass_flags_stride]
  | ADAPTIVE_AUX_BUFFER => simp [film_pass_flags_stride]
  | SAMPLE_COUNT => simp [film_pass_flags_stride]
  | BAKE_PRIMITIVE => simp [film_pass_flags_stride]
  | BAKE_DIFFERENTIAL => simp [film_pass_flags_stride]
  | RENDER_TIME => simp [film_pass_flags_stride]

theorem film_fold_stride (R : PassRegistry) (motion : Bool) :
    ∀ (ps : List Pass) (s : UpdState),
    (ps.foldl (film_pass_step R motion) s).kfilm.pass_stride =
      s.kfilm.pass_stride + (ps.map (stride_advance R)).sum := by
  intro ps
  induction ps with
  | nil => intro s; simp
  | cons p rest ih =>
    intro s
    simp only [List.foldl_cons, List.map_cons, List.sum_cons]
    rw [ih, film_pass_step_stride]
    omega

theorem dev_inv_base (k : KernelFilm) :
    dev_inv (film_device_init k)
      ⟨film_device_init k, false, false, false, [], [], [], []⟩ := by
  refine ⟨fun t => Or.inl rfl, by simp, by simp, by simp, by simp, by simp, by simp,
    by simp, by simp, by simp⟩

theorem film_device_update_inv (R : PassRegistry) (motion : Bool)
    (passes : List Pass) (k : KernelFilm) (hnc : ∀ t, 1 ≤ R.num_components t) :
    dev_inv (film_device_init k) (film_device_update_passes R motion passes k) := by
  unfold film_device_update_passes
  have base := dev_inv_base k
  revert base
  generalize (⟨film_device_init k, false, false, false, [], [], [], []⟩ : UpdState) = s0
  intro base
  induction passes generalizing s0 with
  | nil => exact base
  | cons p rest ih =>
    simp only [List.foldl_cons]
    exact ih _ (film_pass_step_inv R motion _ hnc _ _ base)

/-- C1: in the kernel film record produced by the pass-layout walk of
`Film::device_update`, every type-specific offset field either still holds its
initialisation value (`PASS_UNUSED = -1` for all fields the walk initialises;
the last conjunct certifies that) or lies in `[0, pass_stride)`; and the
primary offset recordings (the plain `pass_X = pass_stride` switch
assignments, which exclude the Cryptomatte-minimum and AOV-first-occurrence
special cases) fit inside the stride and are pairwise non-overlapping as
component ranges. -/
theorem C1_offset_ranges_and_disjointness (R : PassRegistry) (motion : Bool)
    (passes : List Pass) (k : KernelFilm) (hnc : ∀ t, 1 ≤ R.num_components t) :
    (∀ t, (film_device_update_passes R motion passes k).kfilm.pass_ofs t =
        (film_device_init k).pass_ofs t ∨
      (0 ≤ (film_device_update_passes R motion passes k).kfilm.pass_ofs t ∧
        (film_device_update_passes R motion passes k).kfilm.pass_ofs t <
          ((film_device_update_passes R motion passes k).kfilm.pass_stride : Int))) ∧
    (∀ r ∈ (film_device_update_passes R motion passes k).recs,
      r.offset + r.ncomp ≤ (film_device_update_passes R motion passes k).kfilm.pass_stride) ∧
    List.Pairwise
      (fun a b => a.offset + a.ncomp ≤ b.offset ∨ b.offset + b.ncomp ≤ a.offset)
      (film_device_update_passes R motion passes k).recs ∧
    (∀ t ∈ resetTypes, (film_device_init k).pass_ofs t = PASS_UNUSED) := by
  obtain ⟨A, B, C, D, E, F, G, H, I, J⟩ := film_device_update_inv R motion passes k hnc
  refine ⟨A, B, C.imp (fun hab => Or.inl hab), ?_⟩
  intro t ht
  simp [film_device_init, ht]

/-- Concrete check of C1 at a two-pass scene (Combined then Depth, three
components each): the hypothesis is satisfied and the recordings are
disjoint. -/
theorem C1_witness :
    (∀ t, 1 ≤ sampleRegistry.num_components t) ∧
    List.Pairwise
      (fun a b => a.offset + a.ncomp ≤ b.offset ∨ b.offset + b.ncomp ≤ a.offset)
      (film_device_update_passes sampleRegistry true
        [⟨PassType.COMBINED, PassMode.NOISY, (""), false, true⟩,
         ⟨PassType.DEPTH, PassMode.NOISY, (""), false, true⟩] kfilm0).recs :=
  ⟨by decide,
   (C1_offset_ranges_and_disjointness sampleRegistry true
      [⟨PassType.COMBINED, PassMode.NOISY, (""), false, true⟩,
       ⟨PassType.DEPTH, PassMode.NOISY, (""), false, true⟩] kfilm0 (by decide)).2.2.1⟩

/-- C2 as stated is false on the code: an unwritten pass does not advance the
running stride counter — the walk `continue`s before the stride update.  With
every component count equal to 3, running the walk over a single unwritten
Combined pass leaves `pass_stride = 0`, where the claim requires it to advance
by the pass's component count (3). -/
theorem C2_counterexample :
    (film_device_update_passes sampleRegistry true
      [⟨PassType.COMBINED, PassMode.NOISY, (""), false, false⟩] kfilm0).kfilm.pass_stride
      = 0 ∧
    sampleRegistry.num_components PassType.COMBINED = 3 := by
  exact ⟨rfl, rfl⟩

/-- C2 (amended): a `PASS_NONE` or unwritten pass is skipped entirely — it
receives no offset and does not advance the stride counter; a Denoised-mode
pass, or a Motion/MotionWeight pass when the motion-pass feature is disabled,
advances the stride by its component count while changing nothing else (no
primary offset, no recordings); and the output `pass_stride` is the final
counter value: the sum of `stride_advance` (component count for written
non-`NONE` passes, zero otherwise) over the single walk. -/
theorem C2_stride_accounting (R : PassRegistry) (motion : Bool)
    (passes : List Pass) (k : KernelFilm) :
    (film_device_update_passes R motion passes k).kfilm.pass_stride =
      (passes.map (stride_advance R)).sum ∧
    (∀ s p, (p.type = PassType.NONE ∨ p.written = false) →
      film_pass_step R motion s p = s) ∧
    (∀ s p, ¬(p.type = PassType.NONE ∨ p.written = false) →
      (p.mode = PassMode.DENOISED ∨
        ((p.type = PassType.MOTION ∨ p.type = PassType.MOTION_WEIGHT) ∧
          motion = false)) →
      film_pass_step R motion s p =
        { s with kfilm := { s.kfilm with
            pass_stride := s.kfilm.pass_stride + R.num_components p.type } }) := by
  refine ⟨?_, film_pass_step_skip R motion, film_pass_step_stride_only R motion⟩
  unfold film_device_update_passes
  rw [film_fold_stride]
  simp [film_device_init]

/-- Concrete check of C2 (amended): a Denoised-mode Combined pass advances the
stride by its three components and changes nothing else. -/
theorem C2_witness :
    film_pass_step sampleRegistry true
      (⟨kfilm0, false, false, false, [], [], [], []⟩ : UpdState)
      ⟨PassType.COMBINED, PassMode.DENOISED, (""), false, true⟩ =
    { (⟨kfilm0, false, false, false, [], [], [], []⟩ : UpdState) with
      kfilm := { kfilm0 with
        pass_stride := kfilm0.pass_stride +
          sampleRegistry.num_components PassType.COMBINED } } :=
  (C2_stride_accounting sampleRegistry true [] kfilm0).2.2
    (⟨kfilm0, false, false, false, [], [], [], []⟩ : UpdState)
    ⟨PassType.COMBINED, PassMode.DENOISED, (""), false, true⟩
    (by decide) (Or.inl rfl)

/-- C7: the single recorded kernel Cryptomatte offset is the first — hence
minimum — of the offsets of all written noisy Cryptomatte passes; the AOVColor
and AOVValue fields record only their first occurrence's offset; and every
subsequent same-kind pass still consumes stride space (the final stride is the
full component sum over the walk). -/
theorem C7_crypto_min_aov_first (R : PassRegistry) (motion : Bool)
    (passes : List Pass) (k : KernelFilm) (hnc : ∀ t, 1 ≤ R.num_components t) :
    (∀ h, (film_device_update_passes R motion passes k).crypto_offsets.head? = some h →
      (film_device_update_passes R motion passes k).kfilm.pass_ofs PassType.CRYPTOMATTE
        = (h : Int) ∧
      ∀ o ∈ (film_device_update_passes R motion passes k).crypto_offsets, h ≤ o) ∧
    (∀ h, (film_device_update_passes R motion passes k).aov_color_offsets.head? = some h →
      (film_device_update_passes R motion passes k).kfilm.pass_ofs PassType.AOV_COLOR
        = (h : Int)) ∧
    (∀ h, (film_device_update_passes R motion passes k).aov_value_offsets.head? = some h →
      (film_device_update_passes R motion passes k).kfilm.pass_ofs PassType.AOV_VALUE
        = (h : Int)) ∧
    (film_device_update_passes R motion passes k).kfilm.pass_stride =
      (passes.map (stride_advance R)).sum := by
  obtain ⟨A, B, C, D, E, F, G, H, I, J⟩ := film_device_update_inv R motion passes k hnc
  refine ⟨F, H, J, ?_⟩
  unfold film_device_update_passes
  rw [film_fold_stride]
  simp [film_device_init]

/-- Concrete check of C7: with two named Cryptomatte passes and two colour AOV
passes (three components each), the recorded Cryptomatte offset is the first
one (0), which is minimal, and the AOVColor offset is the first colour AOV's
offset (6). -/
theorem C7_witness :
    (film_device_update_passes sampleRegistry true
      [⟨PassType.CRYPTOMATTE, PassMode.NOISY, ("c0"), false, true⟩,
       ⟨PassType.CRYPTOMATTE, PassMode.NOISY, ("c1"), false, true⟩,
       ⟨PassType.AOV_COLOR, PassMode.NOISY, ("a"), false, true⟩,
       ⟨PassType.AOV_COLOR, PassMode.NOISY, ("b"), false, true⟩]
      kfilm0).kfilm.pass_ofs PassType.CRYPTOMATTE = (0 : Int) ∧
    (film_device_update_passes sampleRegistry true
      [⟨PassType.CRYPTOMATTE, PassMode.NOISY, ("c0"), false, true⟩,
       ⟨PassType.CRYPTOMATTE, PassMode.NOISY, ("c1"), false, true⟩,
       ⟨PassType.AOV_COLOR, PassMode.NOISY, ("a"), false, true⟩,
       ⟨PassType.AOV_COLOR, PassMode.NOISY, ("b"), false, true⟩]
      kfilm0).kfilm.pass_ofs PassType.AOV_COLOR = (6 : Int) := by
  have h := C7_crypto_min_aov_first sampleRegistry true
    [⟨PassType.CRYPTOMATTE, PassMode.NOISY, ("c0"), false, true⟩,
     ⟨PassType.CRYPTOMATTE, PassMode.NOISY, ("c1"), false, true⟩,
     ⟨PassType.AOV_COLOR, PassMode.NOISY, ("a"), false, true⟩,
     ⟨PassType.AOV_COLOR, PassMode.NOISY, ("b"), false, true⟩] kfilm0 (by decide)
  exact ⟨(h.1 0 (by decide)).1, h.2.1 6 (by decide)⟩

theorem compare_pass_order_iff (R : PassRegistry) (a b : Pass) :
    compare_pass_order R a b = true ↔
      (R.num_components b.type < R.num_components a.type ∨
        (R.num_components a.type = R.num_components b.type ∧
          typeId a.type < typeId b.type)) := by
  unfold compare_pass_order
  by_cases h : R.num_components a.type = R.num_components b.type
  · rw [if_pos h]
    simp only [decide_eq_true_eq]
    omega
  · rw [if_neg h]
    simp only [decide_eq_true_eq, gt_iff_lt]
    omega

theorem compare_pass_order_self (R : PassRegistry) (a : Pass) :
    compare_pass_order R a a = false := by
  cases hc : compare_pass_order R a a
  · rfl
  · rw [compare_pass_order_iff] at hc; omega

theorem compare_pass_order_congr (R : PassRegistry) (a b : Pass)
    (h : a.type = b.type) :
    (∀ c, compare_pass_order R a c = compare_pass_order R b c) ∧
    (∀ c, compare_pass_order R c a = compare_pass_order R c b) := by
  unfold compare_pass_order
  rw [h]
  exact ⟨fun c => rfl, fun c => rfl⟩

theorem compare_pass_order_asymm (R : PassRegistry) (a b : Pass)
    (h : compare_pass_order R a b = true) : compare_pass_order R b a = false := by
  cases hc : compare_pass_order R b a
  · rfl
  · rw [compare_pass_order_iff] at h hc; omega

theorem compare_pass_order_trans (R : PassRegistry) (a b c : Pass)
    (h1 : compare_pass_order R a b = true) (h2 : compare_pass_order R b c = true) :
    compare_pass_order R a c = true := by
  cases hc : compare_pass_order R a c
  · rw [compare_pass_order_iff] at h1 h2
    have hc2 : ¬(R.num_components c.type < R.num_components a.type ∨
        (R.num_components a.type = R.num_components c.type ∧
          typeId a.type < typeId c.type)) := by
      intro hx
      have := (compare_pass_order_iff R a c).mpr hx
      rw [hc] at this
      exact Bool.false_ne_true this
    omega
  · rfl

theorem ord_insert_mem (lt : α → α → Bool) (x : α) :
    ∀ (l : List α) (z : α), z ∈ ord_insert lt x l → z = x ∨ z ∈ l := by
  intro l
  induction l with
  | nil => intro z hz; simp [ord_insert] at hz; exact Or.inl hz
  | cons y rest ih =>
    intro z hz
    unfold ord_insert at hz
    by_cases hlt : lt x y = true
    · rw [if_pos hlt] at hz
      rcases List.mem_cons.mp hz with rfl | hz2
      · exact Or.inl rfl
      · exact Or.inr hz2
    · rw [if_neg (by simpa using hlt)] at hz
      rcases List.mem_cons.mp hz with rfl | hz2
      · exact Or.inr (List.mem_cons_self _ _)
      · rcases ih z hz2 with h1 | h1
        · exact Or.inl h1
        · exact Or.inr (List.mem_cons_of_mem _ h1)

theorem ord_insert_pairwise (R : PassRegistry) (x : Pass) :
    ∀ (l : List Pass),
    List.Pairwise (fun a b => compare_pass_order R b a = false) l →
    List.Pairwise (fun a b => compare_pass_order R b a = false)
      (ord_insert (compare_pass_order R) x l) := by
  intro l
  induction l with
  | nil => intro _; simp [ord_insert]
  | cons y rest ih =>
    intro hsort
    obtain ⟨hy, hrest⟩ := List.pairwise_cons.mp hsort
    unfold ord_insert
    by_cases hlt : compare_pass_order R x y = true
    · rw [if_pos hlt]
      refine List.pairwise_cons.mpr ⟨?_, hsort⟩
      intro z hz
      rcases List.mem_cons.mp hz with rfl | hz2
      · exact compare_pass_order_asymm R x z hlt
      · cases hzx : compare_pass_order R z x
        · rfl
        · have : compare_pass_order R z y = true :=
            compare_pass_order_trans R z x y hzx hlt
          rw [hy z hz2] at this
          exact absurd this Bool.false_ne_true
    · rw [if_neg (by simpa using hlt)]
      refine List.pairwise_cons.mpr ⟨?_, ih hrest⟩
      intro z hz
      rcases ord_insert_mem (compare_pass_order R) x rest z hz with rfl | hz2
      · simpa using hlt
      · exact hy z hz2

theorem passesOfType_ord_insert (R : PassRegistry) (T : PassType) (x : Pass) :
    ∀ (l : List Pass),
    List.Pairwise (fun a b => compare_pass_order R b a = false) l →
    passesOfType T (ord_insert (compare_pass_order R) x l) =
      (if x.type = T then passesOfType T l ++ [x] else passesOfType T l) := by
  intro l
  induction l with
  | nil =>
    intro _
    by_cases hx : x.type = T <;> simp [ord_insert, passesOfType, hx]
  | cons y rest ih =>
    intro hsort
    obtain ⟨hy, hrest⟩ := List.pairwise_cons.mp hsort
    unfold ord_insert
    by_cases hlt : compare_pass_order R x y = true
    · rw [if_pos hlt]
      by_cases hx : x.type = T
      · have hnone : ∀ z ∈ y :: rest, ¬(z.type = T) := by
          intro z hz hzT
          have hzx : z.type = x.type := by rw [hzT, hx]
          have heq := ((compare_pass_order_congr R z x hzx).1 y)
          rcases List.mem_cons.mp hz with rfl | hz2
          · -- z = y : cmp x z = true would mean x strictly precedes an
            -- equal-key element, contradicting irreflexivity
            have hfz := ((compare_pass_order_congr R z x hzx).2 x)
            rw [compare_pass_order_self R x] at hfz
            have h3 : compare_pass_order R x z = true := hlt
            rw [hfz] at h3
            exact Bool.false_ne_true h3
          · have h4 : compare_pass_order R z y = true := by rw [heq]; exact hlt
            rw [hy z hz2] at h4
            exact Bool.false_ne_true h4
        have hfilter : passesOfType T (y :: rest) = [] := by
          unfold passesOfType
          rw [List.filter_eq_nil_iff]
          intro z hz
          simpa using hnone z hz
        rw [if_pos hx]
        unfold passesOfType at hfilter ⊢
        simp [List.filter_cons, hx, hfilter]
      · rw [if_neg hx]
        unfold passesOfType
        simp [List.filter_cons, hx]
    · rw [if_neg (by simpa using hlt)]
      unfold passesOfType at ih ⊢
      rw [List.filter_cons, List.filter_cons, ih hrest]
      by_cases hx : x.type = T <;> by_cases hyT : y.type = T <;> simp [hx, hyT]

theorem stable_sort_go_spec (R : PassRegistry) (T : PassType) :
    ∀ (l acc : List Pass),
    List.Pairwise (fun a b => compare_pass_order R b a = false) acc →
    List.Pairwise (fun a b => compare_pass_order R b a = false)
      (l.foldl (fun acc x => ord_insert (compare_pass_order R) x acc) acc) ∧
    passesOfType T (l.foldl (fun acc x => ord_insert (compare_pass_order R) x acc) acc) =
      passesOfType T acc ++ passesOfType T l := by
  intro l
  induction l with
  | nil =>
    intro acc h
    exact ⟨h, by simp [passesOfType]⟩
  | cons x rest ih =>
    intro acc h
    have hsorted := ord_insert_pairwise R x acc h
    obtain ⟨hs, hf⟩ := ih _ hsorted
    refine ⟨hs, ?_⟩
    rw [List.foldl_cons, hf, passesOfType_ord_insert R T x acc h]
    unfold passesOfType
    rw [List.filter_cons]
    by_cases hx : x.type = T <;> simp [hx]

theorem passesOfType_stable_sort (R : PassRegistry) (T : PassType)
    (l : List Pass) :
    passesOfType T (stable_sort (compare_pass_order R) l) = passesOfType T l := by
  unfold stable_sort
  have := (stable_sort_go_spec R T l [] (by simp)).2
  rw [this]
  simp [passesOfType]

theorem stable_sort_sorted (R : PassRegistry) (l : List Pass) :
    List.Pairwise (fun a b => compare_pass_order R b a = false)
      (stable_sort (compare_pass_order R) l) :=
  (stable_sort_go_spec R PassType.NONE l [] (by simp)).1

theorem pass_merge_auto_noop (q a : Pass) (hname : a.name = ("")) (hauto : a.is_auto = true) :
    pass_merge q a = q := by
  unfold pass_merge
  rw [hname, hauto]
  simp

theorem try_merge_auto_noop (a : Pass) (hname : a.name = ("")) (hauto : a.is_auto = true) :
    ∀ l, (∃ q ∈ l, pass_mergeable q a = true) → try_merge a l = some l := by
  intro l
  induction l with
  | nil => rintro ⟨q, hq, -⟩; simp at hq
  | cons y rest ih =>
    rintro ⟨q, hq, hm⟩
    unfold try_merge
    by_cases hym : pass_mergeable y a = true
    · rw [if_pos hym, pass_merge_auto_noop y a hname hauto]
    · have hqrest : q ∈ rest := by
        rcases List.mem_cons.mp hq with rfl | h2
        · exact absurd hm hym
        · exact h2
      rw [if_neg (by simpa using hym), ih ⟨q, hqrest, hm⟩]

theorem film_dedup_pair (R : PassRegistry) (u : Bool) (p q : Pass)
    (hp : pass_normalize R u p = p) (hq : pass_normalize R u q = q) :
    film_dedup R u [p, q] =
      (if pass_mergeable p q = true then [pass_merge p q] else [p, q]) := by
  by_cases hm : pass_mergeable p q = true <;>
    simp [film_dedup, dedup_step, try_merge, hp, hq, hm]

/-- C3 as stated is false on the code: `Film::add_auto_pass` performs no
duplicate check — it appends unconditionally.  Adding an auto Combined pass
to a list that already contains that exact auto pass duplicates it (length 2),
where the claim requires the idempotent insert to leave the list unchanged. -/
theorem C3_counterexample :
    add_auto_pass [⟨PassType.COMBINED, PassMode.NOISY, (""), true, true⟩]
      PassType.COMBINED PassMode.NOISY ("") =
    [⟨PassType.COMBINED, PassMode.NOISY, (""), true, true⟩,
     ⟨PassType.COMBINED, PassMode.NOISY, (""), true, true⟩] := by
  decide

/-- C3 (amended): the "ensure X exists" operation `Film::add_auto_pass` is an
unconditional append of a fresh auto pass, not an idempotent insert; the
idempotence of the ensure step is recovered later by `finalize_passes`: when
the duplicate-merging phase's output for the current list already contains a
pass of the auto pass's (normalised) type and mode, appending the unnamed auto
pass and merging again leaves that output unchanged. -/
theorem C3_add_auto_unconditional_then_merged (passes : List Pass)
    (t : PassType) (m : PassMode) (name : String) :
    add_auto_pass passes t m name =
      passes ++ [⟨t, m, name, true, true⟩] ∧
    (∀ (R : PassRegistry) (u : Bool),
      (∃ q ∈ film_dedup R u passes,
        q.type = t ∧ q.mode = (pass_normalize R u ⟨t, m, (""), true, true⟩).mode) →
      film_dedup R u (add_auto_pass passes t m ("")) = film_dedup R u passes) := by
  refine ⟨rfl, ?_⟩
  rintro R u ⟨q, hq, hqt, hqm⟩
  have hsplit : film_dedup R u (add_auto_pass passes t m ("")) =
      dedup_step R u (film_dedup R u passes) ⟨t, m, (""), true, true⟩ := by
    unfold add_auto_pass film_dedup
    rw [List.foldl_append]
    rfl
  rw [hsplit]
  dsimp only [dedup_step]
  set a2 := pass_normalize R u ⟨t, m, (""), true, true⟩ with ha2
  have ha2name : a2.name = ("") := by rw [ha2]; rfl
  have ha2auto : a2.is_auto = true := by rw [ha2]; rfl
  have ha2type : a2.type = t := by rw [ha2]; rfl
  have hmerge : pass_mergeable q a2 = true := by
    unfold pass_mergeable
    simp only [ha2name, ha2type, hqt, hqm]
    simp
  rw [try_merge_auto_noop a2 ha2name ha2auto (film_dedup R u passes) ⟨q, hq, hmerge⟩]

/-- Concrete check of C3 (amended): appending the auto Combined pass to a
scene that already declares a user Combined pass and merging duplicates gives
the same resolved list as without the append. -/
theorem C3_witness :
    film_dedup sampleRegistry false
      (add_auto_pass [⟨PassType.COMBINED, PassMode.NOISY, (""), false, true⟩]
        PassType.COMBINED PassMode.NOISY ("")) =
    film_dedup sampleRegistry false
      [⟨PassType.COMBINED, PassMode.NOISY, (""), false, true⟩] :=
  (C3_add_auto_unconditional_then_merged
      [⟨PassType.COMBINED, PassMode.NOISY, (""), false, true⟩]
      PassType.COMBINED PassMode.NOISY ("")).2 sampleRegistry false
    (by decide)

/-- C5: during resolution two passes merge iff they have the same type, the
same mode, and their names are equal or at least one is empty; the kept pass
takes the non-empty name when exactly one side had one, and its `is_auto` flag
becomes the conjunction of both; in particular resolving two AO passes with
denoising disabled leaves exactly one AO pass whose `is_auto` is the
conjunction of the two input flags. -/
theorem C5_merge_criterion (R : PassRegistry) (u : Bool) (p q : Pass)
    (hp : pass_normalize R u p = p) (hq : pass_normalize R u q = q) :
    (pass_mergeable p q = true ↔
      (p.type = q.type ∧ p.mode = q.mode ∧
        (p.name = q.name ∨ p.name = ("") ∨ q.name = ("")))) ∧
    ((film_dedup R u [p, q]).length = 1 ↔ pass_mergeable p q = true) ∧
    (pass_mergeable p q = true →
      film_dedup R u [p, q] = [pass_merge p q] ∧
      (pass_merge p q).name = (if p.name = ("") then q.name else p.name) ∧
      (pass_merge p q).is_auto = (p.is_auto && q.is_auto) ∧
      (pass_merge p q).type = p.type ∧ (pass_merge p q).mode = p.mode) ∧
    (∀ (m1 m2 : PassMode) (a1 a2 : Bool),
      film_finalize R false
        [⟨PassType.AO, m1, (""), a1, true⟩, ⟨PassType.AO, m2, (""), a2, true⟩] =
      [⟨PassType.AO, PassMode.NOISY, (""), a1 && a2, true⟩]) := by
  have hcrit : pass_mergeable p q = true ↔
      (p.type = q.type ∧ p.mode = q.mode ∧
        (p.name = q.name ∨ p.name = ("") ∨ q.name = (""))) := by
    unfold pass_mergeable
    simp only [Bool.and_eq_true, decide_eq_true_eq, ne_eq]
    constructor
    · rintro ⟨h1, h2, h3⟩
      refine ⟨h1, h2, ?_⟩
      by_cases hn1 : p.name = ("")
      · exact Or.inr (Or.inl hn1)
      · by_cases hn2 : q.name = ("")
        · exact Or.inr (Or.inr hn2)
        · left
          by_contra hne
          exact h3 ⟨hn2, hn1, fun e => hne e.symm⟩
    · rintro ⟨h1, h2, h3⟩
      refine ⟨h1, h2, ?_⟩
      rintro ⟨hn2, hn1, hne⟩
      rcases h3 with h3 | h3 | h3
      · exact hne h3.symm
      · exact hn1 h3
      · exact hn2 h3
  refine ⟨hcrit, ?_, ?_, ?_⟩
  · rw [film_dedup_pair R u p q hp hq]
    by_cases hm : pass_mergeable p q = true <;> simp [hm]
  · intro hm
    refine ⟨?_, ?_, ?_, rfl, rfl⟩
    · rw [film_dedup_pair R u p q hp hq, if_pos hm]
    · unfold pass_merge
      by_cases hn1 : p.name = ("")
      · by_cases hn2 : q.name = ("") <;> simp [hn1, hn2]
      · simp [hn1]
    · unfold pass_merge
      rfl
  · intro m1 m2 a1 a2
    simp [film_finalize, film_dedup, dedup_step, pass_normalize, try_merge,
      pass_mergeable, pass_merge, stable_sort, ord_insert]

/-- Concrete check of C5: a named and an unnamed Normal pass merge into one
pass carrying the name, and a user instance makes the merged pass non-auto. -/
theorem C5_witness :
    film_dedup sampleRegistry false
      [⟨PassType.NORMAL, PassMode.NOISY, (""), true, true⟩,
       ⟨PassType.NORMAL, PassMode.NOISY, ("N1"), false, true⟩] =
    [⟨PassType.NORMAL, PassMode.NOISY, ("N1"), false, true⟩] := by
  have h := ((C5_merge_criterion sampleRegistry false
      ⟨PassType.NORMAL, PassMode.NOISY, (""), true, true⟩
      ⟨PassType.NORMAL, PassMode.NOISY, ("N1"), false, true⟩
      (by decide) (by decide)).2.2.1 (by decide)).1
  rw [h]
  decide

/-- C6 as stated is false on the code for the cross-type part: with equal
component counts, the secondary ascending-type-identifier key reorders the
interleaved input `[AOVColor "a", Cryptomatte "c0", AOVColor "b",
Cryptomatte "c1"]` (the Cryptomatte passes sort before the AOV passes), so
resolution does not preserve the four passes' overall relative order. -/
theorem C6_counterexample :
    film_finalize sampleRegistry false
      [⟨PassType.AOV_COLOR, PassMode.NOISY, ("a"), false, true⟩,
       ⟨PassType.CRYPTOMATTE, PassMode.NOISY, ("c0"), false, true⟩,
       ⟨PassType.AOV_COLOR, PassMode.NOISY, ("b"), false, true⟩,
       ⟨PassType.CRYPTOMATTE, PassMode.NOISY, ("c1"), false, true⟩] ≠
    [⟨PassType.AOV_COLOR, PassMode.NOISY, ("a"), false, true⟩,
     ⟨PassType.CRYPTOMATTE, PassMode.NOISY, ("c0"), false, true⟩,
     ⟨PassType.AOV_COLOR, PassMode.NOISY, ("b"), false, true⟩,
     ⟨PassType.CRYPTOMATTE, PassMode.NOISY, ("c1"), false, true⟩] := by
  decide

/-- C6 (amended): resolution orders the passes by descending component count
with ascending type identifier as tie breaker (the output is sorted by
`compare_pass_order`), and the sort is stable per type: for every type the
sub-sequence of passes of that type is exactly the one the duplicate-merging
phase produced, in the same relative order.  For the four-pass example with
equal component counts the output is `[Cryptomatte "c0", Cryptomatte "c1",
AOVColor "a", AOVColor "b"]`: the two Cryptomatte passes and the two AOV
passes each keep their relative insertion order, but the interleaving across
the two types is reordered by the type key. -/
theorem C6_stable_sort_by_components_then_type (R : PassRegistry) (u : Bool)
    (passes : List Pass) (T : PassType) :
    List.Pairwise (fun a b => compare_pass_order R b a = false)
      (film_finalize R u passes) ∧
    passesOfType T (film_finalize R u passes) =
      passesOfType T (film_dedup R u passes) ∧
    film_finalize sampleRegistry false
      [⟨PassType.AOV_COLOR, PassMode.NOISY, ("a"), false, true⟩,
       ⟨PassType.CRYPTOMATTE, PassMode.NOISY, ("c0"), false, true⟩,
       ⟨PassType.AOV_COLOR, PassMode.NOISY, ("b"), false, true⟩,
       ⟨PassType.CRYPTOMATTE, PassMode.NOISY, ("c1"), false, true⟩] =
    [⟨PassType.CRYPTOMATTE, PassMode.NOISY, ("c0"), false, true⟩,
     ⟨PassType.CRYPTOMATTE, PassMode.NOISY, ("c1"), false, true⟩,
     ⟨PassType.AOV_COLOR, PassMode.NOISY, ("a"), false, true⟩,
     ⟨PassType.AOV_COLOR, PassMode.NOISY, ("b"), false, true⟩] := by
  refine ⟨stable_sort_sorted R _, passesOfType_stable_sort R T _, by decide⟩

theorem pass_mergeable_type_mode (q p : Pass) (h : pass_mergeable q p = true) :
    q.type = p.type ∧ q.mode = p.mode := by
  unfold pass_mergeable at h
  simp only [Bool.and_eq_true, decide_eq_true_eq] at h
  exact ⟨h.1, h.2.1⟩

theorem pass_mergeable_symm (q p : Pass) :
    pass_mergeable q p = pass_mergeable p q := by
  unfold pass_mergeable
  rw [decide_eq_decide]
  constructor <;> rintro ⟨h1, h2, h3⟩ <;>
    exact ⟨h1.symm, h2.symm, fun hh => h3 ⟨hh.2.1, hh.1, fun e => hh.2.2 e.symm⟩⟩

theorem auto_fresh_cons (B : List Pass) (v : Pass) (rest : List Pass) :
    auto_fresh B (v :: rest) =
      (if clsMem B v.type v.mode then auto_fresh B rest
       else v :: auto_fresh (B ++ [v]) rest) := rfl

theorem clsMem_append (x y : List Pass) (t : PassType) (m : PassMode) :
    clsMem (x ++ y) t m = (clsMem x t m || clsMem y t m) := by
  unfold clsMem
  exact List.any_append

theorem clsMem_mono (B : List Pass) (w : Pass) (t : PassType) (m : PassMode)
    (h : clsMem B t m = true) : clsMem (B ++ [w]) t m = true := by
  rw [clsMem_append, h]
  rfl

theorem try_merge_none (p : Pass) :
    ∀ l, (∀ q ∈ l, pass_mergeable q p = false) → try_merge p l = none := by
  intro l
  induction l with
  | nil => intro _; rfl
  | cons q rest ih =>
    intro h
    unfold try_merge
    rw [if_neg (by simp [h q (List.mem_cons_self q rest)]), ih (fun r hr => h r (List.mem_cons_of_mem q hr))]

theorem dedup_step_unnamed (R : PassRegistry) (u : Bool) (B : List Pass) (v : Pass)
    (hname : v.name = ("")) (hauto : v.is_auto = true)
    (hnorm : pass_normalize R u v = v) :
    dedup_step R u B v = (if clsMem B v.type v.mode then B else B ++ [v]) := by
  unfold dedup_step
  rw [hnorm]
  dsimp only
  by_cases hc : clsMem B v.type v.mode = true
  · rw [if_pos hc]
    unfold clsMem at hc
    simp only [List.any_eq_true, Bool.and_eq_true, decide_eq_true_eq] at hc
    obtain ⟨q, hq, hqt, hqm⟩ := hc
    have hm : pass_mergeable q v = true := by
      unfold pass_mergeable
      simp [hqt, hqm, hname]
    rw [try_merge_auto_noop v hname hauto B ⟨q, hq, hm⟩]
  · rw [if_neg hc]
    have hnone : ∀ q ∈ B, pass_mergeable q v = false := by
      intro q hq
      cases hqm : pass_mergeable q v
      · rfl
      · obtain ⟨h1, h2⟩ := pass_mergeable_type_mode q v hqm
        exact absurd (by unfold clsMem; simp only [List.any_eq_true,
          Bool.and_eq_true, decide_eq_true_eq]; exact ⟨q, hq, h1, h2⟩) hc
    rw [try_merge_none v B hnone]

theorem fold_unnamed (R : PassRegistry) (u : Bool) :
    ∀ (tail B : List Pass),
    (∀ v ∈ tail, v.name = ("") ∧ v.is_auto = true ∧ pass_normalize R u v = v) →
    tail.foldl (dedup_step R u) B = B ++ auto_fresh B tail := by
  intro tail
  induction tail with
  | nil => intro B _; simp [auto_fresh]
  | cons v rest ih =>
    intro B h
    obtain ⟨h1, h2, h3⟩ := h v (List.mem_cons_self v rest)
    have hrest := fun w hw => h w (List.mem_cons_of_mem v hw)
    rw [List.foldl_cons, dedup_step_unnamed R u B v h1 h2 h3]
    unfold auto_fresh
    by_cases hc : clsMem B v.type v.mode = true
    · rw [if_pos hc, if_pos hc, ih B hrest]
    · rw [if_neg hc, if_neg hc, ih (B ++ [v]) hrest, List.append_assoc]
      rfl

theorem auto_fresh_append (B t1 t2 : List Pass) :
    auto_fresh B (t1 ++ t2) =
      auto_fresh B t1 ++ auto_fresh (B ++ auto_fresh B t1) t2 := by
  induction t1 generalizing B with
  | nil => simp [auto_fresh]
  | cons v rest ih =>
    rw [List.cons_append, auto_fresh_cons, auto_fresh_cons]
    by_cases hc : clsMem B v.type v.mode = true
    · simp only [if_pos hc]
      exact ih B
    · simp only [if_neg hc]
      rw [ih (B ++ [v])]
      have hb : B ++ v :: auto_fresh (B ++ [v]) rest =
          (B ++ [v]) ++ auto_fresh (B ++ [v]) rest := by simp
      rw [hb, List.cons_append]

theorem auto_fresh_mem (B t : List Pass) (v : Pass) (h : v ∈ auto_fresh B t) :
    v ∈ t := by
  induction t generalizing B with
  | nil => simp [auto_fresh] at h
  | cons w rest ih =>
    unfold auto_fresh at h
    by_cases hc : clsMem B w.type w.mode = true
    · rw [if_pos hc] at h
      exact List.mem_cons_of_mem w (ih B h)
    · rw [if_neg hc] at h
      rcases List.mem_cons.mp h with rfl | h2
      · exact List.mem_cons_self v rest
      · exact List.mem_cons_of_mem w (ih (B ++ [w]) h2)

theorem auto_fresh_all_present (B t : List Pass)
    (h : ∀ v ∈ t, clsMem B v.type v.mode = true) : auto_fresh B t = [] := by
  induction t with
  | nil => rfl
  | cons v rest ih =>
    unfold auto_fresh
    rw [if_pos (h v (List.mem_cons_self v rest))]
    exact ih (fun w hw => h w (List.mem_cons_of_mem v hw))

theorem auto_fresh_cls (B t : List Pass) (v : Pass) (hv : v ∈ t) :
    clsMem (B ++ auto_fresh B t) v.type v.mode = true := by
  induction t generalizing B with
  | nil => simp at hv
  | cons w rest ih =>
    unfold auto_fresh
    by_cases hc : clsMem B w.type w.mode = true
    · rw [if_pos hc]
      rcases List.mem_cons.mp hv with rfl | h2
      · rw [clsMem_append]
        rw [hc]
        rfl
      · exact ih B h2
    · rw [if_neg hc]
      rcases List.mem_cons.mp hv with rfl | h2
      · rw [show B ++ v :: auto_fresh (B ++ [v]) rest =
            (B ++ [v]) ++ auto_fresh (B ++ [v]) rest by simp]
        rw [clsMem_append]
        have : clsMem (B ++ [v]) v.type v.mode = true := by
          rw [clsMem_append]
          simp [clsMem]
        rw [this]
        rfl
      · rw [show B ++ w :: auto_fresh (B ++ [w]) rest =
            (B ++ [w]) ++ auto_fresh (B ++ [w]) rest by simp]
        exact ih (B ++ [w]) h2

theorem auto_fresh_congr (t : List Pass) :
    ∀ (B B2 : List Pass), (∀ ty m, clsMem B ty m = clsMem B2 ty m) →
    auto_fresh B t = auto_fresh B2 t := by
  induction t with
  | nil => intro B B2 _; rfl
  | cons v rest ih =>
    intro B B2 hcls
    unfold auto_fresh
    rw [hcls v.type v.mode]
    by_cases hc : clsMem B2 v.type v.mode = true
    · rw [if_pos hc, if_pos hc]
      exact ih B B2 hcls
    · rw [if_neg hc, if_neg hc]
      have hext : ∀ ty m, clsMem (B ++ [v]) ty m = clsMem (B2 ++ [v]) ty m := by
        intro ty m
        rw [clsMem_append, clsMem_append, hcls ty m]
      rw [ih (B ++ [v]) (B2 ++ [v]) hext]

theorem bool_eq_of_true_iff (a b : Bool) (h : a = true ↔ b = true) : a = b := by
  cases a <;> cases b <;> simp_all

theorem any_two (vn vd : Pass) (t : List Pass)
    (h : ∀ v ∈ t, v = vn ∨ v = vd) (p : Pass → Bool) :
    (t.any p = true) ↔ ((vn ∈ t ∧ p vn = true) ∨ (vd ∈ t ∧ p vd = true)) := by
  simp only [List.any_eq_true]
  constructor
  · rintro ⟨v, hv, hp⟩
    rcases h v hv with rfl | rfl
    · exact Or.inl ⟨hv, hp⟩
    · exact Or.inr ⟨hv, hp⟩
  · rintro (⟨hv, hp⟩ | ⟨hv, hp⟩) <;> exact ⟨_, hv, hp⟩

theorem auto_fresh_unique (w : Pass) :
    ∀ (t B : List Pass), (∀ v ∈ t, clsMem B v.type v.mode = false → v = w) →
    auto_fresh B t =
      (if t.any (fun v => !clsMem B v.type v.mode) then [w] else []) := by
  intro t
  induction t with
  | nil => intro B _; simp [auto_fresh]
  | cons v rest ih =>
    intro B h
    rw [auto_fresh_cons]
    by_cases hc : clsMem B v.type v.mode = true
    · rw [if_pos hc, ih B (fun x hx hcx => h x (List.mem_cons_of_mem v hx) hcx)]
      simp [List.any_cons, hc]
    · have hcf : clsMem B v.type v.mode = false := by
        cases hcc : clsMem B v.type v.mode
        · rfl
        · exact absurd hcc hc
      have hvw : v = w := h v (List.mem_cons_self v rest) hcf
      subst hvw
      rw [if_neg hc]
      have hall : ∀ x ∈ rest, clsMem (B ++ [v]) x.type x.mode = true := by
        intro x hx
        by_cases hcx : clsMem B x.type x.mode = true
        · exact clsMem_mono B v x.type x.mode hcx
        · have hxf : clsMem B x.type x.mode = false := by
            cases hcc : clsMem B x.type x.mode
            · rfl
            · exact absurd hcc hcx
          have : x = v := h x (List.mem_cons_of_mem v hx) hxf
          subst this
          rw [clsMem_append]
          simp [clsMem]
      rw [auto_fresh_all_present (B ++ [v]) rest hall]
      rw [if_pos (by simp [List.any_cons, hcf])]

theorem auto_fresh_two (B : List Pass) (vn vd : Pass) (t1 t2 : List Pass)
    (h1 : ∀ v ∈ t1, v = vn ∨ v = vd) (h2 : ∀ v ∈ t2, v = vn ∨ v = vd)
    (hmem : ∀ v, v ∈ t1 ↔ v ∈ t2)
    (ho : vd ∈ t1 → clsMem B vd.type vd.mode = true ∨ clsMem B vn.type vn.mode = true) :
    auto_fresh B t1 = auto_fresh B t2 := by
  by_cases hD : clsMem B vd.type vd.mode = true
  · have hu1 : ∀ v ∈ t1, clsMem B v.type v.mode = false → v = vn := by
      intro v hv hc
      rcases h1 v hv with rfl | rfl
      · rfl
      · rw [hD] at hc; cases hc
    have hu2 : ∀ v ∈ t2, clsMem B v.type v.mode = false → v = vn := by
      intro v hv hc
      rcases h2 v hv with rfl | rfl
      · rfl
      · rw [hD] at hc; cases hc
    rw [auto_fresh_unique vn t1 B hu1, auto_fresh_unique vn t2 B hu2]
    have hcond : (t1.any (fun v => !clsMem B v.type v.mode)) =
        (t2.any (fun v => !clsMem B v.type v.mode)) := by
      apply bool_eq_of_true_iff
      rw [any_two vn vd t1 h1, any_two vn vd t2 h2, hmem vn, hmem vd]
    rw [hcond]
  · by_cases hd1 : vd ∈ t1
    · have hN : clsMem B vn.type vn.mode = true := (ho hd1).resolve_left hD
      have hu1 : ∀ v ∈ t1, clsMem B v.type v.mode = false → v = vd := by
        intro v hv hc
        rcases h1 v hv with rfl | rfl
        · rw [hN] at hc; cases hc
        · rfl
      have hu2 : ∀ v ∈ t2, clsMem B v.type v.mode = false → v = vd := by
        intro v hv hc
        rcases h2 v hv with rfl | rfl
        · rw [hN] at hc; cases hc
        · rfl
      rw [auto_fresh_unique vd t1 B hu1, auto_fresh_unique vd t2 B hu2]
      have hcond : (t1.any (fun v => !clsMem B v.type v.mode)) =
          (t2.any (fun v => !clsMem B v.type v.mode)) := by
        apply bool_eq_of_true_iff
        rw [any_two vn vd t1 h1, any_two vn vd t2 h2, hmem vn, hmem vd]
      rw [hcond]
    · have hd2 : vd ∉ t2 := fun h => hd1 ((hmem vd).mpr h)
      have hu1 : ∀ v ∈ t1, clsMem B v.type v.mode = false → v = vn := by
        intro v hv _
        rcases h1 v hv with rfl | rfl
        · rfl
        · exact absurd hv hd1
      have hu2 : ∀ v ∈ t2, clsMem B v.type v.mode = false → v = vn := by
        intro v hv _
        rcases h2 v hv with rfl | rfl
        · rfl
        · exact absurd hv hd2
      rw [auto_fresh_unique vn t1 B hu1, auto_fresh_unique vn t2 B hu2]
      have hcond : (t1.any (fun v => !clsMem B v.type v.mode)) =
          (t2.any (fun v => !clsMem B v.type v.mode)) := by
        apply bool_eq_of_true_iff
        rw [any_two vn vd t1 h1, any_two vn vd t2 h2, hmem vn, hmem vd]
      rw [hcond]

theorem bfalse (b : Bool) (h : ¬ b = true) : b = false := by
  cases b
  · rfl
  · exact absurd rfl h

theorem try_merge_none_forall (p : Pass) :
    ∀ l, try_merge p l = none → ∀ q ∈ l, pass_mergeable q p = false := by
  intro l
  induction l with
  | nil => intro _ q hq; simp at hq
  | cons y rest ih =>
    intro h q hq
    unfold try_merge at h
    by_cases hy : pass_mergeable y p = true
    · rw [if_pos hy] at h; cases h
    · rw [if_neg hy] at h
      cases htm : try_merge p rest with
      | some rest2 => rw [htm] at h; cases h
      | none =>
        rcases List.mem_cons.mp hq with rfl | hq2
        · exact bfalse _ hy
        · exact ih htm q hq2

theorem try_merge_cons (p q : Pass) (rest : List Pass) :
    try_merge p (q :: rest) =
      (if pass_mergeable q p then some (pass_merge q p :: rest)
       else match try_merge p rest with
         | some rest2 => some (q :: rest2)
         | none => none) := rfl

theorem try_merge_some_split (p : Pass) :
    ∀ (l m : List Pass), try_merge p l = some m →
    ∃ l1 e l2, l = l1 ++ e :: l2 ∧ m = l1 ++ pass_merge e p :: l2 ∧
      pass_mergeable e p = true ∧ ∀ q ∈ l1, pass_mergeable q p = false := by
  intro l
  induction l with
  | nil => intro m h; cases h
  | cons q rest ih =>
    intro m h
    rw [try_merge_cons] at h
    by_cases hq : pass_mergeable q p = true
    · rw [if_pos hq] at h
      injection h with h
      refine ⟨[], q, rest, rfl, ?_, hq, ?_⟩
      · rw [←h]
        rfl
      · intro x hx
        simp at hx
    · rw [if_neg hq] at h
      cases htm : try_merge p rest with
      | none => rw [htm] at h; cases h
      | some rest2 =>
        rw [htm] at h
        injection h with h
        obtain ⟨l1, e, l2, he1, he2, he3, he4⟩ := ih rest2 htm
        refine ⟨q :: l1, e, l2, by simp [he1], ?_, he3, ?_⟩
        · rw [←h, he2]
          rfl
        · intro x hx
          rcases List.mem_cons.mp hx with rfl | hx2
          · exact bfalse _ hq
          · exact he4 x hx2

theorem try_merge_append_some (p : Pass) :
    ∀ (x y m : List Pass), try_merge p x = some m →
    try_merge p (x ++ y) = some (m ++ y) := by
  intro x
  induction x with
  | nil => intro y m h; cases h
  | cons q rest ih =>
    intro y m h
    rw [try_merge_cons] at h
    rw [List.cons_append, try_merge_cons]
    by_cases hq : pass_mergeable q p = true
    · rw [if_pos hq] at h ⊢
      injection h with h
      rw [←h]
      rfl
    · rw [if_neg hq] at h ⊢
      cases htm : try_merge p rest with
      | none => rw [htm] at h; cases h
      | some rest2 =>
        rw [htm] at h
        injection h with h
        rw [ih y rest2 htm, ←h]
        rfl

theorem try_merge_append_none (p : Pass) :
    ∀ (x y : List Pass), try_merge p x = none →
    try_merge p (x ++ y) = (try_merge p y).map (fun m2 => x ++ m2) := by
  intro x
  induction x with
  | nil =>
    intro y _
    cases h : try_merge p y <;> simp [h]
  | cons q rest ih =>
    intro y h
    rw [try_merge_cons] at h
    by_cases hq : pass_mergeable q p = true
    · rw [if_pos hq] at h; cases h
    · rw [if_neg hq] at h
      cases htm : try_merge p rest with
      | some rest2 => rw [htm] at h; cases h
      | none =>
        rw [List.cons_append, try_merge_cons, if_neg hq, ih y htm]
        cases hy : try_merge p y <;> simp

theorem pass_normalize_type (R : PassRegistry) (u : Bool) (p : Pass) :
    (pass_normalize R u p).type = p.type := rfl

theorem pass_normalize_name (R : PassRegistry) (u : Bool) (p : Pass) :
    (pass_normalize R u p).name = p.name := rfl

theorem pass_normalize_auto (R : PassRegistry) (u : Bool) (p : Pass) :
    (pass_normalize R u p).is_auto = p.is_auto := rfl

theorem pass_normalize_idem (R : PassRegistry) (u : Bool) (p : Pass) :
    pass_normalize R u (pass_normalize R u p) = pass_normalize R u p := by
  cases h : (u && R.support_denoise p.type) <;>
    simp [pass_normalize, h]

theorem pass_merge_type (q p : Pass) : (pass_merge q p).type = q.type := rfl

theorem pass_merge_mode (q p : Pass) : (pass_merge q p).mode = q.mode := rfl

theorem pass_merge_auto (q p : Pass) :
    (pass_merge q p).is_auto = (q.is_auto && p.is_auto) := rfl

theorem pass_merge_name_of_ne (q p : Pass) (h : ¬ q.name = ("")) :
    (pass_merge q p).name = q.name := by
  unfold pass_merge
  simp [h]

theorem pass_normalize_merge (R : PassRegistry) (u : Bool) (q p : Pass)
    (hq : pass_normalize R u q = q) :
    pass_normalize R u (pass_merge q p) = pass_merge q p := by
  have hm : (if (u && R.support_denoise q.type) = true then q.mode
      else PassMode.NOISY) = q.mode := by
    have h2 := congrArg Pass.mode hq
    simpa [pass_normalize] using h2
  cases hc : (u && R.support_denoise q.type) with
  | true =>
    unfold pass_normalize
    rw [show (pass_merge q p).type = q.type from rfl, hc]
    simp only [if_pos]
    rfl
  | false =>
    rw [hc] at hm
    simp only [Bool.false_eq_true, if_false] at hm
    unfold pass_normalize
    rw [show (pass_merge q p).type = q.type from rfl, hc]
    simp only [Bool.false_eq_true, if_false]
    rw [show PassMode.NOISY = (pass_merge q p).mode from hm]
    rfl

theorem pass_mergeable_congr_right (x q1 q2 : Pass) (ht : q1.type = q2.type)
    (hm : q1.mode = q2.mode) (hn : q1.name = q2.name) :
    pass_mergeable x q1 = pass_mergeable x q2 := by
  unfold pass_mergeable
  rw [ht, hm, hn]

theorem pass_mergeable_congr_left (x q1 q2 : Pass) (ht : q1.type = q2.type)
    (hm : q1.mode = q2.mode) (hn : q1.name = q2.name) :
    pass_mergeable q1 x = pass_mergeable q2 x := by
  unfold pass_mergeable
  rw [ht, hm, hn]

theorem mergeable_false_class_right (x e : Pass) (he : e.name = (""))
    (h : pass_mergeable x e = false) : ¬(x.type = e.type ∧ x.mode = e.mode) := by
  rintro ⟨h1, h2⟩
  have : pass_mergeable x e = true := by
    unfold pass_mergeable
    simp [h1, h2, he]
  rw [h] at this
  cases this

theorem mergeable_false_class_left (e y : Pass) (he : e.name = (""))
    (h : pass_mergeable e y = false) : ¬(e.type = y.type ∧ e.mode = y.mode) := by
  rintro ⟨h1, h2⟩
  have : pass_mergeable e y = true := by
    unfold pass_mergeable
    simp [h1, h2, he]
  rw [h] at this
  cases this

theorem mergeable_false_of_class_ne_right (x e : Pass)
    (h : ¬(x.type = e.type ∧ x.mode = e.mode)) : pass_mergeable x e = false := by
  apply bfalse
  intro hm
  exact h (pass_mergeable_type_mode x e hm)

theorem mergeable_false_of_class_ne_left (e y : Pass)
    (h : ¬(e.type = y.type ∧ e.mode = y.mode)) : pass_mergeable e y = false := by
  apply bfalse
  intro hm
  exact h (pass_mergeable_type_mode e y hm)

theorem merge_preserves_unmergeable_right (e p2 x : Pass)
    (h : pass_mergeable x e = false) : pass_mergeable x (pass_merge e p2) = false := by
  by_cases he : e.name = ("")
  · apply mergeable_false_of_class_ne_right
    rw [pass_merge_type, pass_merge_mode]
    exact mergeable_false_class_right x e he h
  · rw [pass_mergeable_congr_right x (pass_merge e p2) e rfl rfl
      (pass_merge_name_of_ne e p2 he)]
    exact h

theorem merge_preserves_unmergeable_left (e p2 y : Pass)
    (h : pass_mergeable e y = false) : pass_mergeable (pass_merge e p2) y = false := by
  by_cases he : e.name = ("")
  · apply mergeable_false_of_class_ne_left
    rw [pass_merge_type, pass_merge_mode]
    exact mergeable_false_class_left e y he h
  · rw [pass_mergeable_congr_left y (pass_merge e p2) e rfl rfl
      (pass_merge_name_of_ne e p2 he)]
    exact h

theorem dedup_step_inv (R : PassRegistry) (u : Bool) (acc : List Pass) (p : Pass)
    (h : dedup_inv R u acc) : dedup_inv R u (dedup_step R u acc p) := by
  obtain ⟨hnorm, hpair⟩ := h
  unfold dedup_step
  dsimp only
  cases htm : try_merge (pass_normalize R u p) acc with
  | none =>
    constructor
    · intro q hq
      rcases List.mem_append.mp hq with hq1 | hq2
      · exact hnorm q hq1
      · rw [List.mem_singleton] at hq2
        subst hq2
        exact pass_normalize_idem R u p
    · rw [List.pairwise_append]
      refine ⟨hpair, List.pairwise_singleton _ _, ?_⟩
      intro x hx y hy
      rw [List.mem_singleton] at hy
      subst hy
      exact try_merge_none_forall _ acc htm x hx
  | some m =>
    obtain ⟨l1, e, l2, he1, he2, he3, he4⟩ :=
      try_merge_some_split (pass_normalize R u p) acc m htm
    subst he2
    subst he1
    rw [List.pairwise_append, List.pairwise_cons] at hpair
    obtain ⟨hp1, ⟨hel2, hp2⟩, hcross⟩ := hpair
    constructor
    · intro q hq
      rcases List.mem_append.mp hq with hq1 | hq2
      · exact hnorm q (List.mem_append_left _ hq1)
      · rcases List.mem_cons.mp hq2 with rfl | hq3
        · exact pass_normalize_merge R u e _
            (hnorm e (List.mem_append_right _ (List.mem_cons_self e l2)))
        · exact hnorm q (List.mem_append_right _ (List.mem_cons_of_mem e hq3))
    · rw [List.pairwise_append, List.pairwise_cons]
      refine ⟨hp1, ⟨?_, hp2⟩, ?_⟩
      · intro y hy
        exact merge_preserves_unmergeable_left e _ y (hel2 y hy)
      · intro x hx y hy
        rcases List.mem_cons.mp hy with rfl | hy2
        · exact merge_preserves_unmergeable_right e _ x
            (hcross x hx e (List.mem_cons_self e l2))
        · exact hcross x hx y (List.mem_cons_of_mem e hy2)

theorem fold_dedup_inv (R : PassRegistry) (u : Bool) :
    ∀ (l acc : List Pass), dedup_inv R u acc →
    dedup_inv R u (l.foldl (dedup_step R u) acc) := by
  intro l
  induction l with
  | nil => intro acc h; exact h
  | cons p rest ih =>
    intro acc h
    exact ih (dedup_step R u acc p) (dedup_step_inv R u acc p h)

theorem film_dedup_inv (R : PassRegistry) (u : Bool) (l : List Pass) :
    dedup_inv R u (film_dedup R u l) := by
  unfold film_dedup
  exact fold_dedup_inv R u l [] ⟨by intro q hq; simp at hq, List.Pairwise.nil⟩

theorem fold_fixpoint (R : PassRegistry) (u : Bool) :
    ∀ (l acc : List Pass),
    (∀ p ∈ l, pass_normalize R u p = p) →
    List.Pairwise (fun a b => pass_mergeable a b = false) (acc ++ l) →
    l.foldl (dedup_step R u) acc = acc ++ l := by
  intro l
  induction l with
  | nil => intro acc _ _; simp
  | cons p rest ih =>
    intro acc hn hp
    have hpn : pass_normalize R u p = p := hn p (List.mem_cons_self p rest)
    have hnone : try_merge p acc = none := by
      apply try_merge_none
      intro q hq
      rw [List.pairwise_append] at hp
      exact hp.2.2 q hq p (List.mem_cons_self p rest)
    have hstep : dedup_step R u acc p = acc ++ [p] := by
      unfold dedup_step
      rw [hpn]
      dsimp only
      rw [hnone]
    have hP : List.Pairwise (fun a b => pass_mergeable a b = false)
        ((acc ++ [p]) ++ rest) := by
      rw [List.append_assoc, List.singleton_append]
      exact hp
    rw [List.foldl_cons, hstep,
      ih (acc ++ [p]) (fun w hw => hn w (List.mem_cons_of_mem p hw)) hP]
    simp

theorem film_dedup_fixpoint (R : PassRegistry) (u : Bool) (l : List Pass)
    (hn : ∀ p ∈ l, pass_normalize R u p = p)
    (hp : List.Pairwise (fun a b => pass_mergeable a b = false) l) :
    film_dedup R u l = l := by
  unfold film_dedup
  have := fold_fixpoint R u l [] hn (by simpa using hp)
  simpa using this

theorem dedup_step_elem (R : PassRegistry) (u : Bool) (acc : List Pass) (p : Pass)
    (P : Pass → Prop)
    (hacc : ∀ q ∈ acc, P q) (hp : P (pass_normalize R u p))
    (hmerge : ∀ q, P q → P (pass_merge q (pass_normalize R u p))) :
    ∀ x ∈ dedup_step R u acc p, P x := by
  intro x hx
  unfold dedup_step at hx
  dsimp only at hx
  cases htm : try_merge (pass_normalize R u p) acc with
  | none =>
    rw [htm] at hx
    rcases List.mem_append.mp hx with h | h
    · exact hacc x h
    · rw [List.mem_singleton] at h
      subst h
      exact hp
  | some m =>
    rw [htm] at hx
    obtain ⟨l1, e, l2, he1, he2, he3, he4⟩ :=
      try_merge_some_split (pass_normalize R u p) acc m htm
    subst he2
    subst he1
    rcases List.mem_append.mp hx with h | h
    · exact hacc x (List.mem_append_left _ h)
    · rcases List.mem_cons.mp h with rfl | h2
      · exact hmerge e (hacc e (List.mem_append_right _ (List.mem_cons_self e l2)))
      · exact hacc x (List.mem_append_right _ (List.mem_cons_of_mem e h2))

theorem fold_dedup_elem (R : PassRegistry) (u : Bool) (P : Pass → Prop)
    (hmerge : ∀ q p2, P q → P (pass_merge q p2)) :
    ∀ (l acc : List Pass), (∀ q ∈ acc, P q) →
    (∀ p ∈ l, P (pass_normalize R u p)) →
    ∀ x ∈ l.foldl (dedup_step R u) acc, P x := by
  intro l
  induction l with
  | nil => intro acc hacc _ x hx; exact hacc x hx
  | cons p rest ih =>
    intro acc hacc hl x hx
    exact ih (dedup_step R u acc p)
      (dedup_step_elem R u acc p P hacc (hl p (List.mem_cons_self p rest))
        (fun q hq => hmerge q _ hq))
      (fun w hw => hl w (List.mem_cons_of_mem p hw)) x hx

theorem dedup_step_userT (R : PassRegistry) (u : Bool) (acc : List Pass) (p : Pass)
    (T : PassType) :
    ((∃ q ∈ dedup_step R u acc p, q.type = T ∧ q.is_auto = false) ↔
     ((∃ q ∈ acc, q.type = T ∧ q.is_auto = false) ∨
      (p.type = T ∧ p.is_auto = false))) := by
  unfold dedup_step
  dsimp only
  cases htm : try_merge (pass_normalize R u p) acc with
  | none =>
    constructor
    · rintro ⟨q, hq, hqt, hqa⟩
      rcases List.mem_append.mp hq with h | h
      · exact Or.inl ⟨q, h, hqt, hqa⟩
      · rw [List.mem_singleton] at h
        subst h
        exact Or.inr ⟨hqt, hqa⟩
    · rintro (⟨q, hq, hqt, hqa⟩ | ⟨hpt, hpa⟩)
      · exact ⟨q, List.mem_append_left _ hq, hqt, hqa⟩
      · exact ⟨pass_normalize R u p,
          List.mem_append_right _ (List.mem_singleton_self _), hpt, hpa⟩
  | some m =>
    obtain ⟨l1, e, l2, he1, he2, he3, he4⟩ :=
      try_merge_some_split (pass_normalize R u p) acc m htm
    subst he2
    subst he1
    have het : e.type = p.type := (pass_mergeable_type_mode e _ he3).1
    constructor
    · rintro ⟨q, hq, hqt, hqa⟩
      rcases List.mem_append.mp hq with h | h
      · exact Or.inl ⟨q, List.mem_append_left _ h, hqt, hqa⟩
      · rcases List.mem_cons.mp h with rfl | h2
        · rw [pass_merge_type] at hqt
          rw [pass_merge_auto] at hqa
          cases ha : e.is_auto with
          | false =>
            exact Or.inl ⟨e, List.mem_append_right _ (List.mem_cons_self e l2),
              hqt, ha⟩
          | true =>
            rw [ha, Bool.true_and] at hqa
            exact Or.inr ⟨by rw [←het]; exact hqt, hqa⟩
        · exact Or.inl ⟨q,
            List.mem_append_right _ (List.mem_cons_of_mem e h2), hqt, hqa⟩
    · rintro (⟨q, hq, hqt, hqa⟩ | ⟨hpt, hpa⟩)
      · rcases List.mem_append.mp hq with h | h
        · exact ⟨q, List.mem_append_left _ h, hqt, hqa⟩
        · rcases List.mem_cons.mp h with rfl | h2
          · refine ⟨pass_merge q _,
              List.mem_append_right _ (List.mem_cons_self _ l2), ?_, ?_⟩
            · rw [pass_merge_type]
              exact hqt
            · rw [pass_merge_auto, hqa, Bool.false_and]
          · exact ⟨q, List.mem_append_right _ (List.mem_cons_of_mem _ h2),
              hqt, hqa⟩
      · refine ⟨pass_merge e _,
          List.mem_append_right _ (List.mem_cons_self _ l2), ?_, ?_⟩
        · rw [pass_merge_type, het]
          exact hpt
        · rw [pass_merge_auto, show (pass_normalize R u p).is_auto = p.is_auto
            from rfl, hpa, Bool.and_false]

theorem fold_dedup_userT (R : PassRegistry) (u : Bool) (T : PassType) :
    ∀ (l acc : List Pass),
    ((∃ q ∈ l.foldl (dedup_step R u) acc, q.type = T ∧ q.is_auto = false) ↔
     ((∃ q ∈ acc, q.type = T ∧ q.is_auto = false) ∨
      (∃ p ∈ l, p.type = T ∧ p.is_auto = false))) := by
  intro l
  induction l with
  | nil => intro acc; simp
  | cons p rest ih =>
    intro acc
    rw [List.foldl_cons, ih (dedup_step R u acc p), dedup_step_userT R u acc p T]
    constructor
    · rintro ((h | h) | h)
      · exact Or.inl h
      · exact Or.inr ⟨p, List.mem_cons_self p rest, h⟩
      · obtain ⟨q, hq, hh⟩ := h
        exact Or.inr ⟨q, List.mem_cons_of_mem p hq, hh⟩
    · rintro (h | ⟨q, hq, hh⟩)
      · exact Or.inl (Or.inl h)
      · rcases List.mem_cons.mp hq with rfl | h2
        · exact Or.inl (Or.inr hh)
        · exact Or.inr ⟨q, h2, hh⟩

theorem film_dedup_userT (R : PassRegistry) (u : Bool) (l : List Pass)
    (T : PassType) :
    ((∃ q ∈ film_dedup R u l, q.type = T ∧ q.is_auto = false) ↔
     (∃ p ∈ l, p.type = T ∧ p.is_auto = false)) := by
  unfold film_dedup
  rw [fold_dedup_userT R u T l []]
  simp

theorem passesOfType_cons_pos (T : PassType) (q : Pass) (rest : List Pass)
    (h : q.type = T) : passesOfType T (q :: rest) = q :: passesOfType T rest := by
  simp [passesOfType, List.filter_cons, h]

theorem passesOfType_cons_neg (T : PassType) (q : Pass) (rest : List Pass)
    (h : ¬ q.type = T) : passesOfType T (q :: rest) = passesOfType T rest := by
  simp [passesOfType, List.filter_cons, h]

theorem passesOfType_append (T : PassType) (x y : List Pass) :
    passesOfType T (x ++ y) = passesOfType T x ++ passesOfType T y := by
  simp [passesOfType, List.filter_append]

theorem try_merge_filter_ne (p : Pass) (T : PassType) (hp : ¬ p.type = T) :
    ∀ (acc m : List Pass), try_merge p acc = some m →
    passesOfType T m = passesOfType T acc := by
  intro acc m htm
  obtain ⟨l1, e, l2, he1, he2, he3, he4⟩ := try_merge_some_split p acc m htm
  subst he2
  subst he1
  have het : ¬ e.type = T := by
    intro h
    exact hp (((pass_mergeable_type_mode e p he3).1).symm.trans h)
  have hmt : ¬ (pass_merge e p).type = T := by
    rw [pass_merge_type]
    exact het
  rw [passesOfType_append, passesOfType_append,
    passesOfType_cons_neg T _ _ het, passesOfType_cons_neg T _ _ hmt]

theorem try_merge_filter_eq (p : Pass) (T : PassType) (hp : p.type = T) :
    ∀ acc, try_merge p (passesOfType T acc) =
      (try_merge p acc).map (passesOfType T) := by
  intro acc
  induction acc with
  | nil => rfl
  | cons q rest ih =>
    by_cases hq : q.type = T
    · rw [passesOfType_cons_pos T q rest hq, try_merge_cons, try_merge_cons]
      by_cases hm : pass_mergeable q p = true
      · rw [if_pos hm, if_pos hm, Option.map_some']
        rw [passesOfType_cons_pos T _ rest (by rw [pass_merge_type]; exact hq)]
      · rw [if_neg hm, if_neg hm, ih]
        cases htm : try_merge p rest with
        | none => rfl
        | some m =>
          simp only [Option.map_some']
          rw [passesOfType_cons_pos T q m hq]
    · have hqm : ¬ pass_mergeable q p = true := by
        intro hm
        exact hq ((pass_mergeable_type_mode q p hm).1.trans hp)
      rw [passesOfType_cons_neg T q rest hq, try_merge_cons, if_neg hqm, ih]
      cases htm : try_merge p rest with
      | none => rfl
      | some m =>
        simp only [Option.map_some']
        rw [passesOfType_cons_neg T q m hq]

theorem dedup_step_filter (R : PassRegistry) (u : Bool) (T : PassType)
    (acc : List Pass) (p : Pass) :
    passesOfType T (dedup_step R u acc p) =
      (if p.type = T then dedup_step R u (passesOfType T acc) p
       else passesOfType T acc) := by
  have hnt : (pass_normalize R u p).type = p.type := rfl
  unfold dedup_step
  dsimp only
  by_cases hp : p.type = T
  · rw [if_pos hp]
    have hrel := try_merge_filter_eq (pass_normalize R u p) T (hnt.trans hp) acc
    cases htm : try_merge (pass_normalize R u p) acc with
    | none =>
      rw [htm, Option.map_none'] at hrel
      rw [hrel]
      rw [passesOfType_append,
        passesOfType_cons_pos T _ [] (hnt.trans hp)]
      rfl
    | some m =>
      rw [htm, Option.map_some'] at hrel
      rw [hrel]
  · rw [if_neg hp]
    cases htm : try_merge (pass_normalize R u p) acc with
    | none =>
      rw [passesOfType_append,
        passesOfType_cons_neg T _ [] (by rw [hnt]; exact hp),
        show passesOfType T ([] : List Pass) = [] from rfl, List.append_nil]
    | some m =>
      exact try_merge_filter_ne (pass_normalize R u p) T (by rw [hnt]; exact hp)
        acc m htm

theorem fold_dedup_filter (R : PassRegistry) (u : Bool) (T : PassType) :
    ∀ (l acc : List Pass),
    passesOfType T (l.foldl (dedup_step R u) acc) =
      (passesOfType T l).foldl (dedup_step R u) (passesOfType T acc) := by
  intro l
  induction l with
  | nil => intro acc; rfl
  | cons p rest ih =>
    intro acc
    rw [List.foldl_cons, ih (dedup_step R u acc p), dedup_step_filter R u T acc p]
    by_cases hp : p.type = T
    · rw [if_pos hp, passesOfType_cons_pos T p rest hp, List.foldl_cons]
    · rw [if_neg hp, passesOfType_cons_neg T p rest hp]

theorem film_dedup_filter (R : PassRegistry) (u : Bool) (T : PassType)
    (l : List Pass) :
    passesOfType T (film_dedup R u l) = film_dedup R u (passesOfType T l) := by
  unfold film_dedup
  exact fold_dedup_filter R u T l []

theorem typeId_inj : ∀ a b : PassType, typeId a = typeId b → a = b := by decide

theorem mem_of_mem_passesOfType (T : PassType) (l : List Pass) (x : Pass)
    (h : x ∈ passesOfType T l) : x ∈ l := (List.mem_filter.mp h).1

theorem cmp_false_false_type_eq (R : PassRegistry) (x y : Pass)
    (h1 : compare_pass_order R x y = false)
    (h2 : compare_pass_order R y x = false) : x.type = y.type := by
  apply typeId_inj
  have n1 : ¬(R.num_components y.type < R.num_components x.type ∨
      (R.num_components x.type = R.num_components y.type ∧
        typeId x.type < typeId y.type)) := by
    intro hh
    have := (compare_pass_order_iff R x y).mpr hh
    rw [h1] at this
    exact Bool.false_ne_true this
  have n2 : ¬(R.num_components x.type < R.num_components y.type ∨
      (R.num_components y.type = R.num_components x.type ∧
        typeId y.type < typeId x.type)) := by
    intro hh
    have := (compare_pass_order_iff R y x).mpr hh
    rw [h2] at this
    exact Bool.false_ne_true this
  omega

theorem sorted_eq_of_filters (R : PassRegistry) :
    ∀ (l1 l2 : List Pass),
    List.Pairwise (fun a b => compare_pass_order R b a = false) l1 →
    List.Pairwise (fun a b => compare_pass_order R b a = false) l2 →
    (∀ T, passesOfType T l1 = passesOfType T l2) → l1 = l2 := by
  intro l1
  induction l1 with
  | nil =>
    intro l2 _ _ hfil
    cases l2 with
    | nil => rfl
    | cons y r2 =>
      have hy := hfil y.type
      rw [passesOfType_cons_pos y.type y r2 rfl] at hy
      simp [passesOfType] at hy
  | cons x r1 ih =>
    intro l2 hs1 hs2 hfil
    cases l2 with
    | nil =>
      have hx := hfil x.type
      rw [passesOfType_cons_pos x.type x r1 rfl] at hx
      simp [passesOfType] at hx
    | cons y r2 =>
      obtain ⟨hx1, hp1⟩ := List.pairwise_cons.mp hs1
      obtain ⟨hy2, hp2⟩ := List.pairwise_cons.mp hs2
      have hxy : x.type = y.type := by
        by_contra hne
        have h1 := hfil x.type
        rw [passesOfType_cons_pos x.type x r1 rfl,
            passesOfType_cons_neg x.type y r2 (fun e => hne e.symm)] at h1
        have hxr2 : x ∈ r2 := by
          have hm : x ∈ passesOfType x.type r2 := by
            rw [←h1]
            exact List.mem_cons_self _ _
          exact mem_of_mem_passesOfType x.type r2 x hm
        have h2 := hfil y.type
        rw [passesOfType_cons_pos y.type y r2 rfl,
            passesOfType_cons_neg y.type x r1 hne] at h2
        have hyr1 : y ∈ r1 := by
          have hm : y ∈ passesOfType y.type r1 := by
            rw [h2]
            exact List.mem_cons_self _ _
          exact mem_of_mem_passesOfType y.type r1 y hm
        exact hne (cmp_false_false_type_eq R x y (hy2 x hxr2) (hx1 y hyr1))
      have h1 := hfil x.type
      rw [passesOfType_cons_pos x.type x r1 rfl,
          passesOfType_cons_pos x.type y r2 hxy.symm] at h1
      injection h1 with hhead htail
      subst hhead
      congr 1
      apply ih r2 hp1 hp2
      intro T
      by_cases hT : x.type = T
      · rw [←hT]
        exact htail
      · have hf := hfil T
        rw [passesOfType_cons_neg T x r1 hT, passesOfType_cons_neg T x r2 hT] at hf
        exact hf

theorem if_append_push (c : Prop) [Decidable c] (x y : List Pass) :
    (if c then x ++ y else x) = x ++ (if c then y else []) := by
  by_cases h : c <;> simp [h]

theorem if_append_push2 (c : Prop) [Decidable c] (x y z : List Pass) :
    (if c then x ++ y else x ++ z) = x ++ (if c then y else z) := by
  by_cases h : c <;> simp [h]

theorem if_cons_factor (c : Prop) [Decidable c] (a : Pass) (x y : List Pass) :
    (if c then a :: x else a :: y) = a :: (if c then x else y) := by
  by_cases h : c <;> simp [h]

theorem expand_deps_step_eq (R : PassRegistry) (u : Bool) (acc : List Pass)
    (p : Pass) :
    expand_deps_step R u acc p = acc ++ dep_block R u p.type := by
  unfold expand_deps_step dep_block
  dsimp only
  by_cases h1 : R.divide_type p.type ≠ PassType.NONE <;>
    by_cases h2 : R.direct_type p.type ≠ PassType.NONE <;>
      by_cases h3 : R.indirect_type p.type ≠ PassType.NONE <;>
        by_cases h4 : (R.support_denoise p.type && u) = true <;>
          simp [h1, h2, h3, h4, add_auto, add_auto_pass, auto_noisy, auto_denoised]

theorem expand_deps_fold (R : PassRegistry) (u : Bool) :
    ∀ (snap acc : List Pass),
    snap.foldl (expand_deps_step R u) acc =
      acc ++ (snap.map (fun p => dep_block R u p.type)).flatten := by
  intro snap
  induction snap with
  | nil => intro acc; simp
  | cons p rest ih =>
    intro acc
    rw [List.foldl_cons, expand_deps_step_eq, ih]
    simp

set_option maxHeartbeats 1600000 in
theorem film_expand_eq (R : PassRegistry) (fl : FilmFlags) (ps : List Pass) :
    film_expand R fl ps =
      remove_auto_passes ps ++ expand_tail R fl (remove_auto_passes ps) := by
  unfold film_expand expand_tail feature_tail
  dsimp only
  rw [expand_deps_fold R fl.use_denoise]
  by_cases c1 : fl.display_pass ≠ PassType.COMBINED <;>
    by_cases c2 : fl.adaptive_sampling_use = true <;>
      by_cases c3 : fl.use_denoise = true <;>
        by_cases c3a : fl.denoise_pass_normal = true <;>
          by_cases c3b : fl.denoise_pass_albedo = true <;>
            by_cases c4 : fl.has_shadow_catcher = true <;>
              by_cases c4c : (fl.use_approximate_shadow_catcher &&
                !fl.background_transparent) = true <;>
                by_cases c5 : fl.baking = true <;>
                  simp only [c1, c2, c3, c3a, c3b, c4, c4c, c5, add_auto,
                    add_auto_pass, auto_noisy, auto_denoised, List.append_assoc,
                    List.singleton_append, List.nil_append, List.append_nil,
                    List.cons_append,
                    if_true, if_false, ite_true, ite_false, eq_self_iff_true,
                    not_true, not_false_iff, ne_eq, not_not, if_append_push,
                    if_append_push2, if_cons_factor]

theorem mem_ite_or (c : Prop) [Decidable c] (x y : List Pass) (v : Pass)
    (h : v ∈ (if c then x else y)) : v ∈ x ∨ v ∈ y := by
  by_cases hc : c
  · rw [if_pos hc] at h
    exact Or.inl h
  · rw [if_neg hc] at h
    exact Or.inr h

theorem mem_ite_nil (c : Prop) [Decidable c] (x : List Pass) (v : Pass)
    (h : v ∈ (if c then x else [])) : v ∈ x := by
  rcases mem_ite_or c x [] v h with h1 | h1
  · exact h1
  · simp at h1

theorem pass_contains_append (x y : List Pass) (t : PassType) :
    pass_contains (x ++ y) t = (pass_contains x t || pass_contains y t) := by
  unfold pass_contains
  exact List.any_append

theorem pass_contains_iff (l : List Pass) (t : PassType) :
    (pass_contains l t = true ↔ ∃ p ∈ l, p.type = t) := by
  unfold pass_contains
  simp [List.any_eq_true]

theorem auto_noisy_type (t : PassType) : (auto_noisy t).type = t := rfl

theorem feature_tail_elems (fl : FilmFlags) (users : List Pass) :
    ∀ v ∈ feature_tail fl users, v = auto_noisy v.type := by
  intro v hv
  unfold feature_tail at hv
  dsimp only at hv
  rcases List.mem_append.mp hv with hp | hs
  · rcases List.mem_append.mp hp with hp | h4
    · rcases List.mem_append.mp hp with hp | h3
      · rcases List.mem_append.mp hp with h1 | h2
        · rw [List.mem_singleton] at h1
          subst h1
          rfl
        · have := mem_ite_nil _ _ v h2
          rw [List.mem_singleton] at this
          subst this
          rfl
      · have := mem_ite_nil _ _ v h3
        rcases List.mem_cons.mp this with h | h
        · subst h; rfl
        · rw [List.mem_singleton] at h
          subst h
          rfl
    · have := mem_ite_nil _ _ v h4
      rcases List.mem_append.mp this with h | h
      · have := mem_ite_nil _ _ v h
        rw [List.mem_singleton] at this
        subst this
        rfl
      · have := mem_ite_nil _ _ v h
        rw [List.mem_singleton] at this
        subst this
        rfl
  · rcases mem_ite_or _ _ _ v hs with h | h
    · rcases List.mem_append.mp h with h | h
      · rcases List.mem_cons.mp h with h1 | h1
        · subst h1; rfl
        · rcases List.mem_cons.mp h1 with h2 | h2
          · subst h2; rfl
          · rw [List.mem_singleton] at h2
            subst h2
            rfl
      · have := mem_ite_nil _ _ v h
        rw [List.mem_singleton] at this
        subst this
        rfl
    · have := mem_ite_nil _ _ v h
      rcases List.mem_cons.mp this with h1 | h1
      · subst h1; rfl
      · rw [List.mem_singleton] at h1
        subst h1
        rfl

theorem feature_tail_congr (fl : FilmFlags) (u1 u2 : List Pass)
    (h : pass_contains u1 PassType.SHADOW_CATCHER =
         pass_contains u2 PassType.SHADOW_CATCHER) :
    feature_tail fl u1 = feature_tail fl u2 := by
  unfold feature_tail
  dsimp only
  rw [pass_contains_append, h, ←pass_contains_append]

theorem dep_block_elems (R : PassRegistry) (u : Bool) (X : PassType) (v : Pass)
    (h : v ∈ dep_block R u X) :
    (∃ t, v = auto_noisy t) ∨
    (v = auto_denoised X ∧ R.support_denoise X = true ∧ u = true) := by
  unfold dep_block at h
  rcases List.mem_append.mp h with h1 | h4
  · rcases List.mem_append.mp h1 with h1 | h3
    · rcases List.mem_append.mp h1 with h1 | h2
      · have := mem_ite_nil _ _ v h1
        rw [List.mem_singleton] at this
        exact Or.inl ⟨_, this⟩
      · have := mem_ite_nil _ _ v h2
        rw [List.mem_singleton] at this
        exact Or.inl ⟨_, this⟩
    · have := mem_ite_nil _ _ v h3
      rw [List.mem_singleton] at this
      exact Or.inl ⟨_, this⟩
  · by_cases hc : (R.support_denoise X && u) = true
    · rw [if_pos hc] at h4
      rw [List.mem_singleton] at h4
      rcases Bool.and_eq_true_iff.mp hc with ⟨hs, hu⟩
      exact Or.inr ⟨h4, hs, hu⟩
    · rw [if_neg hc] at h4
      simp at h4

theorem mem_dep_flatten_iff (R : PassRegistry) (u : Bool) (snap : List Pass)
    (v : Pass) :
    (v ∈ (snap.map (fun p => dep_block R u p.type)).flatten ↔
     ∃ X, pass_contains snap X = true ∧ v ∈ dep_block R u X) := by
  rw [List.mem_flatten]
  constructor
  · rintro ⟨l, hl, hv⟩
    obtain ⟨p, hp, rfl⟩ := List.mem_map.mp hl
    exact ⟨p.type, (pass_contains_iff snap p.type).mpr ⟨p, hp, rfl⟩, hv⟩
  · rintro ⟨X, hX, hv⟩
    obtain ⟨p, hp, hpt⟩ := (pass_contains_iff snap X).mp hX
    refine ⟨dep_block R u p.type, List.mem_map.mpr ⟨p, hp, rfl⟩, ?_⟩
    rw [hpt]
    exact hv

theorem any_type_true_iff (l : List Pass) (g : PassType → Bool) :
    (l.any (fun p => g p.type) = true ↔
     ∃ X, pass_contains l X = true ∧ g X = true) := by
  simp only [List.any_eq_true]
  constructor
  · rintro ⟨p, hp, hg⟩
    exact ⟨p.type, (pass_contains_iff l p.type).mpr ⟨p, hp, rfl⟩, hg⟩
  · rintro ⟨X, hX, hg⟩
    obtain ⟨p, hp, hpt⟩ := (pass_contains_iff l X).mp hX
    exact ⟨p, hp, by rw [hpt]; exact hg⟩

theorem pass_contains_congr_of_contains (u1 u2 : List Pass)
    (h : ∀ X, pass_contains u1 X = pass_contains u2 X) (g : PassType → Bool) :
    u1.any (fun p => g p.type) = u2.any (fun p => g p.type) := by
  apply bool_eq_of_true_iff
  rw [any_type_true_iff, any_type_true_iff]
  constructor
  · rintro ⟨X, hX, hg⟩
    exact ⟨X, by rw [←h X]; exact hX, hg⟩
  · rintro ⟨X, hX, hg⟩
    exact ⟨X, by rw [h X]; exact hX, hg⟩

theorem expand_tail_elems (R : PassRegistry) (fl : FilmFlags) (users : List Pass) :
    ∀ v ∈ expand_tail R fl users,
      (∃ t, v = auto_noisy t) ∨ (∃ t, v = auto_denoised t) ∨
      (v = { type := PassType.BAKE_PRIMITIVE, mode := PassMode.NOISY,
             name := "BakePrimitive", is_auto := true, written := true } ∨
       v = { type := PassType.BAKE_DIFFERENTIAL, mode := PassMode.NOISY,
             name := "BakeDifferential", is_auto := true, written := true }) := by
  intro v hv
  unfold expand_tail at hv
  dsimp only at hv
  rcases List.mem_append.mp hv with h3 | hst
  · rcases List.mem_append.mp h3 with h2 | hbt
    · rcases List.mem_append.mp h2 with hft | hdt
      · exact Or.inl ⟨v.type, feature_tail_elems fl users v hft⟩
      · obtain ⟨X, -, hvb⟩ := (mem_dep_flatten_iff R fl.use_denoise _ v).mp hdt
        rcases dep_block_elems R fl.use_denoise X v hvb with ⟨t, ht⟩ | ⟨ht, -, -⟩
        · exact Or.inl ⟨t, ht⟩
        · exact Or.inr (Or.inl ⟨X, ht⟩)
    · have := mem_ite_nil _ _ v hbt
      rcases List.mem_cons.mp this with h | h
      · exact Or.inr (Or.inr (Or.inl h))
      · rw [List.mem_singleton] at h
        exact Or.inr (Or.inr (Or.inr h))
  · have := mem_ite_nil _ _ v hst
    rw [List.mem_singleton] at this
    exact Or.inl ⟨PassType.SAMPLE_COUNT, this⟩

theorem expand_tail_auto (R : PassRegistry) (fl : FilmFlags) (users : List Pass)
    (v : Pass) (hv : v ∈ expand_tail R fl users) : v.is_auto = true := by
  rcases expand_tail_elems R fl users v hv with ⟨t, rfl⟩ | ⟨t, rfl⟩ | (rfl | rfl) <;> rfl

theorem expand_tail_written (R : PassRegistry) (fl : FilmFlags)
    (users : List Pass) (v : Pass) (hv : v ∈ expand_tail R fl users) :
    v.written = true := by
  rcases expand_tail_elems R fl users v hv with ⟨t, rfl⟩ | ⟨t, rfl⟩ | (rfl | rfl) <;> rfl

theorem expand_tail_mem_congr (R : PassRegistry) (fl : FilmFlags)
    (u1 u2 : List Pass)
    (h : ∀ X, pass_contains u1 X = pass_contains u2 X) (v : Pass) :
    (v ∈ expand_tail R fl u1 ↔ v ∈ expand_tail R fl u2) := by
  have hft : feature_tail fl u1 = feature_tail fl u2 :=
    feature_tail_congr fl u1 u2 (h PassType.SHADOW_CATCHER)
  have hsnap : ∀ X, pass_contains (u1 ++ feature_tail fl u2) X =
      pass_contains (u2 ++ feature_tail fl u2) X := by
    intro X
    rw [pass_contains_append, pass_contains_append, h X]
  have hdtv : ∀ w : Pass, (w ∈ ((u1 ++ feature_tail fl u2).map
        (fun p => dep_block R fl.use_denoise p.type)).flatten ↔
      w ∈ ((u2 ++ feature_tail fl u2).map
        (fun p => dep_block R fl.use_denoise p.type)).flatten) := by
    intro w
    rw [mem_dep_flatten_iff, mem_dep_flatten_iff]
    constructor
    · rintro ⟨X, hX, hw⟩
      exact ⟨X, by rw [←hsnap X]; exact hX, hw⟩
    · rintro ⟨X, hX, hw⟩
      exact ⟨X, by rw [hsnap X]; exact hX, hw⟩
  have hdtc : ∀ X, pass_contains ((u1 ++ feature_tail fl u2).map
        (fun p => dep_block R fl.use_denoise p.type)).flatten X =
      pass_contains ((u2 ++ feature_tail fl u2).map
        (fun p => dep_block R fl.use_denoise p.type)).flatten X := by
    intro X
    apply bool_eq_of_true_iff
    rw [pass_contains_iff, pass_contains_iff]
    constructor
    · rintro ⟨p, hp, ht⟩
      exact ⟨p, (hdtv p).mp hp, ht⟩
    · rintro ⟨p, hp, ht⟩
      exact ⟨p, (hdtv p).mpr hp, ht⟩
  unfold expand_tail
  dsimp only
  rw [hft]
  simp only [pass_contains_append, List.mem_append]
  simp only [h, hdtc, hdtv]

theorem mem_removeAuto_iff (l : List Pass) (q : Pass) :
    (q ∈ remove_auto_passes l ↔ q ∈ l ∧ q.is_auto = false) := by
  unfold remove_auto_passes
  rw [List.mem_filter]
  simp

theorem contains_removeAuto_iff (l : List Pass) (X : PassType) :
    (pass_contains (remove_auto_passes l) X = true ↔
     ∃ q ∈ l, q.type = X ∧ q.is_auto = false) := by
  rw [pass_contains_iff]
  constructor
  · rintro ⟨q, hq, ht⟩
    obtain ⟨hql, hqa⟩ := (mem_removeAuto_iff l q).mp hq
    exact ⟨q, hql, ht, hqa⟩
  · rintro ⟨q, hq, ht, ha⟩
    exact ⟨q, (mem_removeAuto_iff l q).mpr ⟨hq, ha⟩, ht⟩

theorem exists_in_passesOfType (X : PassType) (l : List Pass) (P : Pass → Prop) :
    ((∃ q ∈ passesOfType X l, P q) ↔ (∃ q ∈ l, q.type = X ∧ P q)) := by
  constructor
  · rintro ⟨q, hq, hP⟩
    obtain ⟨hql, hqt⟩ := List.mem_filter.mp hq
    exact ⟨q, hql, by simpa using hqt, hP⟩
  · rintro ⟨q, hq, ht, hP⟩
    exact ⟨q, List.mem_filter.mpr ⟨hq, by simpa using ht⟩, hP⟩

theorem users_contains_preserved (R : PassRegistry) (fl : FilmFlags)
    (ps : List Pass) (X : PassType) :
    pass_contains (remove_auto_passes (film_update_passes R fl ps)) X =
      pass_contains (remove_auto_passes ps) X := by
  apply bool_eq_of_true_iff
  rw [contains_removeAuto_iff, contains_removeAuto_iff]
  unfold film_update_passes film_finalize
  rw [show (∃ q ∈ stable_sort (compare_pass_order R)
        (film_dedup R fl.use_denoise (film_expand R fl ps)),
        q.type = X ∧ q.is_auto = false) ↔
      (∃ q ∈ film_dedup R fl.use_denoise (film_expand R fl ps),
        q.type = X ∧ q.is_auto = false) from by
    rw [←exists_in_passesOfType, passesOfType_stable_sort,
      exists_in_passesOfType]]
  rw [film_dedup_userT, film_expand_eq]
  constructor
  · rintro ⟨p, hp, ht, ha⟩
    rcases List.mem_append.mp hp with h1 | h2
    · obtain ⟨hql, -⟩ := (mem_removeAuto_iff ps p).mp h1
      exact ⟨p, hql, ht, ha⟩
    · rw [expand_tail_auto R fl _ p h2] at ha
      cases ha
  · rintro ⟨q, hq, ht, ha⟩
    exact ⟨q, List.mem_append_left _ ((mem_removeAuto_iff ps q).mpr ⟨hq, ha⟩),
      ht, ha⟩

theorem clsMem_append_left (x y : List Pass) (t : PassType) (m : PassMode)
    (h : clsMem x t m = true) : clsMem (x ++ y) t m = true := by
  rw [clsMem_append, h]
  rfl

theorem clsMem_replace (l1 l2 : List Pass) (x y : Pass) (ht : x.type = y.type)
    (hm : x.mode = y.mode) :
    ∀ t m, clsMem (l1 ++ x :: l2) t m = clsMem (l1 ++ y :: l2) t m := by
  intro t m
  unfold clsMem
  rw [List.any_append, List.any_append, List.any_cons, List.any_cons, ht, hm]

theorem noisy_normalized (R : PassRegistry) (u : Bool) (p : Pass)
    (h : p.mode = PassMode.NOISY) : pass_normalize R u p = p := by
  unfold pass_normalize
  rw [h, ite_self, ←h]

theorem auto_noisy_ne_denoised (a b : PassType) :
    ¬ auto_noisy a = auto_denoised b := by
  intro h
  have : PassMode.NOISY = PassMode.DENOISED := congrArg Pass.mode h
  cases this

theorem denoised_normalized (R : PassRegistry) (u : Bool) (T : PassType)
    (h : (u && R.support_denoise T) = true) :
    pass_normalize R u (auto_denoised T) = auto_denoised T := by
  unfold pass_normalize
  rw [show (auto_denoised T).type = T from rfl, h]
  rfl

theorem try_merge_of_prefix (p : Pass) :
    ∀ (l1 : List Pass) (e : Pass) (l2 : List Pass),
    (∀ q ∈ l1, pass_mergeable q p = false) → pass_mergeable e p = true →
    try_merge p (l1 ++ e :: l2) = some (l1 ++ pass_merge e p :: l2) := by
  intro l1
  induction l1 with
  | nil =>
    intro e l2 _ he
    rw [List.nil_append, try_merge_cons, if_pos he, List.nil_append]
  | cons q rest ih =>
    intro e l2 hpre he
    rw [List.cons_append, try_merge_cons,
      if_neg (by simp [hpre q (List.mem_cons_self q rest)]),
      ih e l2 (fun x hx => hpre x (List.mem_cons_of_mem q hx)) he]
    rw [List.cons_append]

theorem pass_merge_noop (q p : Pass) (hn : ¬ q.name = ("")) (hp : p.is_auto = true) :
    pass_merge q p = q := by
  unfold pass_merge
  rw [hp]
  have h1 : (if p.name ≠ "" ∧ q.name = "" then p.name else q.name) = q.name := by
    rw [if_neg]
    rintro ⟨-, h⟩
    exact hn h
  rw [h1, Bool.and_true]

theorem removeAuto_eq_self (l : List Pass) (h : ∀ q ∈ l, q.is_auto = false) :
    remove_auto_passes l = l := by
  unfold remove_auto_passes
  apply List.filter_eq_self.mpr
  intro a ha
  simp [h a ha]

theorem removeAuto_eq_nil (l : List Pass) (h : ∀ q ∈ l, q.is_auto = true) :
    remove_auto_passes l = [] := by
  unfold remove_auto_passes
  apply List.filter_eq_nil_iff.mpr
  intro a ha
  simp [h a ha]

theorem removeAuto_append (x y : List Pass) :
    remove_auto_passes (x ++ y) = remove_auto_passes x ++ remove_auto_passes y := by
  unfold remove_auto_passes
  exact List.filter_append x y

theorem fresh_tail_eq (B : List Pass) (T : PassType) (t1 t2 : List Pass)
    (h1 : ∀ v ∈ t1, v = auto_noisy T ∨ v = auto_denoised T)
    (h2 : ∀ v ∈ t2, v = auto_noisy T ∨ v = auto_denoised T)
    (hmem : ∀ v, v ∈ t1 ↔ v ∈ t2)
    (ho : auto_denoised T ∈ t1 →
      clsMem B T PassMode.DENOISED = true ∨ clsMem B T PassMode.NOISY = true) :
    auto_fresh B t1 = auto_fresh B t2 :=
  auto_fresh_two B (auto_noisy T) (auto_denoised T) t1 t2 h1 h2 hmem ho

theorem core_unnamed (R : PassRegistry) (u : Bool) (T : PassType)
    (B ft t1 t2 st : List Pass)
    (hBtype : ∀ q ∈ B, q.type = T)
    (hft : ∀ v ∈ ft, v = auto_noisy T)
    (h1 : ∀ v ∈ t1, v = auto_noisy T ∨ v = auto_denoised T)
    (h2 : ∀ v ∈ t2, v = auto_noisy T ∨ v = auto_denoised T)
    (hst : ∀ v ∈ st, v = auto_noisy T)
    (hmem : ∀ v, v ∈ t1 ↔ v ∈ t2)
    (ho : auto_denoised T ∈ t1 → B ≠ [] ∨ auto_noisy T ∈ ft) :
    auto_fresh B (ft ++ (t1 ++ st)) = auto_fresh B (ft ++ (t2 ++ st)) := by
  rw [auto_fresh_append B ft (t1 ++ st), auto_fresh_append B ft (t2 ++ st)]
  congr 1
  apply fresh_tail_eq (B ++ auto_fresh B ft) T
  · intro v hv
    rcases List.mem_append.mp hv with h | h
    · exact h1 v h
    · exact Or.inl (hst v h)
  · intro v hv
    rcases List.mem_append.mp hv with h | h
    · exact h2 v h
    · exact Or.inl (hst v h)
  · intro v
    rw [List.mem_append, List.mem_append, hmem v]
  · intro hvd
    have hvd1 : auto_denoised T ∈ t1 := by
      rcases List.mem_append.mp hvd with h | h
      · exact h
      · exact absurd (hst _ h).symm (auto_noisy_ne_denoised T T)
    rcases ho hvd1 with hB | hvn
    · obtain ⟨q, hq⟩ := List.exists_mem_of_ne_nil B hB
      have hqT : q.type = T := hBtype q hq
      cases hqm : q.mode with
      | NOISY =>
        right
        apply clsMem_append_left
        unfold clsMem
        simp only [List.any_eq_true, Bool.and_eq_true, decide_eq_true_eq]
        exact ⟨q, hq, hqT, hqm⟩
      | DENOISED =>
        left
        apply clsMem_append_left
        unfold clsMem
        simp only [List.any_eq_true, Bool.and_eq_true, decide_eq_true_eq]
        exact ⟨q, hq, hqT, hqm⟩
    · exact Or.inr (auto_fresh_cls B ft (auto_noisy T) hvn)

theorem core_bake (R : PassRegistry) (u : Bool) (T : PassType)
    (B ft dep1 dep2 : List Pass) (vb : Pass)
    (hBauto : ∀ q ∈ B, q.is_auto = false)
    (hBtype : ∀ q ∈ B, q.type = T)
    (hft : ∀ v ∈ ft, v = auto_noisy T)
    (h1 : ∀ v ∈ dep1, v = auto_noisy T ∨ v = auto_denoised T)
    (h2 : ∀ v ∈ dep2, v = auto_noisy T ∨ v = auto_denoised T)
    (hmem : ∀ v, v ∈ dep1 ↔ v ∈ dep2)
    (hds : auto_denoised T ∈ dep1 → (u && R.support_denoise T) = true)
    (ho : auto_denoised T ∈ dep1 → B ≠ [] ∨ auto_noisy T ∈ ft)
    (hvbname : ¬ vb.name = (""))
    (hvbauto : vb.is_auto = true)
    (hvbmode : vb.mode = PassMode.NOISY) :
    (ft ++ (dep2 ++ [vb])).foldl (dedup_step R u)
        (remove_auto_passes ((ft ++ (dep1 ++ [vb])).foldl (dedup_step R u) B)) =
      (ft ++ (dep1 ++ [vb])).foldl (dedup_step R u) B := by
  have hvn_props : ∀ v : Pass, v = auto_noisy T →
      v.name = ("") ∧ v.is_auto = true ∧ pass_normalize R u v = v := by
    rintro v rfl
    exact ⟨rfl, rfl, noisy_normalized R u _ rfl⟩
  have hvd_norm : auto_denoised T ∈ dep1 →
      pass_normalize R u (auto_denoised T) = auto_denoised T :=
    fun h => denoised_normalized R u T (hds h)
  have hunn1 : ∀ v ∈ ft ++ dep1,
      v.name = ("") ∧ v.is_auto = true ∧ pass_normalize R u v = v := by
    intro v hv
    rcases List.mem_append.mp hv with h | h
    · exact hvn_props v (hft v h)
    · rcases h1 v h with rfl | rfl
      · exact hvn_props _ rfl
      · exact ⟨rfl, rfl, hvd_norm h⟩
  have hunn2 : ∀ v ∈ ft ++ dep2,
      v.name = ("") ∧ v.is_auto = true ∧ pass_normalize R u v = v := by
    intro v hv
    rcases List.mem_append.mp hv with h | h
    · exact hvn_props v (hft v h)
    · rcases h2 v h with rfl | rfl
      · exact hvn_props _ rfl
      · exact ⟨rfl, rfl, hvd_norm ((hmem _).mpr h)⟩
  have hvb_norm : pass_normalize R u vb = vb := noisy_normalized R u vb hvbmode
  have hstep : ∀ X : List Pass, dedup_step R u X vb =
      (match try_merge vb X with
       | some m => m
       | none => X ++ [vb]) := by
    intro X
    unfold dedup_step
    rw [hvb_norm]
  have hsplit1 : ∀ X : List Pass,
      (ft ++ (dep1 ++ [vb])).foldl (dedup_step R u) X =
        dedup_step R u (X ++ auto_fresh X (ft ++ dep1)) vb := by
    intro X
    rw [show ft ++ (dep1 ++ [vb]) = (ft ++ dep1) ++ [vb] by simp,
      List.foldl_append, fold_unnamed R u (ft ++ dep1) X hunn1]
    rfl
  have hsplit2 : ∀ X : List Pass,
      (ft ++ (dep2 ++ [vb])).foldl (dedup_step R u) X =
        dedup_step R u (X ++ auto_fresh X (ft ++ dep2)) vb := by
    intro X
    rw [show ft ++ (dep2 ++ [vb]) = (ft ++ dep2) ++ [vb] by simp,
      List.foldl_append, fold_unnamed R u (ft ++ dep2) X hunn2]
    rfl
  have hfeq : auto_fresh B (ft ++ dep2) = auto_fresh B (ft ++ dep1) := by
    have := core_unnamed R u T B ft dep2 dep1 [] hBtype hft h2 h1
      (by intro v hv; simp at hv) (fun v => (hmem v).symm)
      (fun h => ho ((hmem _).mpr h))
    simpa using this
  have hF1auto : ∀ q ∈ auto_fresh B (ft ++ dep1), q.is_auto = true :=
    fun q hq => (hunn1 q (auto_fresh_mem B (ft ++ dep1) q hq)).2.1
  cases htmB : try_merge vb B with
  | some m =>
    obtain ⟨l1, e, l2, hBsplit, hmsplit, he, hpre⟩ :=
      try_merge_some_split vb B m htmB
    have heB : e ∈ B := by
      rw [hBsplit]
      exact List.mem_append_right _ (List.mem_cons_self e l2)
    have heP : e.type = vb.type ∧ e.mode = vb.mode ∧
        (vb.name = ("") ∨ e.name = ("") ∨ vb.name = e.name) := by
      have := he
      unfold pass_mergeable at this
      simpa using this
    have hename : e.name = ("") ∨ e.name = vb.name := by
      rcases heP.2.2 with hv | hen | heq
      · exact absurd hv hvbname
      · exact Or.inl hen
      · exact Or.inr heq.symm
    have he'name : (pass_merge e vb).name = vb.name := by
      rcases hename with hen | hen
      · show (if vb.name ≠ ("") ∧ e.name = ("") then vb.name else e.name) = vb.name
        rw [if_pos ⟨hvbname, hen⟩]
      · show (if vb.name ≠ ("") ∧ e.name = ("") then vb.name else e.name) = vb.name
        rw [if_neg (by rintro ⟨-, hh⟩; rw [hh] at hen; exact hvbname hen.symm), hen]
    have he'merge : pass_mergeable (pass_merge e vb) vb = true := by
      unfold pass_mergeable
      simp only [decide_eq_true_eq]
      refine ⟨(pass_merge_type e vb).trans heP.1,
        (pass_merge_mode e vb).trans heP.2.1, ?_⟩
      rintro ⟨-, -, hne⟩
      exact hne he'name.symm
    have hD1 : dedup_step R u (B ++ auto_fresh B (ft ++ dep1)) vb =
        m ++ auto_fresh B (ft ++ dep1) := by
      rw [hstep (B ++ auto_fresh B (ft ++ dep1)),
        try_merge_append_some vb B (auto_fresh B (ft ++ dep1)) m htmB]
    have hmauto : ∀ q ∈ m, q.is_auto = false := by
      intro q hq
      rw [hmsplit] at hq
      rcases List.mem_append.mp hq with hq1 | hq2
      · exact hBauto q (by rw [hBsplit]; exact List.mem_append_left _ hq1)
      · rcases List.mem_cons.mp hq2 with rfl | hq3
        · rw [pass_merge_auto, hBauto e heB, Bool.false_and]
        · exact hBauto q
            (by rw [hBsplit]
                exact List.mem_append_right _ (List.mem_cons_of_mem e hq3))
    have hra : remove_auto_passes (m ++ auto_fresh B (ft ++ dep1)) = m := by
      rw [removeAuto_append, removeAuto_eq_self m hmauto,
        removeAuto_eq_nil _ hF1auto, List.append_nil]
    have hclsm : ∀ t mm, clsMem m t mm = clsMem B t mm := by
      intro t mm
      rw [hmsplit, hBsplit]
      exact clsMem_replace l1 l2 (pass_merge e vb) e
        (pass_merge_type e vb) (pass_merge_mode e vb) t mm
    have hFm : auto_fresh m (ft ++ dep2) = auto_fresh B (ft ++ dep1) := by
      rw [auto_fresh_congr (ft ++ dep2) m B hclsm, hfeq]
    have hnoop : dedup_step R u (m ++ auto_fresh B (ft ++ dep1)) vb =
        m ++ auto_fresh B (ft ++ dep1) := by
      rw [hstep]
      have htm2 : try_merge vb (m ++ auto_fresh B (ft ++ dep1)) =
          some (m ++ auto_fresh B (ft ++ dep1)) := by
        rw [hmsplit, show (l1 ++ pass_merge e vb :: l2) ++
            auto_fresh B (ft ++ dep1) =
            l1 ++ pass_merge e vb :: (l2 ++ auto_fresh B (ft ++ dep1)) by simp,
          try_merge_of_prefix vb l1 (pass_merge e vb)
            (l2 ++ auto_fresh B (ft ++ dep1)) hpre he'merge,
          pass_merge_noop (pass_merge e vb) vb
            (by rw [he'name]; exact hvbname) hvbauto]
      rw [htm2]
    rw [hsplit1 B, hD1, hra, hsplit2 m, hFm, hnoop]
  | none =>
    have hD1f : dedup_step R u (B ++ auto_fresh B (ft ++ dep1)) vb =
        B ++ (match try_merge vb (auto_fresh B (ft ++ dep1)) with
              | some m2 => m2
              | none => auto_fresh B (ft ++ dep1) ++ [vb]) := by
      rw [hstep, try_merge_append_none vb B (auto_fresh B (ft ++ dep1)) htmB]
      cases h2f : try_merge vb (auto_fresh B (ft ++ dep1)) <;> simp
    have hZauto : ∀ q ∈ (match try_merge vb (auto_fresh B (ft ++ dep1)) with
        | some m2 => m2
        | none => auto_fresh B (ft ++ dep1) ++ [vb]), q.is_auto = true := by
      cases h2f : try_merge vb (auto_fresh B (ft ++ dep1)) with
      | none =>
        intro q hq
        rcases List.mem_append.mp hq with hq1 | hq2
        · exact hF1auto q hq1
        · rw [List.mem_singleton] at hq2
          subst hq2
          exact hvbauto
      | some m2 =>
        intro q hq
        obtain ⟨f1, e2, f2, hFsplit, hm2split, he2, -⟩ :=
          try_merge_some_split vb (auto_fresh B (ft ++ dep1)) m2 h2f
        rw [hm2split] at hq
        rcases List.mem_append.mp hq with hq1 | hq2
        · exact hF1auto q (by rw [hFsplit]; exact List.mem_append_left _ hq1)
        · rcases List.mem_cons.mp hq2 with rfl | hq3
          · rw [pass_merge_auto, hvbauto, Bool.and_true]
            exact hF1auto e2
              (by rw [hFsplit]
                  exact List.mem_append_right _ (List.mem_cons_self e2 f2))
          · exact hF1auto q
              (by rw [hFsplit]
                  exact List.mem_append_right _ (List.mem_cons_of_mem e2 hq3))
    have hra : remove_auto_passes
        (B ++ (match try_merge vb (auto_fresh B (ft ++ dep1)) with
               | some m2 => m2
               | none => auto_fresh B (ft ++ dep1) ++ [vb])) = B := by
      rw [removeAuto_append, removeAuto_eq_self B hBauto,
        removeAuto_eq_nil _ hZauto, List.append_nil]
    rw [hsplit1 B, hD1f, hra, hsplit2 B, hfeq, hD1f]

theorem auto_denoised_inj (a b : PassType) (h : auto_denoised a = auto_denoised b) :
    a = b := congrArg Pass.type h

theorem passesOfType_removeAuto (T : PassType) (l : List Pass) :
    passesOfType T (remove_auto_passes l) =
      remove_auto_passes (passesOfType T l) := by
  unfold passesOfType remove_auto_passes
  rw [List.filter_filter, List.filter_filter]
  congr 1
  funext p
  rw [Bool.and_comm]

theorem dedup_step_ne_nil (R : PassRegistry) (u : Bool) (acc : List Pass)
    (p : Pass) : dedup_step R u acc p ≠ [] := by
  unfold dedup_step
  dsimp only
  cases htm : try_merge (pass_normalize R u p) acc with
  | none => simp
  | some m =>
    obtain ⟨l1, e, l2, -, hm, -, -⟩ :=
      try_merge_some_split (pass_normalize R u p) acc m htm
    rw [hm]
    simp

theorem fold_dedup_ne_nil (R : PassRegistry) (u : Bool) :
    ∀ (l acc : List Pass), acc ≠ [] → l.foldl (dedup_step R u) acc ≠ [] := by
  intro l
  induction l with
  | nil => intro acc h; exact h
  | cons p rest ih =>
    intro acc _
    exact ih (dedup_step R u acc p) (dedup_step_ne_nil R u acc p)

theorem film_dedup_ne_nil (R : PassRegistry) (u : Bool) (l : List Pass)
    (h : l ≠ []) : film_dedup R u l ≠ [] := by
  unfold film_dedup
  cases l with
  | nil => exact absurd rfl h
  | cons p rest =>
    rw [List.foldl_cons]
    exact fold_dedup_ne_nil R u rest (dedup_step R u [] p)
      (dedup_step_ne_nil R u [] p)

theorem dep_flatten_mem_congr (R : PassRegistry) (u : Bool) (s1 s2 : List Pass)
    (h : ∀ X, pass_contains s1 X = pass_contains s2 X) (v : Pass) :
    (v ∈ (s1.map (fun p => dep_block R u p.type)).flatten ↔
     v ∈ (s2.map (fun p => dep_block R u p.type)).flatten) := by
  rw [mem_dep_flatten_iff, mem_dep_flatten_iff]
  constructor
  · rintro ⟨X, hX, hv⟩
    exact ⟨X, by rw [←h X]; exact hX, hv⟩
  · rintro ⟨X, hX, hv⟩
    exact ⟨X, by rw [h X]; exact hX, hv⟩

theorem dep_flatten_contains_congr (R : PassRegistry) (u : Bool)
    (s1 s2 : List Pass)
    (h : ∀ X, pass_contains s1 X = pass_contains s2 X) (X : PassType) :
    pass_contains ((s1.map (fun p => dep_block R u p.type)).flatten) X =
      pass_contains ((s2.map (fun p => dep_block R u p.type)).flatten) X := by
  apply bool_eq_of_true_iff
  rw [pass_contains_iff, pass_contains_iff]
  constructor
  · rintro ⟨p, hp, ht⟩
    exact ⟨p, (dep_flatten_mem_congr R u s1 s2 h p).mp hp, ht⟩
  · rintro ⟨p, hp, ht⟩
    exact ⟨p, (dep_flatten_mem_congr R u s1 s2 h p).mpr hp, ht⟩

theorem expand_tail_parts (R : PassRegistry) (fl : FilmFlags) (users : List Pass) :
    expand_tail R fl users =
      feature_tail fl users ++
      (((users ++ feature_tail fl users).map
          (fun p => dep_block R fl.use_denoise p.type)).flatten ++
       ((if fl.baking then
           [{ type := PassType.BAKE_PRIMITIVE, mode := PassMode.NOISY,
              name := "BakePrimitive", is_auto := true, written := true },
            { type := PassType.BAKE_DIFFERENTIAL, mode := PassMode.NOISY,
              name := "BakeDifferential", is_auto := true, written := true }]
         else []) ++
        (if fl.add_sample_count_pass &&
            !pass_contains (users ++ feature_tail fl users ++
              ((users ++ feature_tail fl users).map
                (fun p => dep_block R fl.use_denoise p.type)).flatten ++
              (if fl.baking then
                 [{ type := PassType.BAKE_PRIMITIVE, mode := PassMode.NOISY,
                    name := "BakePrimitive", is_auto := true, written := true },
                  { type := PassType.BAKE_DIFFERENTIAL, mode := PassMode.NOISY,
                    name := "BakeDifferential", is_auto := true, written := true }]
               else [])) PassType.SAMPLE_COUNT then
           [auto_noisy PassType.SAMPLE_COUNT]
         else []))) := by
  unfold expand_tail
  dsimp only
  simp only [List.append_assoc]

theorem per_type_core (R : PassRegistry) (u : Bool) (T : PassType)
    (B ft dep1 dep2 bt st : List Pass)
    (hBauto : ∀ q ∈ B, q.is_auto = false)
    (hBtype : ∀ q ∈ B, q.type = T)
    (hft : ∀ v ∈ ft, v = auto_noisy T)
    (h1 : ∀ v ∈ dep1, v = auto_noisy T ∨ v = auto_denoised T)
    (h2 : ∀ v ∈ dep2, v = auto_noisy T ∨ v = auto_denoised T)
    (hst : ∀ v ∈ st, v = auto_noisy T)
    (hmem : ∀ v, v ∈ dep1 ↔ v ∈ dep2)
    (hds : auto_denoised T ∈ dep1 → (u && R.support_denoise T) = true)
    (ho : auto_denoised T ∈ dep1 → B ≠ [] ∨ auto_noisy T ∈ ft)
    (hbt : bt = [] ∨ (∃ nm, ¬ nm = ("") ∧
      bt = [{ type := T, mode := PassMode.NOISY, name := nm, is_auto := true,
              written := true }] ∧ st = [])) :
    (ft ++ (dep2 ++ (bt ++ st))).foldl (dedup_step R u)
        (remove_auto_passes
          ((ft ++ (dep1 ++ (bt ++ st))).foldl (dedup_step R u) B)) =
      (ft ++ (dep1 ++ (bt ++ st))).foldl (dedup_step R u) B := by
  rcases hbt with rfl | ⟨nm, hnm, rfl, rfl⟩
  · simp only [List.nil_append]
    have hvn_props : ∀ v : Pass, v = auto_noisy T →
        v.name = ("") ∧ v.is_auto = true ∧ pass_normalize R u v = v := by
      rintro v rfl
      exact ⟨rfl, rfl, noisy_normalized R u _ rfl⟩
    have hvd_norm : auto_denoised T ∈ dep1 →
        pass_normalize R u (auto_denoised T) = auto_denoised T :=
      fun h => denoised_normalized R u T (hds h)
    have hunn1 : ∀ v ∈ ft ++ (dep1 ++ st),
        v.name = ("") ∧ v.is_auto = true ∧ pass_normalize R u v = v := by
      intro v hv
      rcases List.mem_append.mp hv with h | h
      · exact hvn_props v (hft v h)
      · rcases List.mem_append.mp h with h | h
        · rcases h1 v h with rfl | rfl
          · exact hvn_props _ rfl
          · exact ⟨rfl, rfl, hvd_norm h⟩
        · exact hvn_props v (hst v h)
    have hunn2 : ∀ v ∈ ft ++ (dep2 ++ st),
        v.name = ("") ∧ v.is_auto = true ∧ pass_normalize R u v = v := by
      intro v hv
      rcases List.mem_append.mp hv with h | h
      · exact hvn_props v (hft v h)
      · rcases List.mem_append.mp h with h | h
        · rcases h2 v h with rfl | rfl
          · exact hvn_props _ rfl
          · exact ⟨rfl, rfl, hvd_norm ((hmem _).mpr h)⟩
        · exact hvn_props v (hst v h)
    rw [fold_unnamed R u (ft ++ (dep1 ++ st)) B hunn1]
    have hra : remove_auto_passes
        (B ++ auto_fresh B (ft ++ (dep1 ++ st))) = B := by
      rw [removeAuto_append, removeAuto_eq_self B hBauto,
        removeAuto_eq_nil _
          (fun q hq => (hunn1 q (auto_fresh_mem _ _ q hq)).2.1),
        List.append_nil]
    rw [hra, fold_unnamed R u (ft ++ (dep2 ++ st)) B hunn2,
      core_unnamed R u T B ft dep2 dep1 st hBtype hft h2 h1 hst
        (fun v => (hmem v).symm) (fun h => ho ((hmem _).mpr h))]
  · simp only [List.append_nil]
    exact core_bake R u T B ft dep1 dep2 _ hBauto hBtype hft h1 h2 hmem hds ho
      hnm rfl rfl

theorem dedup_usersT_elem (R : PassRegistry) (u : Bool) (T : PassType)
    (l : List Pass) :
    ∀ q ∈ film_dedup R u (passesOfType T (remove_auto_passes l)),
      q.is_auto = false ∧ q.type = T := by
  intro q hq
  unfold film_dedup at hq
  refine fold_dedup_elem R u (fun x => x.is_auto = false ∧ x.type = T) ?_ _ []
    (by intro x hx; simp at hx) ?_ q hq
  · intro a p2 hP
    exact ⟨by rw [pass_merge_auto, hP.1, Bool.false_and],
      by rw [pass_merge_type]; exact hP.2⟩
  · intro p hp
    have h1 := List.mem_filter.mp hp
    constructor
    · show (pass_normalize R u p).is_auto = false
      rw [pass_normalize_auto]
      exact ((mem_removeAuto_iff l p).mp h1.1).2
    · show (pass_normalize R u p).type = T
      rw [pass_normalize_type]
      simpa using h1.2

/-- C4: expanding and resolving a pass list with `Film::update_passes` is
idempotent: running update_passes on its own output (same scene flags and
registry) returns that output unchanged. -/
theorem C4_update_passes_idempotent (R : PassRegistry) (fl : FilmFlags)
    (passes : List Pass) :
    film_update_passes R fl (film_update_passes R fl passes) =
      film_update_passes R fl passes := by
  have hUdef : ∀ ps : List Pass, film_update_passes R fl ps =
      stable_sort (compare_pass_order R)
        (film_dedup R fl.use_denoise (film_expand R fl ps)) := fun ps => rfl
  apply sorted_eq_of_filters R
  · rw [hUdef]
    exact stable_sort_sorted R _
  · rw [hUdef]
    exact stable_sort_sorted R _
  intro T
  have hfil : ∀ ps : List Pass, passesOfType T (film_update_passes R fl ps) =
      film_dedup R fl.use_denoise (passesOfType T (film_expand R fl ps)) := by
    intro ps
    rw [hUdef ps, passesOfType_stable_sort, film_dedup_filter]
  rw [hfil, hfil]
  set F := film_update_passes R fl passes with hFdef
  rw [film_expand_eq R fl F, film_expand_eq R fl passes]
  set U1 := remove_auto_passes passes with hU1def
  set U2 := remove_auto_passes F with hU2def
  have hcont : ∀ X, pass_contains U2 X = pass_contains U1 X := by
    intro X
    rw [hU2def, hU1def, hFdef]
    exact users_contains_preserved R fl passes X
  have hften : feature_tail fl U2 = feature_tail fl U1 :=
    feature_tail_congr fl U2 U1 (hcont PassType.SHADOW_CATCHER)
  rw [expand_tail_parts R fl U2, expand_tail_parts R fl U1, hften]
  set u := fl.use_denoise with hu
  set ft1 := feature_tail fl U1 with hft1
  set dt1 := ((U1 ++ ft1).map (fun p => dep_block R u p.type)).flatten with hdt1
  set dt2 := ((U2 ++ ft1).map (fun p => dep_block R u p.type)).flatten with hdt2
  set bt0 := (if fl.baking then
      [{ type := PassType.BAKE_PRIMITIVE, mode := PassMode.NOISY,
         name := "BakePrimitive", is_auto := true, written := true },
       { type := PassType.BAKE_DIFFERENTIAL, mode := PassMode.NOISY,
         name := "BakeDifferential", is_auto := true, written := true }]
    else ([] : List Pass)) with hbt0
  have hsnapc : ∀ X, pass_contains (U2 ++ ft1) X =
      pass_contains (U1 ++ ft1) X := by
    intro X
    rw [pass_contains_append, pass_contains_append, hcont X]
  have hdmem : ∀ v : Pass, (v ∈ dt2 ↔ v ∈ dt1) := by
    intro v
    rw [hdt2, hdt1]
    exact dep_flatten_mem_congr R u (U2 ++ ft1) (U1 ++ ft1) hsnapc v
  have hdcont : ∀ X, pass_contains dt2 X = pass_contains dt1 X := by
    intro X
    rw [hdt2, hdt1]
    exact dep_flatten_contains_congr R u (U2 ++ ft1) (U1 ++ ft1) hsnapc X
  have hstcond : (fl.add_sample_count_pass &&
      !pass_contains (U2 ++ ft1 ++ dt2 ++ bt0) PassType.SAMPLE_COUNT) =
      (fl.add_sample_count_pass &&
      !pass_contains (U1 ++ ft1 ++ dt1 ++ bt0) PassType.SAMPLE_COUNT) := by
    simp only [pass_contains_append, hcont, hdcont]
  rw [hstcond]
  set st1 := (if fl.add_sample_count_pass &&
      !pass_contains (U1 ++ ft1 ++ dt1 ++ bt0) PassType.SAMPLE_COUNT then
      [auto_noisy PassType.SAMPLE_COUNT] else ([] : List Pass)) with hst1
  simp only [passesOfType_append]
  have hdsplit : ∀ (x y : List Pass), film_dedup R u (x ++ y) =
      y.foldl (dedup_step R u) (film_dedup R u x) := by
    intro x y
    unfold film_dedup
    rw [List.foldl_append]
  rw [hdsplit, hdsplit]
  have hU2T : passesOfType T U2 = remove_auto_passes (passesOfType T F) := by
    rw [hU2def, passesOfType_removeAuto]
  have hinvF : dedup_inv R u (passesOfType T F) := by
    rw [hFdef, hfil passes]
    exact film_dedup_inv R u _
  have husers2 : film_dedup R u (passesOfType T U2) = passesOfType T U2 := by
    obtain ⟨hn, hp⟩ := hinvF
    apply film_dedup_fixpoint
    · intro p hp2
      rw [hU2T] at hp2
      exact hn p ((mem_removeAuto_iff _ p).mp hp2).1
    · rw [hU2T]
      exact List.Pairwise.sublist (List.filter_sublist _) hp
  have hFT : passesOfType T F =
      (passesOfType T ft1 ++ (passesOfType T dt1 ++
        (passesOfType T bt0 ++ passesOfType T st1))).foldl (dedup_step R u)
        (film_dedup R u (passesOfType T U1)) := by
    rw [hFdef, hfil passes, film_expand_eq R fl passes, ←hU1def,
      expand_tail_parts R fl U1, ←hft1, ←hdt1, ←hbt0, ←hst1]
    simp only [passesOfType_append]
    rw [hdsplit]
  rw [husers2, hU2T, hFT]
  -- per-type core application
  apply per_type_core R u T
  · intro q hq
    rw [hU1def] at hq
    exact (dedup_usersT_elem R u T passes q hq).1
  · intro q hq
    rw [hU1def] at hq
    exact (dedup_usersT_elem R u T passes q hq).2
  · intro v hv
    obtain ⟨hvf, hvt⟩ := List.mem_filter.mp hv
    have := feature_tail_elems fl U1 v hvf
    rw [this]
    rw [show v.type = T by simpa using hvt]
  · intro v hv
    obtain ⟨hvd, hvt⟩ := List.mem_filter.mp hv
    have hvT : v.type = T := by simpa using hvt
    rw [hdt1] at hvd
    obtain ⟨X, -, hvb⟩ := (mem_dep_flatten_iff R u _ v).mp hvd
    rcases dep_block_elems R u X v hvb with ⟨t, rfl⟩ | ⟨rfl, -, -⟩
    · left
      rw [show t = T from hvT]
    · right
      rw [show X = T from hvT]
  · intro v hv
    obtain ⟨hvd, hvt⟩ := List.mem_filter.mp hv
    have hvT : v.type = T := by simpa using hvt
    rw [hdt2] at hvd
    obtain ⟨X, -, hvb⟩ := (mem_dep_flatten_iff R u _ v).mp hvd
    rcases dep_block_elems R u X v hvb with ⟨t, rfl⟩ | ⟨rfl, -, -⟩
    · left
      rw [show t = T from hvT]
    · right
      rw [show X = T from hvT]
  · intro v hv
    obtain ⟨hvs, hvt⟩ := List.mem_filter.mp hv
    rw [hst1] at hvs
    have := mem_ite_nil _ _ v hvs
    rw [List.mem_singleton] at this
    subst this
    rw [show PassType.SAMPLE_COUNT = T by simpa using hvt]
  · intro v
    constructor
    · intro hm
      obtain ⟨hm1, hm2⟩ := List.mem_filter.mp hm
      exact List.mem_filter.mpr ⟨(hdmem v).mpr hm1, hm2⟩
    · intro hm
      obtain ⟨hm1, hm2⟩ := List.mem_filter.mp hm
      exact List.mem_filter.mpr ⟨(hdmem v).mp hm1, hm2⟩
  · intro hvd
    obtain ⟨hm, -⟩ := List.mem_filter.mp hvd
    rw [hdt1] at hm
    obtain ⟨X, -, hvb⟩ := (mem_dep_flatten_iff R u _ _).mp hm
    rcases dep_block_elems R u X _ hvb with ⟨t, ht⟩ | ⟨ht, hs, hu2⟩
    · exact absurd ht.symm (auto_noisy_ne_denoised t T)
    · have hXT : X = T := (auto_denoised_inj T X (by rw [←ht])).symm
      rw [←hXT]
      rw [Bool.and_comm]
      rw [hs, hu2]
      rfl
  · intro hvd
    obtain ⟨hm, -⟩ := List.mem_filter.mp hvd
    rw [hdt1] at hm
    obtain ⟨X, hXc, hvb⟩ := (mem_dep_flatten_iff R u _ _).mp hm
    rcases dep_block_elems R u X _ hvb with ⟨t, ht⟩ | ⟨ht, -, -⟩
    · exact absurd ht.symm (auto_noisy_ne_denoised t T)
    · have hXT : X = T := (auto_denoised_inj T X (by rw [←ht])).symm
      subst hXT
      rw [pass_contains_append] at hXc
      rcases Bool.or_eq_true_iff.mp hXc with hc1 | hc2
      · left
        obtain ⟨p, hp, hpt⟩ := (pass_contains_iff U1 X).mp hc1
        have hpf : p ∈ passesOfType X U1 :=
          List.mem_filter.mpr ⟨hp, by simpa using hpt⟩
        rw [hU1def]
        apply film_dedup_ne_nil
        rw [hU1def] at hpf
        exact List.ne_nil_of_mem hpf
      · right
        obtain ⟨w, hw, hwt⟩ := (pass_contains_iff ft1 X).mp hc2
        have hwv : w = auto_noisy X := by
          rw [feature_tail_elems fl U1 w hw, hwt]
        apply List.mem_filter.mpr
        constructor
        · rw [←hwv]
          exact hw
        · show decide ((auto_noisy X).type = X) = true
          simp [auto_noisy]
  · by_cases hbk : fl.baking = true
    · rw [hbt0, if_pos hbk]
      by_cases h1 : T = PassType.BAKE_PRIMITIVE
      · subst h1
        right
        refine ⟨("BakePrimitive"), by simp, ?_, ?_⟩
        · rw [passesOfType_cons_pos _ _ _ (by rfl),
            passesOfType_cons_neg _ _ _ (by decide)]
          rfl
        · rw [hst1]
          by_cases hc : (fl.add_sample_count_pass &&
              !pass_contains (U1 ++ ft1 ++ dt1 ++ bt0)
                PassType.SAMPLE_COUNT) = true
          · rw [if_pos hc, passesOfType_cons_neg _ _ _ (by decide)]
            rfl
          · rw [if_neg hc]
            rfl
      · by_cases h2 : T = PassType.BAKE_DIFFERENTIAL
        · subst h2
          right
          refine ⟨("BakeDifferential"), by simp, ?_, ?_⟩
          · rw [passesOfType_cons_neg _ _ _ (by decide),
              passesOfType_cons_pos _ _ _ (by rfl)]
            rfl
          · rw [hst1]
            by_cases hc : (fl.add_sample_count_pass &&
                !pass_contains (U1 ++ ft1 ++ dt1 ++ bt0)
                  PassType.SAMPLE_COUNT) = true
            · rw [if_pos hc, passesOfType_cons_neg _ _ _ (by decide)]
              rfl
            · rw [if_neg hc]
              rfl
        · left
          rw [passesOfType_cons_neg _ _ _ (by simpa using fun e => h1 e.symm),
            passesOfType_cons_neg _ _ _ (by simpa using fun e => h2 e.symm)]
          rfl
    · left
      rw [hbt0, if_neg hbk]
      rfl
